import Mathlib

/-!
# slock: the screen locker, embedded in Lean

A shallow embedding of `slock.c`:

* `readpw`, the authentication loop, as a step function on an explicit state
  (password buffer, length cursor, running flag, failure flag, last broadcast
  colour) that also records the externally visible effects of each step;
* `lockscreen`, the grab-retry loop of one surface, run against the sequences
  of answers of the pointer-grab and keyboard-grab requests;
* the surface loop at the end of `main`;
* `compute_pixel` and the tile loop of `main`, on a pixel buffer of 32-bit words.

`unsigned int` values are natural numbers reduced modulo `2 ^ 32` wherever the
C code computes them.  Undefined behaviour of the C code (an access outside the
pixel buffer, a division by zero) is an explicit fault.
-/

namespace Slock

/-! ## Machine arithmetic -/

/-- The modulus of `unsigned int` arithmetic. -/
def U32 : Nat := 2 ^ 32

/-- Unsigned 32-bit addition. -/
def add32 (a b : Nat) : Nat := (a + b) % U32

/-- Unsigned 32-bit subtraction (wraps around below zero). -/
def sub32 (a b : Nat) : Nat := (a % U32 + U32 - b % U32) % U32

/-- Unsigned 32-bit multiplication. -/
def mul32 (a b : Nat) : Nat := (a * b) % U32

/-- The macro `MIN(A, B)`, which is `(A < B ? A : B)`. -/
def MIN (a b : Nat) : Nat := if a < b then a else b

/-! ## Constants of the X11 headers used by `readpw` and `lockscreen` -/

def XK_BackSpace : Nat := 0xff08
def XK_Return : Nat := 0xff0d
def XK_Escape : Nat := 0xff1b
def XK_Select : Nat := 0xff60
def XK_Break : Nat := 0xff6b
def XK_KP_Space : Nat := 0xff80
def XK_KP_Enter : Nat := 0xff8d
def XK_KP_F1 : Nat := 0xff91
def XK_KP_F4 : Nat := 0xff94
def XK_KP_0 : Nat := 0xffb0
def XK_KP_9 : Nat := 0xffb9
def XK_KP_Equal : Nat := 0xffbd
def XK_F1 : Nat := 0xffbe
def XK_F35 : Nat := 0xffe0
def XK_0 : Nat := 0x0030
def XF86XK_MonBrightnessUp : Nat := 0x1008FF02
def XF86XK_MonBrightnessDown : Nat := 0x1008FF03
def XF86XK_AudioLowerVolume : Nat := 0x1008FF11
def XF86XK_AudioMute : Nat := 0x1008FF12
def XF86XK_AudioRaiseVolume : Nat := 0x1008FF13
def XF86XK_AudioPlay : Nat := 0x1008FF14
def XF86XK_AudioStop : Nat := 0x1008FF15
def XF86XK_AudioPrev : Nat := 0x1008FF16
def XF86XK_AudioNext : Nat := 0x1008FF17
def XF86XK_AudioMicMute : Nat := 0x1008FFB2
def RR_Rotate_90 : Nat := 2
def RR_Rotate_270 : Nat := 8
def GrabSuccess : Int := 0
def AlreadyGrabbed : Int := 1

/-- The macro `IsKeypadKey` of `X11/Xutil.h`. -/
def IsKeypadKey (ksym : Nat) : Bool := decide (XK_KP_Space ≤ ksym) && decide (ksym ≤ XK_KP_Equal)

/-- The macro `IsPrivateKeypadKey` of `X11/Xutil.h`. -/
def IsPrivateKeypadKey (ksym : Nat) : Bool := decide (0x11000000 ≤ ksym) && decide (ksym ≤ 0x1100FFFF)

/-- The macro `IsPFKey` of `X11/Xutil.h`. -/
def IsPFKey (ksym : Nat) : Bool := decide (XK_KP_F1 ≤ ksym) && decide (ksym ≤ XK_KP_F4)

/-- The macro `IsFunctionKey` of `X11/Xutil.h`. -/
def IsFunctionKey (ksym : Nat) : Bool := decide (XK_F1 ≤ ksym) && decide (ksym ≤ XK_F35)

/-- The macro `IsMiscFunctionKey` of `X11/Xutil.h`. -/
def IsMiscFunctionKey (ksym : Nat) : Bool := decide (XK_Select ≤ ksym) && decide (ksym ≤ XK_Break)

/-! ## C library functions used by `readpw` -/

/-- The function `iscntrl` in the "C" locale (slock never calls `setlocale`): the
control characters are the bytes 0..31 and 127. -/
def iscntrl (c : Nat) : Bool := decide (c < 32) || decide (c = 127)

/-- The function `strcmp` on two C strings given by their bytes before the
terminating NUL: the difference of the first pair of bytes that differ, the
terminator counting as byte 0. -/
def strcmp : List Nat → List Nat → Int
  | [], [] => 0
  | [], b :: _ => 0 - (b : Int)
  | a :: _, [] => (a : Int)
  | a :: as, b :: bs => if a = b then strcmp as bs else (a : Int) - (b : Int)

/-- A list of bytes is the content of a C string when no byte of it is NUL. -/
def NulFree (l : List Nat) : Prop := ∀ b ∈ l, b ≠ 0

instance (l : List Nat) : Decidable (NulFree l) := by
  unfold NulFree; infer_instance

/-- The C string that starts at the beginning of a char array: its bytes up to
the first NUL. -/
def cstr (mem : List Nat) : List Nat := mem.takeWhile (fun b => b != 0)

/-- The call `memcpy(dst + off, src, n)` on a fixed-size array: byte `i` of `src`
goes to index `off + i`, for `i < n`. -/
def memcpy (dst : List Nat) (off : Nat) (src : List Nat) (n : Nat) : List Nat :=
  (List.range n).foldl (fun d i => d.set (off + i) (src.getD i 0)) dst

/-! ## The authentication loop `readpw` -/

/-- The colour index `enum { INIT, INPUT, FAILED, NUMCOLS }`. -/
inductive Color where
  | INIT
  | INPUT
  | FAILED
deriving DecidableEq, Repr

/-- The local variables of `readpw` that live across loop iterations. -/
structure State where
  passwd : List Nat
  len : Nat
  running : Bool
  failure : Bool
  oldc : Color
deriving DecidableEq, Repr

/-- What `XLookupString(&ev.xkey, buf, sizeof(buf), &ksym, 0)` hands back for a
key press: the key symbol, the 32-byte array `buf` and the returned byte
count `num`. -/
structure XKeyEvent where
  ksym : Nat
  buf : List Nat
  num : Nat
deriving DecidableEq, Repr

/-- The events `XNextEvent` delivers, by the three cases `readpw` tells apart: a
key press, an event of type `rr->evbase + RRScreenChangeNotify` (with the fields
of `XRRScreenChangeNotifyEvent` that are read), and anything else. -/
inductive XEvent where
  | KeyPress (k : XKeyEvent)
  | ScreenChange (window rotation width height : Nat)
  | Other
deriving DecidableEq, Repr

/-- The externally visible actions of `readpw`, in program order. -/
inductive Effect where
  | XSendEvent
  | crypt (key salt : List Nat)
  | stderrCrypt
  | XBell
  | XSetWindowBackgroundPixmap (screen : Nat)
  | XClearWindow (screen : Nat)
  | XResizeWindow (screen width height : Nat)
  | XRaiseWindow (screen : Nat)
deriving DecidableEq, Repr

/-- The state on entry to the loop: `len = 0`, `running = 1`, `failure = 0`,
`oldc = INIT`; the array `passwd` is not initialised, so its content `garbage`
is arbitrary. -/
def State.init (garbage : List Nat) : State :=
  { passwd := garbage, len := 0, running := true, failure := false, oldc := Color.INIT }

/-- Lines 123-129: keypad Enter becomes Return, keypad digits become digits. -/
def remapKeypad (ksym : Nat) : Nat :=
  if IsKeypadKey ksym then
    if ksym = XK_KP_Enter then XK_Return
    else if XK_KP_0 ≤ ksym ∧ ksym ≤ XK_KP_9 then (ksym - XK_KP_0) + XK_0
    else ksym
  else ksym

/-- Lines 130-131: the symbols that are skipped with `continue`. -/
def isFiltered (ksym : Nat) : Bool :=
  IsFunctionKey ksym || IsKeypadKey ksym || IsMiscFunctionKey ksym ||
    IsPFKey ksym || IsPrivateKeypadKey ksym

/-- Lines 135-144: the case labels that forward the event to the root window. -/
def isMediaKey (ksym : Nat) : Bool :=
  decide (ksym = XF86XK_AudioPlay) || decide (ksym = XF86XK_AudioStop) ||
  decide (ksym = XF86XK_AudioPrev) || decide (ksym = XF86XK_AudioNext) ||
  decide (ksym = XF86XK_AudioRaiseVolume) || decide (ksym = XF86XK_AudioLowerVolume) ||
  decide (ksym = XF86XK_AudioMute) || decide (ksym = XF86XK_AudioMicMute) ||
  decide (ksym = XF86XK_MonBrightnessDown) || decide (ksym = XF86XK_MonBrightnessUp)

/-- Lines 147-162, `case XK_Return`.  The function `crypt` is a parameter: it
receives the C string held in `passwd` and the stored hash, and answers `none`
for a NULL return. -/
def submit (crypt : List Nat → List Nat → Option (List Nat)) (hash : List Nat)
    (s : State) : State × List Effect :=
  let passwd := s.passwd.set s.len 0
  let key := cstr passwd
  let inputhash := crypt key hash
  let running : Bool :=
    match inputhash with
    | none => s.running
    | some h => decide (strcmp h hash ≠ 0)
  let report : List Effect :=
    match inputhash with
    | none => [Effect.stderrCrypt]
    | some _ => []
  let failure : Bool := if running then true else s.failure
  let bell : List Effect := if running then [Effect.XBell] else []
  ({ s with passwd := List.replicate 256 0, len := 0, running := running, failure := failure },
    [Effect.crypt key hash] ++ report ++ bell)

/-- Lines 163-166, `case XK_Escape`. -/
def escape (s : State) : State × List Effect :=
  ({ s with passwd := List.replicate 256 0, len := 0 }, [])

/-- Lines 167-171, `case XK_BackSpace`. -/
def backspace (s : State) : State × List Effect :=
  if s.len ≠ 0 then
    ({ s with passwd := s.passwd.set (s.len - 1) 0, len := s.len - 1 }, [])
  else (s, [])

/-- The test of line 173: `num && !iscntrl((int) buf[0]) && (len + num < sizeof(passwd))`. -/
def accepts (s : State) (k : XKeyEvent) : Bool :=
  decide (k.num ≠ 0) && !iscntrl (k.buf.getD 0 0) && decide (add32 s.len k.num < 256)

/-- Lines 172-177, the `default` case. -/
def printable (s : State) (k : XKeyEvent) : State × List Effect :=
  if accepts s k then
    ({ s with passwd := memcpy s.passwd s.len k.buf k.num, len := add32 s.len k.num }, [])
  else (s, [])

/-- The `switch (ksym)` of lines 134-178. -/
def dispatch (crypt : List Nat → List Nat → Option (List Nat)) (hash : List Nat)
    (s : State) (ksym : Nat) (k : XKeyEvent) : State × List Effect :=
  if isMediaKey ksym then (s, [Effect.XSendEvent])
  else if ksym = XK_Return then submit crypt hash s
  else if ksym = XK_Escape then escape s
  else if ksym = XK_BackSpace then backspace s
  else printable s k

/-- Line 179: `len ? INPUT : ((failure || failonclear) ? FAILED : INIT)`. -/
def color (len : Nat) (failure failonclear : Bool) : Color :=
  if len ≠ 0 then Color.INPUT
  else if failure || failonclear then Color.FAILED
  else Color.INIT

/-- The loop of lines 181-184 over all screens. -/
def redrawAll (nscreens : Nat) : List Effect :=
  (List.range nscreens).flatMap
    (fun screen => [Effect.XSetWindowBackgroundPixmap screen, Effect.XClearWindow screen])

/-- Lines 179-186: recompute the colour and, if still running and the colour
changed, redraw every screen and remember the colour. -/
def recolor (failonclear : Bool) (nscreens : Nat) (s : State) : State × List Effect :=
  let c := color s.len s.failure failonclear
  if s.running && decide (s.oldc ≠ c) then ({ s with oldc := c }, redrawAll nscreens)
  else (s, [])

/-- Lines 118-186: one `KeyPress` event.  The configuration constant
`failonclear` of `config.h` is a parameter. -/
def keyPress (failonclear : Bool) (crypt : List Nat → List Nat → Option (List Nat))
    (hash : List Nat) (nscreens : Nat) (s : State) (k : XKeyEvent) : State × List Effect :=
  let ksym := remapKeypad k.ksym
  if isFiltered ksym then (s, [])
  else
    let r := dispatch crypt hash s ksym k
    let c := recolor failonclear nscreens r.1
    (c.1, r.2 ++ c.2)

/-- Lines 187-199: resize the lock window the notification is for.  The list
`locks` holds the window of each lock. -/
def screenChange (locks : List Nat) (window rotation width height : Nat) : List Effect :=
  match locks.indexOf? window with
  | none => []
  | some screen =>
    (if rotation = RR_Rotate_90 ∨ rotation = RR_Rotate_270
      then [Effect.XResizeWindow screen height width]
      else [Effect.XResizeWindow screen width height]) ++ [Effect.XClearWindow screen]

/-- One iteration of the `while` loop of `readpw` (lines 118-204). -/
def handleEvent (failonclear rrActive : Bool)
    (crypt : List Nat → List Nat → Option (List Nat))
    (hash : List Nat) (locks : List Nat) (s : State) (ev : XEvent) : State × List Effect :=
  match ev with
  | XEvent.KeyPress k => keyPress failonclear crypt hash locks.length s k
  | XEvent.ScreenChange window rotation width height =>
    if rrActive then (s, screenChange locks window rotation width height)
    else (s, (List.range locks.length).map Effect.XRaiseWindow)
  | XEvent.Other => (s, (List.range locks.length).map Effect.XRaiseWindow)

/-- The loop `while (running && !XNextEvent(dpy, &ev))` run on the events that
arrive, in order; `XNextEvent` always returns 0.  The loop stops reading as soon
as `running` is 0; when the events run out it is blocked in `XNextEvent`. -/
def readpw (failonclear rrActive : Bool) (crypt : List Nat → List Nat → Option (List Nat))
    (hash : List Nat) (locks : List Nat) : State → List XEvent → State × List Effect
  | s, [] => (s, [])
  | s, ev :: evs =>
    if s.running then
      let r := handleEvent failonclear rrActive crypt hash locks s ev
      let t := readpw failonclear rrActive crypt hash locks r.1 evs
      (t.1, r.2 ++ t.2)
    else (s, [])

/-! ## Locking one surface: `lockscreen` -/

/-- The externally visible actions of `lockscreen` from line 265 on, in program
order; a grab request carries the answer it got. -/
inductive GrabEffect where
  | XGrabPointer (result : Int)
  | XGrabKeyboard (result : Int)
  | XMapRaised
  | XRRSelectInput
  | XSelectInput
  | usleep (usec : Nat)
  | stderrPointer
  | stderrKeyboard
deriving DecidableEq, Repr

/-- The variables `ptgrab` and `kbgrab`, with the number of pointer-grab and of
keyboard-grab requests issued so far (the position in the two answer sequences). -/
structure GrabState where
  ptgrab : Int
  kbgrab : Int
  npt : Nat
  nkb : Nat
deriving DecidableEq, Repr

/-- What a call of `lockscreen` amounts to: whether it returned a lock (rather
than NULL), the values of `(ptgrab, kbgrab)` at the test of line 287 in each
iteration made, and the actions performed. -/
structure LockOutcome where
  locked : Bool
  log : List (Int × Int)
  trace : List GrabEffect
deriving DecidableEq, Repr

/-- Lines 269-280: request the pointer unless it is already held. -/
def grabPointer (pt : Nat → Int) (st : GrabState) : GrabState × List GrabEffect :=
  if st.ptgrab ≠ GrabSuccess then
    ({ st with ptgrab := pt st.npt, npt := st.npt + 1 }, [GrabEffect.XGrabPointer (pt st.npt)])
  else (st, [])

/-- Lines 281-284: request the keyboard unless it is already held. -/
def grabKeyboard (kb : Nat → Int) (st : GrabState) : GrabState × List GrabEffect :=
  if st.kbgrab ≠ GrabSuccess then
    ({ st with kbgrab := kb st.nkb, nkb := st.nkb + 1 }, [GrabEffect.XGrabKeyboard (kb st.nkb)])
  else (st, [])

/-- Lines 306-313: the messages printed before `return NULL`. -/
def failMessages (st : GrabState) : List GrabEffect :=
  (if st.ptgrab ≠ GrabSuccess then [GrabEffect.stderrPointer] else []) ++
  (if st.kbgrab ≠ GrabSuccess then [GrabEffect.stderrKeyboard] else [])

/-- The test of lines 298-299: some grab failed for a reason other than
`AlreadyGrabbed`. -/
def otherFailure (ptgrab kbgrab : Int) : Bool :=
  (decide (ptgrab ≠ AlreadyGrabbed) && decide (ptgrab ≠ GrabSuccess)) ||
  (decide (kbgrab ≠ AlreadyGrabbed) && decide (kbgrab ≠ GrabSuccess))

/-- Lines 269-284: the grab requests of one iteration, pointer first. -/
def requests (pt kb : Nat → Int) (st : GrabState) : GrabState × List GrabEffect :=
  let p := grabPointer pt st
  let k := grabKeyboard kb p.1
  (k.1, p.2 ++ k.2)

/-- The loop `for (int i = 0; i < 6; i++)` of lines 268-304 and the code after it,
by the number of iterations that remain.  `pt n` and `kb n` are the answers to
the `n`-th pointer-grab and keyboard-grab request. -/
def grabLoop (rrActive : Bool) (pt kb : Nat → Int) : Nat → GrabState → LockOutcome
  | 0, st => { locked := false, log := [], trace := failMessages st }
  | n + 1, st =>
    let q := requests pt kb st
    if q.1.ptgrab = GrabSuccess ∧ q.1.kbgrab = GrabSuccess then
      { locked := true, log := [(q.1.ptgrab, q.1.kbgrab)],
        trace := q.2 ++ [GrabEffect.XMapRaised] ++
          (if rrActive then [GrabEffect.XRRSelectInput] else []) ++ [GrabEffect.XSelectInput] }
    else if otherFailure q.1.ptgrab q.1.kbgrab then
      { locked := false, log := [(q.1.ptgrab, q.1.kbgrab)],
        trace := q.2 ++ failMessages q.1 }
    else
      let r := grabLoop rrActive pt kb n q.1
      { locked := r.locked, log := (q.1.ptgrab, q.1.kbgrab) :: r.log,
        trace := q.2 ++ [GrabEffect.usleep 100000] ++ r.trace }

/-- The function `lockscreen`: the guard of line 212 (`dpy == NULL || screen < 0 ||
!lock`), then the grab loop started with `ptgrab = kbgrab = -1`.  The window and
cursor set-up of lines 216-263 issues no grab request and is left out of the
trace. -/
def lockscreen (dpyNull : Bool) (screen : Int) (mallocOk rrActive : Bool)
    (pt kb : Nat → Int) : LockOutcome :=
  if dpyNull || decide (screen < 0) || !mallocOk then
    { locked := false, log := [], trace := [] }
  else grabLoop rrActive pt kb 6 { ptgrab := -1, kbgrab := -1, npt := 0, nkb := 0 }

/-! ## The surface loop of `main` -/

/-- The actions of lines 453-475 of `main`. -/
inductive MainEffect where
  | calloc
  | stderrOutOfMemory
  | lockscreen (s : Nat)
  | XSync
  | readpw
deriving DecidableEq, Repr

/-- The loop of lines 458-464 over the screens still to lock: the final `nlocks`
and the calls of `lockscreen` made.  `locks s` tells whether `lockscreen` returns
a lock for screen `s`. -/
def lockLoop (locks : Nat → Bool) : List Nat → Nat → Nat × List MainEffect
  | [], nlocks => (nlocks, [])
  | s :: rest, nlocks =>
    if locks s then
      let r := lockLoop locks rest (nlocks + 1)
      (r.1, MainEffect.lockscreen s :: r.2)
    else (nlocks, [MainEffect.lockscreen s])

/-- Lines 453-475 of `main`: allocate the lock array, lock the screens in order,
and enter `readpw` only if all are locked.  The result is the trace and the exit
status; the status is `none` when `readpw` is entered and never returns. -/
def mainLock (callocOk : Bool) (nscreens : Nat) (locks : Nat → Bool)
    (readpwReturns : Bool) : List MainEffect × Option Nat :=
  if !callocOk then ([MainEffect.calloc, MainEffect.stderrOutOfMemory], some 1)
  else
    let r := lockLoop locks (List.range nscreens) 0
    if r.1 ≠ nscreens then
      ([MainEffect.calloc] ++ r.2 ++ [MainEffect.XSync], some 1)
    else
      ([MainEffect.calloc] ++ r.2 ++ [MainEffect.XSync, MainEffect.readpw],
        if readpwReturns then some 0 else none)

/-! ## Pixelation: `compute_pixel` and the tile loop of `main` -/

/-- The ways the pixelation code can go wrong: an access outside the pixel
buffer or a division by zero (undefined behaviour in C), and, for the loops of
`main` only, running out of the iteration budget given to the model. -/
inductive Fault where
  | outOfBounds
  | divByZero
  | outOfFuel
deriving DecidableEq, Repr

/-- The four `unsigned char` members of `struct Pixel`. -/
structure Pixel where
  a : Nat
  red : Nat
  green : Nat
  blue : Nat
deriving DecidableEq, Repr

/-- Byte `k` of a 32-bit word, byte 0 being the least significant. -/
def byteOf (k : Nat) (data : Nat) : Nat := data / 256 ^ k % 256

/-- Reading the members after `p.data = ...`: the union overlays `a`, `red`,
`green`, `blue`, in this order, on the four bytes of `data` in memory (on a
little-endian machine `a` is the least significant byte). -/
def Pixel.ofData (data : Nat) : Pixel :=
  { a := byteOf 0 data, red := byteOf 1 data, green := byteOf 2 data, blue := byteOf 3 data }

/-- Reading `p.data` after the four members were assigned. -/
def Pixel.data (p : Pixel) : Nat :=
  p.a + 256 * p.red + 65536 * p.green + 16777216 * p.blue

/-- The accumulators `alpha`, `red`, `green`, `blue` of `compute_pixel`. -/
structure Sums where
  alpha : Nat
  red : Nat
  green : Nat
  blue : Nat
deriving DecidableEq, Repr

/-- The index expression `width * (y + j) + (x + i)`, in `unsigned int`. -/
def index (width x y i j : Nat) : Nat :=
  add32 (mul32 width (add32 y j)) (add32 x i)

/-- Lines 350-354: read one pixel and add its members to the accumulators. -/
def sumStep (width : Nat) (data : List Nat) (x y j : Nat) (acc : Sums) (i : Nat) :
    Except Fault Sums :=
  match data[index width x y i j]? with
  | none => Except.error Fault.outOfBounds
  | some d =>
    let p := Pixel.ofData d
    Except.ok { alpha := add32 acc.alpha p.a, red := add32 acc.red p.red,
                green := add32 acc.green p.green, blue := add32 acc.blue p.blue }

/-- Lines 348-356: the two nested loops that sum the tile. -/
def sumTile (width : Nat) (data : List Nat) (x y height_rect width_rect : Nat) :
    Except Fault Sums :=
  (List.range height_rect).foldlM
    (fun acc j => (List.range width_rect).foldlM (sumStep width data x y j) acc)
    { alpha := 0, red := 0, green := 0, blue := 0 }

/-- Line 366: store one pixel. -/
def fillStep (width x y j pdata : Nat) (data : List Nat) (i : Nat) :
    Except Fault (List Nat) :=
  if index width x y i j < data.length then
    Except.ok (data.set (index width x y i j) pdata)
  else Except.error Fault.outOfBounds

/-- Lines 364-368: the two nested loops that overwrite the tile. -/
def fillTile (width : Nat) (data : List Nat) (x y height_rect width_rect pdata : Nat) :
    Except Fault (List Nat) :=
  (List.range height_rect).foldlM
    (fun d j => (List.range width_rect).foldlM (fillStep width x y j pdata) d)
    data

/-- The function `compute_pixel` on a screen of `width` by `height` pixels.  The
result is the new content of the buffer `data`. -/
def compute_pixel (width height : Nat) (data : List Nat) (x y pixel_size : Nat) :
    Except Fault (List Nat) :=
  let height_rect := MIN pixel_size (sub32 height y)
  let width_rect := MIN pixel_size (sub32 width x)
  match sumTile width data x y height_rect width_rect with
  | Except.error e => Except.error e
  | Except.ok s =>
    let rect_area := mul32 height_rect width_rect
    if rect_area = 0 then Except.error Fault.divByZero
    else
      let p : Pixel :=
        { red := s.red / rect_area % 256, green := s.green / rect_area % 256,
          blue := s.blue / rect_area % 256, a := s.alpha / rect_area % 256 }
      fillTile width data x y height_rect width_rect p.data

/-- The inner loop of line 441, `for (x = 0; x < width; x = MIN(x + pixel_size,
width))`, started at `x`; each test of the loop condition uses one unit of fuel. -/
def rowLoop (width height pixel_size y : Nat) :
    Nat → Nat → List Nat → Except Fault (List Nat)
  | 0, _, _ => Except.error Fault.outOfFuel
  | fuel + 1, x, data =>
    if x < width then
      match compute_pixel width height data x y pixel_size with
      | Except.error e => Except.error e
      | Except.ok data1 =>
        rowLoop width height pixel_size y fuel (MIN (add32 x pixel_size) width) data1
    else Except.ok data

/-- The outer loop of line 440, `for (y = 0; y < height; y = MIN(y + pixel_size,
height))`, started at `y`; `rowFuel` is the budget of each inner loop. -/
def tileLoop (width height pixel_size rowFuel : Nat) :
    Nat → Nat → List Nat → Except Fault (List Nat)
  | 0, _, _ => Except.error Fault.outOfFuel
  | fuel + 1, y, data =>
    if y < height then
      match rowLoop width height pixel_size y rowFuel 0 data with
      | Except.error e => Except.error e
      | Except.ok data1 =>
        tileLoop width height pixel_size rowFuel fuel (MIN (add32 y pixel_size) height) data1
    else Except.ok data

/-- Lines 440-444 of `main`: the pixelation of the whole buffer.  The tile size
`pixel_size` is a constant of `config.h` and is a parameter here. -/
def pixelate (fuel width height pixel_size : Nat) (data : List Nat) :
    Except Fault (List Nat) :=
  tileLoop width height pixel_size fuel fuel 0 data


/-- The inner loop of line 441 with, next to the buffer, the arguments `(x, y)` of
the calls of `compute_pixel` it makes, in order. -/
def rowLoopT (width height pixel_size y : Nat) :
    Nat → Nat → List Nat → Except Fault (List Nat × List (Nat × Nat))
  | 0, _, _ => Except.error Fault.outOfFuel
  | fuel + 1, x, data =>
    if x < width then
      match compute_pixel width height data x y pixel_size with
      | Except.error e => Except.error e
      | Except.ok data1 =>
        match rowLoopT width height pixel_size y fuel (MIN (add32 x pixel_size) width) data1 with
        | Except.error e => Except.error e
        | Except.ok r => Except.ok (r.1, (x, y) :: r.2)
    else Except.ok (data, [])

/-- The outer loop of line 440 with the arguments of the calls of `compute_pixel`
made, in order. -/
def tileLoopT (width height pixel_size rowFuel : Nat) :
    Nat → Nat → List Nat → Except Fault (List Nat × List (Nat × Nat))
  | 0, _, _ => Except.error Fault.outOfFuel
  | fuel + 1, y, data =>
    if y < height then
      match rowLoopT width height pixel_size y rowFuel 0 data with
      | Except.error e => Except.error e
      | Except.ok r1 =>
        match tileLoopT width height pixel_size rowFuel fuel
            (MIN (add32 y pixel_size) height) r1.1 with
        | Except.error e => Except.error e
        | Except.ok r2 => Except.ok (r2.1, r1.2 ++ r2.2)
    else Except.ok (data, [])

/-- Lines 440-444 of `main` with the arguments of the calls of `compute_pixel`
made, in order. -/
def pixelateT (fuel width height pixel_size : Nat) (data : List Nat) :
    Except Fault (List Nat × List (Nat × Nat)) :=
  tileLoopT width height pixel_size fuel fuel 0 data

/-! ## The start of `main` -/

/-- What the `ARGBEGIN ... ARGEND` block of lines 374-381 makes of the command
line: the flag `-v` prints the version and returns 0, any other flag calls
`usage`, which dies, and otherwise `main` goes on.  The macros come from `arg.h`;
only their outcome is modelled. -/
inductive ArgOutcome where
  | version
  | usage
  | proceed
deriving DecidableEq, Repr

/-- How the write to `/proc/self/oom_score_adj` in `dontkillme` goes: written and
closed, `fopen` failing with `ENOENT`, `fopen` failing otherwise, `fclose` failing. -/
inductive OomOutcome where
  | written
  | noEntry
  | fopenError
  | fcloseError
deriving DecidableEq, Repr

/-- The function `dontkillme` (lines 56-73): `true` when it returns, `false` when it
calls `die`. -/
def dontkillme (o : OomOutcome) : Bool :=
  match o with
  | OomOutcome.written => true
  | OomOutcome.noEntry => true
  | OomOutcome.fopenError => false
  | OomOutcome.fcloseError => false

/-- The function `gethash` (lines 75-105): `pw` is the `pw_passwd` field of the
entry `getpwuid` returns (`none` for NULL), `sp` the `sp_pwdp` field of the entry
`getspnam` returns, `haveShadow` the compile-time flag `HAVE_SHADOW_H`.  The
result is `none` when `gethash` calls `die`. -/
def gethash (haveShadow : Bool) (pw sp : Option (List Nat)) : Option (List Nat) :=
  match pw with
  | none => none
  | some hash =>
    if haveShadow then
      if hash = [120] then
        match sp with
        | none => none
        | some h => some h
      else some hash
    else
      if hash = [42] then none else some hash

/-- Everything `main` learns from its environment. -/
structure MainEnv where
  args : ArgOutcome
  pwd : Option Nat
  grp : Option Nat
  oom : OomOutcome
  haveShadow : Bool
  pw : Option (List Nat)
  sp : Option (List Nat)
  crypt : List Nat → List Nat → Option (List Nat)
  display : Bool
  setgroupsOk : Bool
  setgidOk : Bool
  setuidOk : Bool
  image : Bool
  fuel : Nat
  width : Nat
  height : Nat
  pixel_size : Nat
  data : List Nat
  callocOk : Bool
  nscreens : Nat
  locks : Nat → Bool
  readpwReturns : Bool

/-- The actions of `main`, in program order; the actions of lines 453-475 are those
of `mainLock`. -/
inductive MainStep where
  | version
  | usage
  | getpwnam
  | getgrnam
  | dontkillme
  | gethash
  | crypt
  | XOpenDisplay
  | setgroups (size : Nat)
  | setgid (gid : Nat)
  | setuid (uid : Nat)
  | screenshot
  | pixelation
  | XRRQueryExtension
  | die
  | tail (e : MainEffect)
deriving DecidableEq, Repr

/-- The function `main`: the trace and the exit status.  A call of `die` ends the
run with status 1.  The status is `none` when the process does not exit by
itself: the pixelation faults, or `readpw` never returns. -/
def main (env : MainEnv) : List MainStep × Option Nat :=
  match env.args with
  | ArgOutcome.version => ([MainStep.version], some 0)
  | ArgOutcome.usage => ([MainStep.usage, MainStep.die], some 1)
  | ArgOutcome.proceed =>
    match env.pwd with
    | none => ([MainStep.getpwnam, MainStep.die], some 1)
    | some duid =>
      match env.grp with
      | none => ([MainStep.getpwnam, MainStep.getgrnam, MainStep.die], some 1)
      | some dgid =>
        if !dontkillme env.oom then
          ([MainStep.getpwnam, MainStep.getgrnam, MainStep.dontkillme, MainStep.die], some 1)
        else
          match gethash env.haveShadow env.pw env.sp with
          | none =>
            ([MainStep.getpwnam, MainStep.getgrnam, MainStep.dontkillme, MainStep.gethash,
              MainStep.die], some 1)
          | some hash =>
            if (env.crypt [] hash).isNone then
              ([MainStep.getpwnam, MainStep.getgrnam, MainStep.dontkillme, MainStep.gethash,
                MainStep.crypt, MainStep.die], some 1)
            else if !env.display then
              ([MainStep.getpwnam, MainStep.getgrnam, MainStep.dontkillme, MainStep.gethash,
                MainStep.crypt, MainStep.XOpenDisplay, MainStep.die], some 1)
            else if !env.setgroupsOk then
              ([MainStep.getpwnam, MainStep.getgrnam, MainStep.dontkillme, MainStep.gethash,
                MainStep.crypt, MainStep.XOpenDisplay, MainStep.setgroups 0, MainStep.die],
                some 1)
            else if !env.setgidOk then
              ([MainStep.getpwnam, MainStep.getgrnam, MainStep.dontkillme, MainStep.gethash,
                MainStep.crypt, MainStep.XOpenDisplay, MainStep.setgroups 0,
                MainStep.setgid dgid, MainStep.die], some 1)
            else if !env.setuidOk then
              ([MainStep.getpwnam, MainStep.getgrnam, MainStep.dontkillme, MainStep.gethash,
                MainStep.crypt, MainStep.XOpenDisplay, MainStep.setgroups 0,
                MainStep.setgid dgid, MainStep.setuid duid, MainStep.die], some 1)
            else if !env.image then
              ([MainStep.getpwnam, MainStep.getgrnam, MainStep.dontkillme, MainStep.gethash,
                MainStep.crypt, MainStep.XOpenDisplay, MainStep.setgroups 0,
                MainStep.setgid dgid, MainStep.setuid duid, MainStep.screenshot,
                MainStep.die], some 1)
            else
              match pixelate env.fuel env.width env.height env.pixel_size env.data with
              | Except.error _ =>
                ([MainStep.getpwnam, MainStep.getgrnam, MainStep.dontkillme, MainStep.gethash,
                  MainStep.crypt, MainStep.XOpenDisplay, MainStep.setgroups 0,
                  MainStep.setgid dgid, MainStep.setuid duid, MainStep.screenshot,
                  MainStep.pixelation], none)
              | Except.ok _ =>
                ([MainStep.getpwnam, MainStep.getgrnam, MainStep.dontkillme, MainStep.gethash,
                  MainStep.crypt, MainStep.XOpenDisplay, MainStep.setgroups 0,
                  MainStep.setgid dgid, MainStep.setuid duid, MainStep.screenshot,
                  MainStep.pixelation, MainStep.XRRQueryExtension] ++
                  (mainLock env.callocOk env.nscreens env.locks env.readpwReturns).1.map
                    MainStep.tail,
                  (mainLock env.callocOk env.nscreens env.locks env.readpwReturns).2)

/-! ## Notions used to state the properties -/

/-- A pointer-grab request. -/
def GrabEffect.isPointerGrab : GrabEffect → Bool
  | GrabEffect.XGrabPointer _ => true
  | _ => false

/-- A keyboard-grab request. -/
def GrabEffect.isKeyboardGrab : GrabEffect → Bool
  | GrabEffect.XGrabKeyboard _ => true
  | _ => false

/-- A delay. -/
def GrabEffect.isSleep : GrabEffect → Bool
  | GrabEffect.usleep _ => true
  | _ => false

/-- The value of the variable `ptgrab` (when `f` is `pt`) or `kbgrab` (when `f` is
`kb`) after `t` attempts of the loop of `lockscreen`, read off the answers alone: -1 at
the start (lines 266-267); an attempt asks again unless the grab is held, and
the request of attempt `t` is request number `t`, one having been made in each
earlier attempt (lines 269-284). -/
def grabVar (f : Nat → Int) : Nat → Int
  | 0 => -1
  | t + 1 => if grabVar f t ≠ GrabSuccess then f t else grabVar f t

/-- The grab requests of attempt `t`, read off the answers alone: the pointer is
requested unless it is held, then the keyboard unless it is held. -/
def attemptRequests (pt kb : Nat → Int) (t : Nat) : List GrabEffect :=
  (if grabVar pt t ≠ GrabSuccess then [GrabEffect.XGrabPointer (pt t)] else []) ++
  (if grabVar kb t ≠ GrabSuccess then [GrabEffect.XGrabKeyboard (kb t)] else [])

/-- The state `st` is the one in which attempt `t` starts. -/
def GrabInv (pt kb : Nat → Int) (t : Nat) (st : GrabState) : Prop :=
  st.ptgrab = grabVar pt t ∧ st.kbgrab = grabVar kb t ∧
  (st.ptgrab ≠ GrabSuccess → st.npt = t) ∧ (st.kbgrab ≠ GrabSuccess → st.nkb = t)

/-- The values of `(ptgrab, kbgrab)` at the test of line 287 in attempt `t`. -/
def attemptPair (pt kb : Nat → Int) (t : Nat) : Int × Int :=
  (grabVar pt (t + 1), grabVar kb (t + 1))

/-- The sum of byte `k` of the pixels of the tile of `width_rect` by `height_rect`
pixels with origin `(x, y)`, as an unbounded natural number. -/
def tileSum (width : Nat) (data : List Nat) (x y height_rect width_rect k : Nat) : Nat :=
  ((List.range height_rect).map (fun j =>
    ((List.range width_rect).map (fun i =>
      byteOf k (data.getD (width * (y + j) + (x + i)) 0))).sum)).sum

/-- The accumulator that belongs to byte `k` of a pixel: `alpha` to member `a`
(byte 0), `red` to byte 1, `green` to byte 2, `blue` to byte 3. -/
def Sums.chan (s : Sums) (k : Nat) : Nat :=
  match k with
  | 0 => s.alpha
  | 1 => s.red
  | 2 => s.green
  | _ => s.blue

/-- The accumulators after one more pixel `d` was added (lines 351-354). -/
def Sums.add (acc : Sums) (d : Nat) : Sums :=
  { alpha := add32 acc.alpha (Pixel.ofData d).a, red := add32 acc.red (Pixel.ofData d).red,
    green := add32 acc.green (Pixel.ofData d).green, blue := add32 acc.blue (Pixel.ofData d).blue }

/-- Byte `k` of the pixel that lines 359-362 compute for a tile: the 32-bit
accumulator divided by the tile area, cut to an `unsigned char`. -/
def tileByte (width : Nat) (data : List Nat) (x y height_rect width_rect k : Nat) : Nat :=
  tileSum width data x y height_rect width_rect k % U32 / (height_rect * width_rect) % 256

/-- The pixel that `compute_pixel` writes into every position of a tile. -/
def tilePixel (width : Nat) (data : List Nat) (x y height_rect width_rect : Nat) : Nat :=
  Pixel.data
    { a := tileByte width data x y height_rect width_rect 0,
      red := tileByte width data x y height_rect width_rect 1,
      green := tileByte width data x y height_rect width_rect 2,
      blue := tileByte width data x y height_rect width_rect 3 }

/-- An action on a lock window. -/
def Effect.touchesSurface : Effect → Bool
  | Effect.XSetWindowBackgroundPixmap _ => true
  | Effect.XClearWindow _ => true
  | Effect.XResizeWindow _ _ _ => true
  | Effect.XRaiseWindow _ => true
  | _ => false

/-- The recorded colour `oldc` agrees with the colour computed from the state, as
long as the session is locked. -/
def PhaseOk (failonclear : Bool) (s : State) : Prop :=
  s.running = true → s.oldc = color s.len s.failure failonclear

/-- The pixel that the tile containing `(px, py)` receives when the tile pixel is
computed from the buffer `data`: the tile has the origin
`(ps * (px / ps), ps * (py / ps))` and is clipped to the image. -/
def mosaicPixel (width height ps : Nat) (data : List Nat) (px py : Nat) : Nat :=
  tilePixel width data (ps * (px / ps)) (ps * (py / ps))
    (min ps (height - ps * (py / ps))) (min ps (width - ps * (px / ps)))

/-- The buffer invariant of `readpw`: the length cursor stays inside the
256-byte array `passwd`, leaving room for the terminator. -/
def BufOk (s : State) : Prop := s.len ≤ 255 ∧ s.passwd.length = 256

/-- The key press of a Latin-1 character `c`: `XLookupString` answers the key
symbol `c`, writes the single byte `c` into the zeroed `buf` and returns 1. -/
def charKey (c : Nat) : XKeyEvent :=
  { ksym := c, buf := c :: List.replicate 31 0, num := 1 }

/-- The phase as the specification words it: Typing if the buffer is not empty,
else Failed if a failure occurred and the persist option is on, else Initial. -/
def specPhase (L : Nat) (F P : Bool) : Color :=
  if 0 < L then Color.INPUT else if F && P then Color.FAILED else Color.INIT

/-! ## Lemmas on `readpw` -/


theorem strcmp_self (a : List Nat) : strcmp a a = 0 := by
  induction a with
  | nil => rfl
  | cons x xs ih => simp [strcmp, ih]

theorem strcmp_eq_zero : ∀ (a b : List Nat), NulFree a → NulFree b → strcmp a b = 0 → a = b
  | [], [], _, _, _ => rfl
  | [], b :: bs, _, hb, h => by
    have hb0 : b ≠ 0 := hb b (List.mem_cons_self _ _)
    simp [strcmp] at h
    exact absurd h hb0
  | a :: as, [], ha, _, h => by
    have ha0 : a ≠ 0 := ha a (List.mem_cons_self _ _)
    simp [strcmp] at h
    exact absurd h ha0
  | a :: as, b :: bs, ha, hb, h => by
    by_cases hab : a = b
    · subst hab
      simp only [strcmp, if_true] at h
      have := strcmp_eq_zero as bs (fun x hx => ha x (List.mem_cons_of_mem _ hx))
        (fun x hx => hb x (List.mem_cons_of_mem _ hx)) h
      rw [this]
    · simp only [strcmp, if_neg hab] at h
      exact absurd (by omega : a = b) hab

theorem strcmp_eq_zero_iff (a b : List Nat) (ha : NulFree a) (hb : NulFree b) :
    strcmp a b = 0 ↔ a = b :=
  ⟨strcmp_eq_zero a b ha hb, fun h => h ▸ strcmp_self a⟩

theorem remapKeypad_Return : remapKeypad XK_Return = XK_Return := by decide
theorem remapKeypad_Escape : remapKeypad XK_Escape = XK_Escape := by decide

theorem recolor_passwd (fc : Bool) (n : Nat) (s : State) : (recolor fc n s).1.passwd = s.passwd := by
  unfold recolor; dsimp only; split <;> rfl
theorem recolor_len (fc : Bool) (n : Nat) (s : State) : (recolor fc n s).1.len = s.len := by
  unfold recolor; dsimp only; split <;> rfl
theorem recolor_running (fc : Bool) (n : Nat) (s : State) : (recolor fc n s).1.running = s.running := by
  unfold recolor; dsimp only; split <;> rfl
theorem recolor_failure (fc : Bool) (n : Nat) (s : State) : (recolor fc n s).1.failure = s.failure := by
  unfold recolor; dsimp only; split <;> rfl

theorem recolor_oldc (fc : Bool) (n : Nat) (s : State) (h : s.running = true) :
    (recolor fc n s).1.oldc = color s.len s.failure fc := by
  unfold recolor
  by_cases hc : s.oldc = color s.len s.failure fc
  · simp [hc]
  · simp [hc, h]

theorem keyPress_Return (fc : Bool) (crypt : List Nat → List Nat → Option (List Nat))
    (hash : List Nat) (n : Nat) (s : State) (k : XKeyEvent) (hk : k.ksym = XK_Return) :
    keyPress fc crypt hash n s k =
      ((recolor fc n (submit crypt hash s).1).1,
        (submit crypt hash s).2 ++ (recolor fc n (submit crypt hash s).1).2) := by
  have h1 : isFiltered XK_Return = false := by decide
  have h2 : isMediaKey XK_Return = false := by decide
  simp [keyPress, hk, remapKeypad_Return, h1, dispatch, h2]

theorem keyPress_Escape (fc : Bool) (crypt : List Nat → List Nat → Option (List Nat))
    (hash : List Nat) (n : Nat) (s : State) (k : XKeyEvent) (hk : k.ksym = XK_Escape) :
    keyPress fc crypt hash n s k =
      ((recolor fc n (escape s).1).1, (escape s).2 ++ (recolor fc n (escape s).1).2) := by
  have h1 : isFiltered XK_Escape = false := by decide
  have h2 : isMediaKey XK_Escape = false := by decide
  have h3 : XK_Escape ≠ XK_Return := by decide
  simp [keyPress, hk, remapKeypad_Escape, h1, dispatch, h2, h3]

theorem cstr_set_take (mem : List Nat) (len : Nat) (hlen : len < mem.length)
    (hnf : NulFree (mem.take len)) : cstr (mem.set len 0) = mem.take len := by
  induction mem generalizing len with
  | nil => simp at hlen
  | cons x xs ih =>
    cases len with
    | zero => simp [cstr]
    | succ m =>
      have hx : x ≠ 0 := hnf x (by simp)
      have hm : m < xs.length := by simpa using hlen
      have hxs : NulFree (xs.take m) := fun b hb => hnf b (by simp [hb])
      have := ih m hm hxs
      simp only [cstr] at this
      simp [cstr, List.takeWhile_cons, hx, this]

theorem submit_passwd (crypt : List Nat → List Nat → Option (List Nat)) (hash : List Nat)
    (s : State) : (submit crypt hash s).1.passwd = List.replicate 256 0 := rfl

theorem submit_len (crypt : List Nat → List Nat → Option (List Nat)) (hash : List Nat)
    (s : State) : (submit crypt hash s).1.len = 0 := rfl

theorem submit_running_some (crypt : List Nat → List Nat → Option (List Nat))
    (hash r : List Nat) (s : State) (hc : crypt (cstr (s.passwd.set s.len 0)) hash = some r) :
    (submit crypt hash s).1.running = decide (strcmp r hash ≠ 0) := by
  simp only [submit, hc]

theorem submit_running_none (crypt : List Nat → List Nat → Option (List Nat))
    (hash : List Nat) (s : State) (hc : crypt (cstr (s.passwd.set s.len 0)) hash = none) :
    (submit crypt hash s).1.running = s.running := by
  simp only [submit, hc]

theorem submit_failure (crypt : List Nat → List Nat → Option (List Nat))
    (hash : List Nat) (s : State) (h : (submit crypt hash s).1.running = true) :
    (submit crypt hash s).1.failure = true := by
  simp only [submit] at h ⊢
  rw [if_pos h]

theorem keyPress_unfiltered (fc : Bool) (crypt : List Nat → List Nat → Option (List Nat))
    (hash : List Nat) (n : Nat) (s : State) (k : XKeyEvent)
    (hf : isFiltered (remapKeypad k.ksym) = false) :
    keyPress fc crypt hash n s k =
      ((recolor fc n (dispatch crypt hash s (remapKeypad k.ksym) k).1).1,
        (dispatch crypt hash s (remapKeypad k.ksym) k).2 ++
          (recolor fc n (dispatch crypt hash s (remapKeypad k.ksym) k).1).2) := by
  simp [keyPress, hf]

theorem dispatch_default (crypt : List Nat → List Nat → Option (List Nat))
    (hash : List Nat) (s : State) (ksym : Nat) (k : XKeyEvent)
    (hm : isMediaKey ksym = false) (hr : ksym ≠ XK_Return) (he : ksym ≠ XK_Escape)
    (hb : ksym ≠ XK_BackSpace) : dispatch crypt hash s ksym k = printable s k := by
  simp [dispatch, hm, hr, he, hb]

theorem color_eq (L : Nat) (F P : Bool) :
    color L F P =
      if 0 < L then Color.INPUT else if F = true ∨ P = true then Color.FAILED else Color.INIT := by
  unfold color
  by_cases hL : L = 0
  · subst hL; cases F <;> cases P <;> rfl
  · have : 0 < L := Nat.pos_of_ne_zero hL
    simp [hL, this]

theorem recolor_redraw (fc : Bool) (n : Nat) (s : State) :
    (recolor fc n s).2 = [] ∨ (recolor fc n s).2 = redrawAll n := by
  unfold recolor; dsimp only; split
  · right; rfl
  · left; rfl

theorem crypt_not_mem_redrawAll (n : Nat) (key salt : List Nat) :
    Effect.crypt key salt ∉ redrawAll n := by
  unfold redrawAll
  simp [List.mem_flatMap]

theorem memcpy_length (dst : List Nat) (off : Nat) (src : List Nat) (n : Nat) :
    (memcpy dst off src n).length = dst.length := by
  unfold memcpy
  induction n with
  | zero => simp
  | succ m ih => simpa [List.range_succ, List.foldl_append] using ih


theorem dispatch_bufOk (crypt : List Nat → List Nat → Option (List Nat))
    (hash : List Nat) (s : State) (ksym : Nat) (k : XKeyEvent) (h : BufOk s) :
    BufOk (dispatch crypt hash s ksym k).1 := by
  unfold dispatch
  split
  · exact h
  · split
    · exact ⟨Nat.zero_le _, List.length_replicate _ _⟩
    · split
      · exact ⟨Nat.zero_le _, List.length_replicate _ _⟩
      · split
        · unfold backspace
          split
          · refine ⟨?_, ?_⟩
            · show s.len - 1 ≤ 255
              have := h.1; omega
            · show (s.passwd.set (s.len - 1) 0).length = 256
              rw [List.length_set]; exact h.2
          · exact h
        · unfold printable
          split
          · rename_i hacc
            refine ⟨?_, ?_⟩
            · show add32 s.len k.num ≤ 255
              simp only [accepts, Bool.and_eq_true, decide_eq_true_eq] at hacc
              omega
            · show (memcpy s.passwd s.len k.buf k.num).length = 256
              rw [memcpy_length]; exact h.2
          · exact h

theorem keyPress_bufOk (fc : Bool) (crypt : List Nat → List Nat → Option (List Nat))
    (hash : List Nat) (n : Nat) (s : State) (k : XKeyEvent) (h : BufOk s) :
    BufOk (keyPress fc crypt hash n s k).1 := by
  unfold keyPress
  dsimp only
  split
  · exact h
  · have := dispatch_bufOk crypt hash s (remapKeypad k.ksym) k h
    exact ⟨by rw [recolor_len]; exact this.1, by rw [recolor_passwd]; exact this.2⟩

theorem handleEvent_bufOk (fc rr : Bool) (crypt : List Nat → List Nat → Option (List Nat))
    (hash locks : List Nat) (s : State) (ev : XEvent) (h : BufOk s) :
    BufOk (handleEvent fc rr crypt hash locks s ev).1 := by
  cases ev with
  | KeyPress k => exact keyPress_bufOk fc crypt hash _ s k h
  | ScreenChange w r wd ht =>
    unfold handleEvent; dsimp only; split <;> exact h
  | Other => exact h

theorem readpw_bufOk (fc rr : Bool) (crypt : List Nat → List Nat → Option (List Nat))
    (hash locks : List Nat) (evs : List XEvent) :
    ∀ s, BufOk s → BufOk (readpw fc rr crypt hash locks s evs).1 := by
  induction evs with
  | nil => intro s h; exact h
  | cons ev evs ih =>
    intro s h
    unfold readpw
    split
    · exact ih _ (handleEvent_bufOk fc rr crypt hash locks s ev h)
    · exact h

theorem readpw_cons (fc rr : Bool) (crypt : List Nat → List Nat → Option (List Nat))
    (hash locks : List Nat) (s : State) (ev : XEvent) (evs : List XEvent)
    (h : s.running = true) :
    (readpw fc rr crypt hash locks s (ev :: evs)).1 =
      (readpw fc rr crypt hash locks (handleEvent fc rr crypt hash locks s ev).1 evs).1 := by
  simp [readpw, h]

theorem printable_accepted (s : State) (k : XKeyEvent) (h : accepts s k = true) :
    (printable s k).1.len = add32 s.len k.num ∧
    (printable s k).1.passwd = memcpy s.passwd s.len k.buf k.num ∧
    (printable s k).1.running = s.running ∧ (printable s k).1.failure = s.failure := by
  simp [printable, h]

theorem printable_dropped (s : State) (k : XKeyEvent) (h : accepts s k = false) :
    (printable s k).1 = s := by
  simp [printable, h]

theorem accepts_iff (s : State) (k : XKeyEvent) (hlen : s.len ≤ 255) (hnum : k.num ≤ 32) :
    accepts s k = true ↔
      (0 < k.num ∧ iscntrl (k.buf.getD 0 0) = false ∧ s.len + k.num < 256) := by
  have hadd : add32 s.len k.num = s.len + k.num := by
    unfold add32 U32; omega
  simp only [accepts, Bool.and_eq_true, decide_eq_true_eq, Bool.not_eq_true', hadd]
  constructor
  · rintro ⟨⟨h1, h2⟩, h3⟩; exact ⟨Nat.pos_of_ne_zero h1, h2, h3⟩
  · rintro ⟨h1, h2, h3⟩; exact ⟨⟨Nat.pos_iff_ne_zero.mp h1, h2⟩, h3⟩

theorem keyPress_default (fc : Bool) (crypt : List Nat → List Nat → Option (List Nat))
    (hash : List Nat) (n : Nat) (s : State) (k : XKeyEvent)
    (hf : isFiltered (remapKeypad k.ksym) = false)
    (hm : isMediaKey (remapKeypad k.ksym) = false)
    (hr : remapKeypad k.ksym ≠ XK_Return) (he : remapKeypad k.ksym ≠ XK_Escape)
    (hb : remapKeypad k.ksym ≠ XK_BackSpace) :
    keyPress fc crypt hash n s k =
      ((recolor fc n (printable s k).1).1, (printable s k).2 ++ (recolor fc n (printable s k).1).2) := by
  rw [keyPress_unfiltered fc crypt hash n s k hf, dispatch_default crypt hash s _ k hm hr he hb]

theorem keyPress_oldc (fc : Bool) (crypt : List Nat → List Nat → Option (List Nat))
    (hash : List Nat) (n : Nat) (s : State) (k : XKeyEvent)
    (hf : isFiltered (remapKeypad k.ksym) = false)
    (hrun : (keyPress fc crypt hash n s k).1.running = true) :
    (keyPress fc crypt hash n s k).1.oldc =
      color (keyPress fc crypt hash n s k).1.len (keyPress fc crypt hash n s k).1.failure fc := by
  rw [keyPress_unfiltered fc crypt hash n s k hf] at hrun ⊢
  simp only [recolor_running, recolor_len, recolor_failure] at hrun ⊢
  exact recolor_oldc fc n _ hrun

theorem charKey_default (c : Nat) (h1 : 0x20 ≤ c) (h2 : c ≤ 0x7e) :
    isFiltered (remapKeypad (charKey c).ksym) = false ∧
    isMediaKey (remapKeypad (charKey c).ksym) = false ∧
    remapKeypad (charKey c).ksym ≠ XK_Return ∧ remapKeypad (charKey c).ksym ≠ XK_Escape ∧
    remapKeypad (charKey c).ksym ≠ XK_BackSpace := by
  have hk : IsKeypadKey c = false := by
    simp only [IsKeypadKey, XK_KP_Space, XK_KP_Equal, Bool.and_eq_false_imp, decide_eq_true_eq,
      decide_eq_false_iff_not]
    omega
  have hr : remapKeypad (charKey c).ksym = c := by
    simp [remapKeypad, charKey, hk]
  rw [hr]
  refine ⟨?_, ?_, ?_, ?_, ?_⟩
  · simp only [isFiltered, IsFunctionKey, IsKeypadKey, IsMiscFunctionKey, IsPFKey,
      IsPrivateKeypadKey, XK_F1, XK_F35, XK_KP_Space, XK_KP_Equal, XK_Select, XK_Break,
      XK_KP_F1, XK_KP_F4, Bool.or_eq_false_iff, Bool.and_eq_false_imp, decide_eq_true_eq,
      decide_eq_false_iff_not]
    omega
  · simp only [isMediaKey, XF86XK_AudioPlay, XF86XK_AudioStop, XF86XK_AudioPrev,
      XF86XK_AudioNext, XF86XK_AudioRaiseVolume, XF86XK_AudioLowerVolume, XF86XK_AudioMute,
      XF86XK_AudioMicMute, XF86XK_MonBrightnessDown, XF86XK_MonBrightnessUp,
      Bool.or_eq_false_iff, decide_eq_false_iff_not]
    omega
  · unfold XK_Return; omega
  · unfold XK_Escape; omega
  · unfold XK_BackSpace; omega

theorem keyPress_charKey (fc : Bool) (crypt : List Nat → List Nat → Option (List Nat))
    (hash : List Nat) (n : Nat) (s : State) (c : Nat) (h1 : 0x20 ≤ c) (h2 : c ≤ 0x7e)
    (hlen : s.len < 255) :
    (keyPress fc crypt hash n s (charKey c)).1.len = s.len + 1 ∧
    (keyPress fc crypt hash n s (charKey c)).1.running = s.running ∧
    (keyPress fc crypt hash n s (charKey c)).1.failure = s.failure := by
  obtain ⟨hf, hm, hr, he, hb⟩ := charKey_default c h1 h2
  have hacc : accepts s (charKey c) = true := by
    have hadd : add32 s.len 1 = s.len + 1 := by unfold add32 U32; omega
    have hc : iscntrl c = false := by
      simp only [iscntrl, Bool.or_eq_false_iff, decide_eq_false_iff_not]; omega
    simp [accepts, charKey, hadd, hc]; omega
  have hadd : add32 s.len (charKey c).num = s.len + 1 := by
    show add32 s.len 1 = s.len + 1
    unfold add32 U32; omega
  rw [keyPress_default fc crypt hash n s _ hf hm hr he hb]
  simp only [recolor_len, recolor_running, recolor_failure]
  obtain ⟨p1, -, p3, p4⟩ := printable_accepted s (charKey c) hacc
  exact ⟨by rw [p1, hadd], p3, p4⟩

theorem keyPress_Escape_fields (fc : Bool) (crypt : List Nat → List Nat → Option (List Nat))
    (hash : List Nat) (n : Nat) (s : State) (k : XKeyEvent) (hk : k.ksym = XK_Escape) :
    (keyPress fc crypt hash n s k).1.len = 0 ∧
    (keyPress fc crypt hash n s k).1.passwd = List.replicate 256 0 ∧
    (keyPress fc crypt hash n s k).1.failure = s.failure ∧
    (keyPress fc crypt hash n s k).1.running = s.running := by
  rw [keyPress_Escape fc crypt hash n s k hk]
  simp only [recolor_len, recolor_passwd, recolor_failure, recolor_running]
  exact ⟨rfl, rfl, rfl, rfl⟩

/-! ## Lemmas on `lockscreen` -/


theorem requests_spec (pt kb : Nat → Int) (st : GrabState) :
    (requests pt kb st).2.countP GrabEffect.isPointerGrab ≤ 1 ∧
    (requests pt kb st).2.countP GrabEffect.isKeyboardGrab ≤ 1 ∧
    (requests pt kb st).2.countP GrabEffect.isSleep = 0 ∧
    (∀ u, GrabEffect.usleep u ∉ (requests pt kb st).2) ∧
    ((requests pt kb st).1.ptgrab = GrabSuccess ↔
      (st.ptgrab = GrabSuccess ∨ GrabEffect.XGrabPointer GrabSuccess ∈ (requests pt kb st).2)) ∧
    ((requests pt kb st).1.kbgrab = GrabSuccess ↔
      (st.kbgrab = GrabSuccess ∨ GrabEffect.XGrabKeyboard GrabSuccess ∈ (requests pt kb st).2)) := by
  unfold requests grabPointer grabKeyboard
  by_cases h1 : st.ptgrab = GrabSuccess <;> by_cases h2 : st.kbgrab = GrabSuccess <;>
    simp [h1, h2, GrabEffect.isPointerGrab, GrabEffect.isKeyboardGrab, GrabEffect.isSleep,
      List.countP_cons, eq_comm]

theorem failMessages_spec (st : GrabState) :
    (failMessages st).countP GrabEffect.isPointerGrab = 0 ∧
    (failMessages st).countP GrabEffect.isKeyboardGrab = 0 ∧
    (failMessages st).countP GrabEffect.isSleep = 0 ∧
    (∀ r, GrabEffect.XGrabPointer r ∉ failMessages st) ∧
    (∀ r, GrabEffect.XGrabKeyboard r ∉ failMessages st) ∧
    (∀ u, GrabEffect.usleep u ∉ failMessages st) := by
  unfold failMessages
  by_cases h1 : st.ptgrab = GrabSuccess <;> by_cases h2 : st.kbgrab = GrabSuccess <;>
    simp [h1, h2, GrabEffect.isPointerGrab, GrabEffect.isKeyboardGrab, GrabEffect.isSleep]

theorem grabLoop_locked (rrActive : Bool) (pt kb : Nat → Int) (n : Nat) (st : GrabState)
    (h : (requests pt kb st).1.ptgrab = GrabSuccess ∧ (requests pt kb st).1.kbgrab = GrabSuccess) :
    grabLoop rrActive pt kb (n + 1) st =
      { locked := true, log := [((requests pt kb st).1.ptgrab, (requests pt kb st).1.kbgrab)],
        trace := (requests pt kb st).2 ++ [GrabEffect.XMapRaised] ++
          (if rrActive then [GrabEffect.XRRSelectInput] else []) ++ [GrabEffect.XSelectInput] } := by
  simp only [grabLoop, h, and_self, if_true]

theorem grabLoop_abort (rrActive : Bool) (pt kb : Nat → Int) (n : Nat) (st : GrabState)
    (h : ¬ ((requests pt kb st).1.ptgrab = GrabSuccess ∧
      (requests pt kb st).1.kbgrab = GrabSuccess))
    (ho : otherFailure (requests pt kb st).1.ptgrab (requests pt kb st).1.kbgrab = true) :
    grabLoop rrActive pt kb (n + 1) st =
      { locked := false, log := [((requests pt kb st).1.ptgrab, (requests pt kb st).1.kbgrab)],
        trace := (requests pt kb st).2 ++ failMessages (requests pt kb st).1 } := by
  simp only [grabLoop, if_neg h, ho, if_true]

theorem grabLoop_retry (rrActive : Bool) (pt kb : Nat → Int) (n : Nat) (st : GrabState)
    (h : ¬ ((requests pt kb st).1.ptgrab = GrabSuccess ∧
      (requests pt kb st).1.kbgrab = GrabSuccess))
    (ho : otherFailure (requests pt kb st).1.ptgrab (requests pt kb st).1.kbgrab = false) :
    grabLoop rrActive pt kb (n + 1) st =
      { locked := (grabLoop rrActive pt kb n (requests pt kb st).1).locked,
        log := ((requests pt kb st).1.ptgrab, (requests pt kb st).1.kbgrab) ::
          (grabLoop rrActive pt kb n (requests pt kb st).1).log,
        trace := (requests pt kb st).2 ++ [GrabEffect.usleep 100000] ++
          (grabLoop rrActive pt kb n (requests pt kb st).1).trace } := by
  simp only [grabLoop, if_neg h, ho, Bool.false_eq_true, if_false]

theorem grabLoop_cases (pt kb : Nat → Int) (st : GrabState) :
    ((requests pt kb st).1.ptgrab = GrabSuccess ∧ (requests pt kb st).1.kbgrab = GrabSuccess) ∨
    (¬ ((requests pt kb st).1.ptgrab = GrabSuccess ∧
        (requests pt kb st).1.kbgrab = GrabSuccess) ∧
      otherFailure (requests pt kb st).1.ptgrab (requests pt kb st).1.kbgrab = true) ∨
    (¬ ((requests pt kb st).1.ptgrab = GrabSuccess ∧
        (requests pt kb st).1.kbgrab = GrabSuccess) ∧
      otherFailure (requests pt kb st).1.ptgrab (requests pt kb st).1.kbgrab = false) := by
  by_cases h : (requests pt kb st).1.ptgrab = GrabSuccess ∧
      (requests pt kb st).1.kbgrab = GrabSuccess
  · exact Or.inl h
  · cases ho : otherFailure (requests pt kb st).1.ptgrab (requests pt kb st).1.kbgrab
    · exact Or.inr (Or.inr ⟨h, rfl⟩)
    · exact Or.inr (Or.inl ⟨h, rfl⟩)

theorem otherFailure_iff (p k : Int) :
    otherFailure p k = true ↔
      ((p ≠ GrabSuccess ∧ p ≠ AlreadyGrabbed) ∨ (k ≠ GrabSuccess ∧ k ≠ AlreadyGrabbed)) := by
  simp only [otherFailure, Bool.or_eq_true, Bool.and_eq_true, decide_eq_true_eq]
  tauto

theorem grabLoop_log_length (rrActive : Bool) (pt kb : Nat → Int) :
    ∀ (n : Nat) (st : GrabState), (grabLoop rrActive pt kb n st).log.length ≤ n := by
  intro n
  induction n with
  | zero => intro st; simp [grabLoop]
  | succ n ih =>
    intro st
    rcases grabLoop_cases pt kb st with h | ⟨h, ho⟩ | ⟨h, ho⟩
    · rw [grabLoop_locked rrActive pt kb n st h]; simp
    · rw [grabLoop_abort rrActive pt kb n st h ho]; simp
    · rw [grabLoop_retry rrActive pt kb n st h ho]
      have := ih (requests pt kb st).1
      simp only [List.length_cons]; omega

theorem grabLoop_counts (rrActive : Bool) (pt kb : Nat → Int) :
    ∀ (n : Nat) (st : GrabState),
      (grabLoop rrActive pt kb n st).trace.countP GrabEffect.isPointerGrab ≤
        (grabLoop rrActive pt kb n st).log.length ∧
      (grabLoop rrActive pt kb n st).trace.countP GrabEffect.isKeyboardGrab ≤
        (grabLoop rrActive pt kb n st).log.length ∧
      (grabLoop rrActive pt kb n st).trace.countP GrabEffect.isSleep ≤
        (grabLoop rrActive pt kb n st).log.length ∧
      (∀ u, GrabEffect.usleep u ∈ (grabLoop rrActive pt kb n st).trace → u = 100000) := by
  intro n
  induction n with
  | zero =>
    intro st
    have hf := failMessages_spec st
    simp [grabLoop, hf.1, hf.2.1, hf.2.2.1, hf.2.2.2.2.2]
  | succ n ih =>
    intro st
    obtain ⟨q1, q2, q3, q4, -, -⟩ := requests_spec pt kb st
    rcases grabLoop_cases pt kb st with h | ⟨h, ho⟩ | ⟨h, ho⟩
    · rw [grabLoop_locked rrActive pt kb n st h]
      cases rrActive <;>
        simp [List.countP_append, List.countP_cons, GrabEffect.isPointerGrab,
          GrabEffect.isKeyboardGrab, GrabEffect.isSleep, q1, q2, q3, q4]
    · rw [grabLoop_abort rrActive pt kb n st h ho]
      have hf := failMessages_spec (requests pt kb st).1
      simp [List.countP_append, hf.1, hf.2.1, hf.2.2.1, hf.2.2.2.2.2, q1, q2, q3, q4]
    · rw [grabLoop_retry rrActive pt kb n st h ho]
      obtain ⟨i1, i2, i3, i4⟩ := ih (requests pt kb st).1
      simp only [List.countP_append, List.countP_cons, List.countP_nil, List.length_cons,
        GrabEffect.isPointerGrab, GrabEffect.isKeyboardGrab, GrabEffect.isSleep, q3,
        List.mem_append, List.mem_singleton, List.mem_cons]
      refine ⟨by simp; omega, by simp; omega, by simp; omega, ?_⟩
      intro u hu
      rcases hu with (hu | hu) | hu
      · exact absurd hu (q4 u)
      · simp only [reduceCtorEq, GrabEffect.usleep.injEq, List.not_mem_nil, or_false] at hu
        exact hu
      · exact i4 u hu


theorem grabLoop_locked_iff_log (rrActive : Bool) (pt kb : Nat → Int) :
    ∀ (n : Nat) (st : GrabState),
      ((grabLoop rrActive pt kb n st).locked = true ↔
        ∃ a ∈ (grabLoop rrActive pt kb n st).log, a.1 = GrabSuccess ∧ a.2 = GrabSuccess) := by
  intro n
  induction n with
  | zero => intro st; simp [grabLoop]
  | succ n ih =>
    intro st
    rcases grabLoop_cases pt kb st with h | ⟨h, ho⟩ | ⟨h, ho⟩
    · rw [grabLoop_locked rrActive pt kb n st h]; simp [h.1, h.2]
    · rw [grabLoop_abort rrActive pt kb n st h ho]
      simp only [List.mem_singleton, exists_eq_left, Bool.false_eq_true, false_iff]
      exact h
    · rw [grabLoop_retry rrActive pt kb n st h ho]
      simp only [List.mem_cons, exists_eq_or_imp]
      rw [ih (requests pt kb st).1]
      constructor
      · intro hx; exact Or.inr hx
      · rintro (hx | hx)
        · exact absurd hx h
        · exact hx

theorem grabLoop_locked_iff_trace (rrActive : Bool) (pt kb : Nat → Int) :
    ∀ (n : Nat) (st : GrabState),
      ((grabLoop rrActive pt kb n st).locked = true ↔
        (st.ptgrab = GrabSuccess ∨
          GrabEffect.XGrabPointer GrabSuccess ∈ (grabLoop rrActive pt kb n st).trace) ∧
        (st.kbgrab = GrabSuccess ∨
          GrabEffect.XGrabKeyboard GrabSuccess ∈ (grabLoop rrActive pt kb n st).trace) ∧
        0 < n) := by
  intro n
  induction n with
  | zero => intro st; simp [grabLoop]
  | succ n ih =>
    intro st
    obtain ⟨-, -, -, -, q5, q6⟩ := requests_spec pt kb st
    rcases grabLoop_cases pt kb st with h | ⟨h, ho⟩ | ⟨h, ho⟩
    · rw [grabLoop_locked rrActive pt kb n st h]
      have h5 := q5.mp h.1
      have h6 := q6.mp h.2
      simp only [List.mem_append, true_iff]
      refine ⟨?_, ?_, Nat.succ_pos n⟩
      · rcases h5 with h5 | h5
        · exact Or.inl h5
        · exact Or.inr (Or.inl (Or.inl (Or.inl h5)))
      · rcases h6 with h6 | h6
        · exact Or.inl h6
        · exact Or.inr (Or.inl (Or.inl (Or.inl h6)))
    · rw [grabLoop_abort rrActive pt kb n st h ho]
      have hf := failMessages_spec (requests pt kb st).1
      simp only [List.mem_append, Bool.false_eq_true, false_iff]
      rintro ⟨hp, hk, -⟩
      apply h
      constructor
      · apply q5.mpr
        rcases hp with hp | hp | hp
        · exact Or.inl hp
        · exact Or.inr hp
        · exact absurd hp (hf.2.2.2.1 _)
      · apply q6.mpr
        rcases hk with hk | hk | hk
        · exact Or.inl hk
        · exact Or.inr hk
        · exact absurd hk (hf.2.2.2.2.1 _)
    · rw [grabLoop_retry rrActive pt kb n st h ho]
      simp only [List.mem_append, List.mem_singleton, reduceCtorEq, or_false]
      rw [ih (requests pt kb st).1, q5, q6]
      constructor
      · rintro ⟨hp, hk, hn⟩
        refine ⟨?_, ?_, Nat.succ_pos n⟩
        · rcases hp with (hp | hp) | hp
          · exact Or.inl hp
          · exact Or.inr (Or.inl hp)
          · exact Or.inr (Or.inr hp)
        · rcases hk with (hk | hk) | hk
          · exact Or.inl hk
          · exact Or.inr (Or.inl hk)
          · exact Or.inr (Or.inr hk)
      · rintro ⟨hp, hk, -⟩
        have hn : 0 < n := by
          rcases Nat.eq_zero_or_pos n with h0 | h0
          · exfalso
            subst h0
            have hf := failMessages_spec (requests pt kb st).1
            apply h
            constructor
            · apply q5.mpr
              rcases hp with hp | hp | hp
              · exact Or.inl hp
              · exact Or.inr hp
              · simp only [grabLoop] at hp; exact absurd hp (hf.2.2.2.1 _)
            · apply q6.mpr
              rcases hk with hk | hk | hk
              · exact Or.inl hk
              · exact Or.inr hk
              · simp only [grabLoop] at hk; exact absurd hk (hf.2.2.2.2.1 _)
          · exact h0
        refine ⟨?_, ?_, hn⟩
        · rcases hp with hp | hp | hp
          · exact Or.inl (Or.inl hp)
          · exact Or.inl (Or.inr hp)
          · exact Or.inr hp
        · rcases hk with hk | hk | hk
          · exact Or.inl (Or.inl hk)
          · exact Or.inl (Or.inr hk)
          · exact Or.inr hk

theorem grabLoop_policy (rrActive : Bool) (pt kb : Nat → Int) :
    ∀ (n : Nat) (st : GrabState) (i : Nat) (a : Int × Int),
      (grabLoop rrActive pt kb n st).log[i]? = some a →
      (i + 1 < (grabLoop rrActive pt kb n st).log.length →
        (a.1 = GrabSuccess ∨ a.1 = AlreadyGrabbed) ∧ (a.2 = GrabSuccess ∨ a.2 = AlreadyGrabbed) ∧
        ¬ (a.1 = GrabSuccess ∧ a.2 = GrabSuccess)) ∧
      (((a.1 ≠ GrabSuccess ∧ a.1 ≠ AlreadyGrabbed) ∨ (a.2 ≠ GrabSuccess ∧ a.2 ≠ AlreadyGrabbed)) →
        i + 1 = (grabLoop rrActive pt kb n st).log.length ∧
        (grabLoop rrActive pt kb n st).locked = false ∧
        (grabLoop rrActive pt kb n st).trace.countP GrabEffect.isSleep = i) := by
  intro n
  induction n with
  | zero => intro st i a ha; simp [grabLoop] at ha
  | succ n ih =>
    intro st i a
    obtain ⟨-, -, q3, -, -, -⟩ := requests_spec pt kb st
    rcases grabLoop_cases pt kb st with h | ⟨h, ho⟩ | ⟨h, ho⟩
    · rw [grabLoop_locked rrActive pt kb n st h]
      intro ha
      cases i with
      | zero =>
        simp only [List.getElem?_cons_zero, Option.some.injEq] at ha
        subst ha
        refine ⟨fun hlt => absurd hlt (by simp), fun hor => ?_⟩
        rcases hor with hor | hor
        · exact absurd h.1 hor.1
        · exact absurd h.2 hor.1
      | succ j => simp at ha
    · rw [grabLoop_abort rrActive pt kb n st h ho]
      intro ha
      cases i with
      | zero =>
        have hf := failMessages_spec (requests pt kb st).1
        refine ⟨fun hlt => absurd hlt (by simp), fun _ => ⟨rfl, rfl, ?_⟩⟩
        simp [List.countP_append, q3, hf.2.2.1]
      | succ j => simp at ha
    · rw [grabLoop_retry rrActive pt kb n st h ho]
      intro ha
      cases i with
      | zero =>
        simp only [List.getElem?_cons_zero, Option.some.injEq] at ha
        subst ha
        have hno : ¬ ((((requests pt kb st).1.ptgrab ≠ GrabSuccess ∧
            (requests pt kb st).1.ptgrab ≠ AlreadyGrabbed)) ∨
            ((requests pt kb st).1.kbgrab ≠ GrabSuccess ∧
              (requests pt kb st).1.kbgrab ≠ AlreadyGrabbed)) := by
          rw [← otherFailure_iff, ho]; simp
        refine ⟨fun _ => ⟨?_, ?_, h⟩, fun hor => absurd hor hno⟩
        · by_contra hc
          exact hno (Or.inl ⟨fun x => hc (Or.inl x), fun x => hc (Or.inr x)⟩)
        · by_contra hc
          exact hno (Or.inr ⟨fun x => hc (Or.inl x), fun x => hc (Or.inr x)⟩)
      | succ j =>
        simp only [List.getElem?_cons_succ] at ha
        obtain ⟨h1, h2⟩ := ih (requests pt kb st).1 j a ha
        refine ⟨fun hlt => h1 (by simpa using hlt), fun hor => ?_⟩
        obtain ⟨e1, e2, e3⟩ := h2 hor
        refine ⟨by simp only [List.length_cons]; omega, e2, ?_⟩
        simp [List.countP_append, List.countP_cons, GrabEffect.isSleep, q3, e3]

theorem lockscreen_cases (dpyNull : Bool) (screen : Int) (mallocOk rrActive : Bool)
    (pt kb : Nat → Int) :
    lockscreen dpyNull screen mallocOk rrActive pt kb =
        { locked := false, log := [], trace := [] } ∨
    lockscreen dpyNull screen mallocOk rrActive pt kb =
      grabLoop rrActive pt kb 6 { ptgrab := -1, kbgrab := -1, npt := 0, nkb := 0 } := by
  unfold lockscreen
  split
  · exact Or.inl rfl
  · exact Or.inr rfl

theorem grabInv_init (pt kb : Nat → Int) :
    GrabInv pt kb 0 { ptgrab := -1, kbgrab := -1, npt := 0, nkb := 0 } :=
  ⟨rfl, rfl, fun _ => rfl, fun _ => rfl⟩

theorem requests_exact (pt kb : Nat → Int) (t : Nat) (st : GrabState)
    (h : GrabInv pt kb t st) :
    GrabInv pt kb (t + 1) (requests pt kb st).1 ∧
    (requests pt kb st).2 = attemptRequests pt kb t ∧
    (requests pt kb st).1.ptgrab = grabVar pt (t + 1) ∧
    (requests pt kb st).1.kbgrab = grabVar kb (t + 1) := by
  obtain ⟨h1, h2, h3, h4⟩ := h
  unfold requests grabPointer grabKeyboard attemptRequests GrabInv
  by_cases c1 : st.ptgrab = GrabSuccess <;> by_cases c2 : st.kbgrab = GrabSuccess
  · have d1 : grabVar pt t = GrabSuccess := h1 ▸ c1
    have d2 : grabVar kb t = GrabSuccess := h2 ▸ c2
    simp [c1, c2, grabVar, d1, d2]
  · have d1 : grabVar pt t = GrabSuccess := h1 ▸ c1
    have d2 : ¬ grabVar kb t = GrabSuccess := h2 ▸ c2
    have e2 := h4 c2
    simp [c1, c2, grabVar, d1, d2, e2]
  · have d1 : ¬ grabVar pt t = GrabSuccess := h1 ▸ c1
    have d2 : grabVar kb t = GrabSuccess := h2 ▸ c2
    have e1 := h3 c1
    simp [c1, c2, grabVar, d1, d2, e1]
  · have d1 : ¬ grabVar pt t = GrabSuccess := h1 ▸ c1
    have d2 : ¬ grabVar kb t = GrabSuccess := h2 ▸ c2
    have e1 := h3 c1
    have e2 := h4 c2
    simp [c1, c2, grabVar, d1, d2, e1, e2]

theorem grabVar_held_iff (f : Nat → Int) (t : Nat) :
    grabVar f (t + 1) = GrabSuccess ↔ ∃ i, i ≤ t ∧ f i = GrabSuccess := by
  induction t with
  | zero =>
    have e : ¬ ((-1 : Int) = GrabSuccess) := by decide
    simp [grabVar, e]
  | succ t ih =>
    rw [grabVar]
    by_cases c : grabVar f (t + 1) = GrabSuccess
    · simp only [c, ne_eq, not_true_eq_false, if_false, true_iff]
      obtain ⟨i, hi, hf⟩ := ih.mp c
      exact ⟨i, by omega, hf⟩
    · simp only [c, ne_eq, not_false_eq_true, if_true]
      constructor
      · intro h; exact ⟨t + 1, le_refl _, h⟩
      · rintro ⟨i, hi, hf⟩
        rcases Nat.lt_or_ge i (t + 1) with hlt | hge
        · exact absurd (ih.mpr ⟨i, by omega, hf⟩) c
        · have : i = t + 1 := by omega
          subst this; exact hf

theorem grabVar_already_iff (f : Nat → Int) (t : Nat) :
    (grabVar f (t + 1) = GrabSuccess ∨ grabVar f (t + 1) = AlreadyGrabbed) ↔
      ((∃ i, i ≤ t ∧ f i = GrabSuccess) ∨ f t = AlreadyGrabbed) := by
  rw [grabVar_held_iff]
  by_cases c : ∃ i, i ≤ t ∧ f i = GrabSuccess
  · simp [c]
  · simp only [c, false_or]
    have hn : ¬ grabVar f (t + 1) = GrabSuccess := fun h => c ((grabVar_held_iff f t).mp h)
    cases t with
    | zero =>
      have e : ¬ ((-1 : Int) = GrabSuccess) := by decide
      simp [grabVar, e]
    | succ t =>
      have hp : ¬ grabVar f (t + 1) = GrabSuccess := by
        intro h
        obtain ⟨i, hi, hf⟩ := (grabVar_held_iff f t).mp h
        exact c ⟨i, by omega, hf⟩
      rw [grabVar]
      simp [hp]

theorem requests_pair (pt kb : Nat → Int) (t : Nat) (st : GrabState)
    (h : GrabInv pt kb t st) :
    ((requests pt kb st).1.ptgrab, (requests pt kb st).1.kbgrab) = attemptPair pt kb t := by
  obtain ⟨-, -, e1, e2⟩ := requests_exact pt kb t st h
  unfold attemptPair
  rw [e1, e2]

theorem grabLoop_log_eq (rrActive : Bool) (pt kb : Nat → Int) :
    ∀ (n : Nat) (st : GrabState) (t : Nat), GrabInv pt kb t st →
      ∀ (i : Nat) (a : Int × Int), (grabLoop rrActive pt kb n st).log[i]? = some a →
        a = attemptPair pt kb (t + i) := by
  intro n
  induction n with
  | zero => intro st t _ i a ha; simp [grabLoop] at ha
  | succ n ih =>
    intro st t hinv i a
    have hp := requests_pair pt kb t st hinv
    have hq := (requests_exact pt kb t st hinv).1
    rcases grabLoop_cases pt kb st with h | ⟨h, ho⟩ | ⟨h, ho⟩
    · rw [grabLoop_locked rrActive pt kb n st h]
      intro ha
      cases i with
      | zero =>
        simp only [List.getElem?_cons_zero, Option.some.injEq] at ha
        rw [← ha, hp]; rfl
      | succ j => simp at ha
    · rw [grabLoop_abort rrActive pt kb n st h ho]
      intro ha
      cases i with
      | zero =>
        simp only [List.getElem?_cons_zero, Option.some.injEq] at ha
        rw [← ha, hp]; rfl
      | succ j => simp at ha
    · rw [grabLoop_retry rrActive pt kb n st h ho]
      intro ha
      cases i with
      | zero =>
        simp only [List.getElem?_cons_zero, Option.some.injEq] at ha
        rw [← ha, hp]; rfl
      | succ j =>
        simp only [List.getElem?_cons_succ] at ha
        have := ih (requests pt kb st).1 (t + 1) hq j a ha
        rw [this]
        congr 1
        omega

theorem grabLoop_continues (rrActive : Bool) (pt kb : Nat → Int) :
    ∀ (n : Nat) (st : GrabState) (i : Nat) (a : Int × Int),
      (grabLoop rrActive pt kb n st).log[i]? = some a →
      ¬ (a.1 = GrabSuccess ∧ a.2 = GrabSuccess) → otherFailure a.1 a.2 = false →
      i + 1 < n → i + 1 < (grabLoop rrActive pt kb n st).log.length := by
  intro n
  induction n with
  | zero => intro st i a ha; simp [grabLoop] at ha
  | succ n ih =>
    intro st i a
    rcases grabLoop_cases pt kb st with h | ⟨h, ho⟩ | ⟨h, ho⟩
    · rw [grabLoop_locked rrActive pt kb n st h]
      intro ha hb _ _
      cases i with
      | zero =>
        simp only [List.getElem?_cons_zero, Option.some.injEq] at ha
        subst ha
        exact absurd h hb
      | succ j => simp at ha
    · rw [grabLoop_abort rrActive pt kb n st h ho]
      intro ha _ hf _
      cases i with
      | zero =>
        simp only [List.getElem?_cons_zero, Option.some.injEq] at ha
        subst ha
        rw [ho] at hf
        exact absurd hf (by decide)
      | succ j => simp at ha
    · rw [grabLoop_retry rrActive pt kb n st h ho]
      intro ha hb hf hn
      cases i with
      | zero =>
        simp only [List.length_cons]
        cases n with
        | zero => omega
        | succ m =>
          have : 0 < (grabLoop rrActive pt kb (m + 1) (requests pt kb st).1).log.length := by
            rcases grabLoop_cases pt kb (requests pt kb st).1 with h' | ⟨h', ho'⟩ | ⟨h', ho'⟩
            · rw [grabLoop_locked rrActive pt kb m _ h']; simp
            · rw [grabLoop_abort rrActive pt kb m _ h' ho']; simp
            · rw [grabLoop_retry rrActive pt kb m _ h' ho']; simp
          omega
      | succ j =>
        simp only [List.getElem?_cons_succ] at ha
        have := ih (requests pt kb st).1 j a ha hb hf (by omega)
        simp only [List.length_cons]
        omega

theorem grabLoop_locked_iff_answers (rrActive : Bool) (pt kb : Nat → Int) :
    ∀ (n : Nat) (st : GrabState) (t : Nat), GrabInv pt kb t st →
      ((grabLoop rrActive pt kb n st).locked = true ↔
        ∃ i, i < n ∧
          ((attemptPair pt kb (t + i)).1 = GrabSuccess ∧
            (attemptPair pt kb (t + i)).2 = GrabSuccess) ∧
          ∀ s, s < i →
            otherFailure (attemptPair pt kb (t + s)).1 (attemptPair pt kb (t + s)).2 = false) := by
  intro n
  induction n with
  | zero => intro st t _; simp [grabLoop]
  | succ n ih =>
    intro st t hinv
    have hp := requests_pair pt kb t st hinv
    have hp1 : (requests pt kb st).1.ptgrab = (attemptPair pt kb t).1 := by rw [← hp]
    have hp2 : (requests pt kb st).1.kbgrab = (attemptPair pt kb t).2 := by rw [← hp]
    have hq := (requests_exact pt kb t st hinv).1
    rcases grabLoop_cases pt kb st with h | ⟨h, ho⟩ | ⟨h, ho⟩
    · rw [grabLoop_locked rrActive pt kb n st h]
      simp only [true_iff]
      refine ⟨0, Nat.succ_pos n, ?_, fun s hs => absurd hs (Nat.not_lt_zero s)⟩
      rw [Nat.add_zero, ← hp1, ← hp2]; exact h
    · rw [grabLoop_abort rrActive pt kb n st h ho]
      simp only [Bool.false_eq_true, false_iff]
      rintro ⟨i, -, hb, hs⟩
      cases i with
      | zero =>
        rw [Nat.add_zero, ← hp1, ← hp2] at hb; exact h hb
      | succ j =>
        have := hs 0 (Nat.succ_pos j)
        rw [Nat.add_zero, ← hp1, ← hp2, ho] at this
        exact absurd this (by decide)
    · rw [grabLoop_retry rrActive pt kb n st h ho]
      show (grabLoop rrActive pt kb n (requests pt kb st).1).locked = true ↔ _
      rw [ih (requests pt kb st).1 (t + 1) hq]
      constructor
      · rintro ⟨i, hi, hb, hs⟩
        refine ⟨i + 1, by omega, ?_, ?_⟩
        · have e : t + (i + 1) = t + 1 + i := by omega
          rw [e]; exact hb
        · intro s hs'
          cases s with
          | zero => rw [Nat.add_zero, ← hp1, ← hp2]; exact ho
          | succ r =>
            have e : t + (r + 1) = t + 1 + r := by omega
            rw [e]; exact hs r (by omega)
      · rintro ⟨i, hi, hb, hs⟩
        cases i with
        | zero =>
          rw [Nat.add_zero, ← hp1, ← hp2] at hb; exact absurd hb h
        | succ j =>
          refine ⟨j, by omega, ?_, ?_⟩
          · have e : t + 1 + j = t + (j + 1) := by omega
            rw [e]; exact hb
          · intro s hs'
            have e : t + 1 + s = t + (s + 1) := by omega
            rw [e]; exact hs (s + 1) (by omega)

theorem otherFailure_held (p k : Int) (h : p = GrabSuccess ∧ k = GrabSuccess) :
    otherFailure p k = false := by
  rw [h.1, h.2]; decide

theorem flatMap_range_shift (f : Nat → List GrabEffect) (t j : Nat) :
    (List.range (j + 1)).flatMap (fun s => f (t + s)) =
      f t ++ (List.range j).flatMap (fun s => f (t + 1 + s)) := by
  rw [List.range_succ_eq_map, List.flatMap_cons, List.flatMap_map, Nat.add_zero]
  congr 1
  congr 1
  funext s
  show f (t + (s + 1)) = f (t + 1 + s)
  congr 1
  omega

theorem grabLoop_abort_trace (rrActive : Bool) (pt kb : Nat → Int) :
    ∀ (n : Nat) (st : GrabState) (t : Nat), GrabInv pt kb t st →
      ∀ (i : Nat) (a : Int × Int), (grabLoop rrActive pt kb n st).log[i]? = some a →
        otherFailure a.1 a.2 = true →
        (grabLoop rrActive pt kb n st).trace =
          (List.range i).flatMap
              (fun s => attemptRequests pt kb (t + s) ++ [GrabEffect.usleep 100000]) ++
            attemptRequests pt kb (t + i) ++
            ((if a.1 ≠ GrabSuccess then [GrabEffect.stderrPointer] else []) ++
              (if a.2 ≠ GrabSuccess then [GrabEffect.stderrKeyboard] else [])) := by
  intro n
  induction n with
  | zero => intro st t _ i a ha; simp [grabLoop] at ha
  | succ n ih =>
    intro st t hinv i a
    obtain ⟨hq, hr, -, -⟩ := requests_exact pt kb t st hinv
    rcases grabLoop_cases pt kb st with h | ⟨h, ho⟩ | ⟨h, ho⟩
    · rw [grabLoop_locked rrActive pt kb n st h]
      intro ha hf
      cases i with
      | zero =>
        simp only [List.getElem?_cons_zero, Option.some.injEq] at ha
        subst ha
        rw [otherFailure_held _ _ h] at hf
        exact absurd hf (by decide)
      | succ j => simp at ha
    · rw [grabLoop_abort rrActive pt kb n st h ho]
      intro ha _
      cases i with
      | zero =>
        simp only [List.getElem?_cons_zero, Option.some.injEq] at ha
        subst ha
        simp only [List.range_zero, List.flatMap_nil, List.nil_append, Nat.add_zero, hr]
        rfl
      | succ j => simp at ha
    · rw [grabLoop_retry rrActive pt kb n st h ho]
      intro ha hf
      cases i with
      | zero =>
        simp only [List.getElem?_cons_zero, Option.some.injEq] at ha
        subst ha
        rw [ho] at hf
        exact absurd hf (by decide)
      | succ j =>
        simp only [List.getElem?_cons_succ] at ha
        have e := ih (requests pt kb st).1 (t + 1) hq j a ha hf
        show (requests pt kb st).2 ++ [GrabEffect.usleep 100000] ++
          (grabLoop rrActive pt kb n (requests pt kb st).1).trace = _
        rw [e, hr,
          flatMap_range_shift
            (fun s => attemptRequests pt kb s ++ [GrabEffect.usleep 100000]) t j]
        have e2 : t + (j + 1) = t + 1 + j := by omega
        rw [e2]
        simp only [List.append_assoc]

theorem requests_pointer (pt kb : Nat → Int) (st : GrabState) :
    (requests pt kb st).2.filter GrabEffect.isPointerGrab =
        (List.range' st.npt ((requests pt kb st).2.countP GrabEffect.isPointerGrab)).map
          (fun j => GrabEffect.XGrabPointer (pt j)) ∧
    (requests pt kb st).1.npt =
      st.npt + (requests pt kb st).2.countP GrabEffect.isPointerGrab := by
  unfold requests grabPointer grabKeyboard
  by_cases c1 : st.ptgrab = GrabSuccess <;> by_cases c2 : st.kbgrab = GrabSuccess <;>
    simp [c1, c2, GrabEffect.isPointerGrab, List.countP_cons, List.filter_cons]

theorem requests_keyboard (pt kb : Nat → Int) (st : GrabState) :
    (requests pt kb st).2.filter GrabEffect.isKeyboardGrab =
        (List.range' st.nkb ((requests pt kb st).2.countP GrabEffect.isKeyboardGrab)).map
          (fun j => GrabEffect.XGrabKeyboard (kb j)) ∧
    (requests pt kb st).1.nkb =
      st.nkb + (requests pt kb st).2.countP GrabEffect.isKeyboardGrab := by
  unfold requests grabPointer grabKeyboard
  by_cases c1 : st.ptgrab = GrabSuccess <;> by_cases c2 : st.kbgrab = GrabSuccess <;>
    simp [c1, c2, GrabEffect.isKeyboardGrab, List.countP_cons, List.filter_cons]

theorem range_map_append (f : Nat → GrabEffect) (s m n : Nat) :
    (List.range' s m).map f ++ (List.range' (s + m) n).map f = (List.range' s (m + n)).map f := by
  rw [← List.map_append, List.range'_append_1, Nat.add_comm]

theorem failMessages_filter (st : GrabState) :
    (failMessages st).filter GrabEffect.isPointerGrab = [] ∧
    (failMessages st).filter GrabEffect.isKeyboardGrab = [] := by
  unfold failMessages
  by_cases h1 : st.ptgrab = GrabSuccess <;> by_cases h2 : st.kbgrab = GrabSuccess <;>
    simp [h1, h2, GrabEffect.isPointerGrab, GrabEffect.isKeyboardGrab]

theorem grabLoop_pointer_requests (rrActive : Bool) (pt kb : Nat → Int) :
    ∀ (n : Nat) (st : GrabState),
      (grabLoop rrActive pt kb n st).trace.filter GrabEffect.isPointerGrab =
        (List.range' st.npt
          ((grabLoop rrActive pt kb n st).trace.countP GrabEffect.isPointerGrab)).map
          (fun j => GrabEffect.XGrabPointer (pt j)) := by
  intro n
  induction n with
  | zero =>
    intro st
    have hf := failMessages_spec st
    have hg := failMessages_filter st
    simp [grabLoop, hf.1, hg.1]
  | succ n ih =>
    intro st
    obtain ⟨r1, r2⟩ := requests_pointer pt kb st
    rcases grabLoop_cases pt kb st with h | ⟨h, ho⟩ | ⟨h, ho⟩
    · rw [grabLoop_locked rrActive pt kb n st h]
      cases rrActive <;>
        simp [List.countP_append, List.countP_cons, List.filter_cons, GrabEffect.isPointerGrab,
          r1]
    · rw [grabLoop_abort rrActive pt kb n st h ho]
      have hf := failMessages_spec (requests pt kb st).1
      have hg := failMessages_filter (requests pt kb st).1
      simp [List.countP_append, hf.1, hg.1, r1]
    · rw [grabLoop_retry rrActive pt kb n st h ho]
      have e := ih (requests pt kb st).1
      simp only [List.filter_append, List.countP_append, List.filter_cons, List.filter_nil,
        List.countP_cons, List.countP_nil, GrabEffect.isPointerGrab, Bool.false_eq_true,
        if_false, List.append_nil, Nat.add_zero, List.nil_append, Nat.zero_add]
      rw [e, r1, r2, range_map_append]

theorem grabLoop_keyboard_requests (rrActive : Bool) (pt kb : Nat → Int) :
    ∀ (n : Nat) (st : GrabState),
      (grabLoop rrActive pt kb n st).trace.filter GrabEffect.isKeyboardGrab =
        (List.range' st.nkb
          ((grabLoop rrActive pt kb n st).trace.countP GrabEffect.isKeyboardGrab)).map
          (fun j => GrabEffect.XGrabKeyboard (kb j)) := by
  intro n
  induction n with
  | zero =>
    intro st
    have hf := failMessages_spec st
    have hg := failMessages_filter st
    simp [grabLoop, hf.2.1, hg.2]
  | succ n ih =>
    intro st
    obtain ⟨r1, r2⟩ := requests_keyboard pt kb st
    rcases grabLoop_cases pt kb st with h | ⟨h, ho⟩ | ⟨h, ho⟩
    · rw [grabLoop_locked rrActive pt kb n st h]
      cases rrActive <;>
        simp [List.countP_append, List.countP_cons, List.filter_cons, GrabEffect.isKeyboardGrab,
          r1]
    · rw [grabLoop_abort rrActive pt kb n st h ho]
      have hf := failMessages_spec (requests pt kb st).1
      have hg := failMessages_filter (requests pt kb st).1
      simp [List.countP_append, hf.2.1, hg.2, r1]
    · rw [grabLoop_retry rrActive pt kb n st h ho]
      have e := ih (requests pt kb st).1
      simp only [List.filter_append, List.countP_append, List.filter_cons, List.filter_nil,
        List.countP_cons, List.countP_nil, GrabEffect.isKeyboardGrab, Bool.false_eq_true,
        if_false, List.append_nil, Nat.add_zero, List.nil_append, Nat.zero_add]
      rw [e, r1, r2, range_map_append]

theorem lockscreen_guard (dpyNull : Bool) (screen : Int) (mallocOk rrActive : Bool)
    (pt kb : Nat → Int) :
    ((dpyNull = false ∧ 0 ≤ screen ∧ mallocOk = true) ∧
      lockscreen dpyNull screen mallocOk rrActive pt kb =
        grabLoop rrActive pt kb 6 { ptgrab := -1, kbgrab := -1, npt := 0, nkb := 0 }) ∨
    (¬ (dpyNull = false ∧ 0 ≤ screen ∧ mallocOk = true) ∧
      lockscreen dpyNull screen mallocOk rrActive pt kb =
        { locked := false, log := [], trace := [] }) := by
  unfold lockscreen
  by_cases h : dpyNull = false ∧ 0 ≤ screen ∧ mallocOk = true
  · obtain ⟨h1, h2, h3⟩ := h
    have h4 : ¬ screen < 0 := by omega
    left
    refine ⟨⟨h1, h2, h3⟩, ?_⟩
    simp [h1, h3, h4]
  · right
    refine ⟨h, ?_⟩
    have : (dpyNull || decide (screen < 0) || !mallocOk) = true := by
      cases dpyNull <;> cases mallocOk <;> simp_all
    rw [if_pos this]

theorem attemptPair_held_iff (pt kb : Nat → Int) (t : Nat) :
    ((attemptPair pt kb t).1 = GrabSuccess ∧ (attemptPair pt kb t).2 = GrabSuccess) ↔
      ((∃ i, i ≤ t ∧ pt i = GrabSuccess) ∧ (∃ j, j ≤ t ∧ kb j = GrabSuccess)) := by
  unfold attemptPair
  rw [← grabVar_held_iff, ← grabVar_held_iff]

theorem attemptPair_retry_iff (pt kb : Nat → Int) (t : Nat) :
    otherFailure (attemptPair pt kb t).1 (attemptPair pt kb t).2 = false ↔
      (((∃ i, i ≤ t ∧ pt i = GrabSuccess) ∨ pt t = AlreadyGrabbed) ∧
        ((∃ j, j ≤ t ∧ kb j = GrabSuccess) ∨ kb t = AlreadyGrabbed)) := by
  rw [← grabVar_already_iff, ← grabVar_already_iff, ← Bool.not_eq_true, otherFailure_iff]
  unfold attemptPair
  constructor
  · intro h
    constructor
    · by_contra hc
      exact h (Or.inl ⟨fun x => hc (Or.inl x), fun x => hc (Or.inr x)⟩)
    · by_contra hc
      exact h (Or.inr ⟨fun x => hc (Or.inl x), fun x => hc (Or.inr x)⟩)
  · rintro ⟨h1, h2⟩ hor
    rcases hor with hor | hor
    · rcases h1 with h1 | h1
      · exact hor.1 h1
      · exact hor.2 h1
    · rcases h2 with h2 | h2
      · exact hor.1 h2
      · exact hor.2 h2

/-! ## Lemmas on the surface loop of `main` -/

theorem lockLoop_fail (locks : Nat → Bool) (k : Nat) :
    ∀ (n a nlocks : Nat), a ≤ k → k < a + n → (∀ i, a ≤ i → i < k → locks i = true) →
      locks k = false →
      lockLoop locks (List.range' a n) nlocks =
        (nlocks + (k - a), (List.range' a (k - a + 1)).map MainEffect.lockscreen) := by
  intro n
  induction n with
  | zero => intro a nlocks h1 h2; omega
  | succ n ih =>
    intro a nlocks h1 h2 hok hfail
    rw [List.range'_succ]
    rcases Nat.eq_or_lt_of_le h1 with h | h
    · subst h
      simp [lockLoop, hfail]
    · have ha : locks a = true := hok a (Nat.le_refl a) h
      have := ih (a + 1) (nlocks + 1) h (by omega) (fun i hi1 hi2 => hok i (by omega) hi2) hfail
      have e : k - a + 1 = (k - (a + 1) + 1) + 1 := by omega
      simp only [lockLoop, ha, if_true, this]
      rw [e, List.range'_succ a]
      simp only [List.map_cons, Prod.mk.injEq, and_true]
      omega

theorem lockLoop_count (locks : Nat → Bool) :
    ∀ (l : List Nat) (nlocks : Nat),
      (lockLoop locks l nlocks).1 ≤ nlocks + l.length ∧
      ((lockLoop locks l nlocks).1 = nlocks + l.length → ∀ s ∈ l, locks s = true) ∧
      MainEffect.readpw ∉ (lockLoop locks l nlocks).2 := by
  intro l
  induction l with
  | nil => intro nlocks; simp [lockLoop]
  | cons s rest ih =>
    intro nlocks
    cases hs : locks s
    · simp [lockLoop, hs]
    · obtain ⟨h1, h2, h3⟩ := ih (nlocks + 1)
      simp only [lockLoop, hs, if_true, List.length_cons, List.mem_cons, not_or]
      refine ⟨by omega, ?_, by simp, h3⟩
      intro he x hx
      rcases hx with hx | hx
      · rw [hx]; exact hs
      · exact h2 (by omega) x hx

/-! ## Lemmas on `compute_pixel` and the tile loop -/


theorem MIN_eq_min (a b : Nat) : MIN a b = min a b := by
  unfold MIN
  split <;> omega

theorem sub32_eq (a b : Nat) (hb : b ≤ a) (ha : a < U32) : sub32 a b = a - b := by
  unfold sub32
  rw [Nat.mod_eq_of_lt ha, Nat.mod_eq_of_lt (lt_of_le_of_lt hb ha)]
  have : a + U32 - b = (a - b) + U32 := by omega
  rw [this, Nat.add_mod_right, Nat.mod_eq_of_lt (by omega)]

theorem pixel_lt (width height a b : Nat) (ha : a < width) (hb : b < height) :
    width * b + a < width * height := by
  have h1 : width * (b + 1) ≤ width * height := Nat.mul_le_mul_left _ hb
  rw [Nat.mul_succ] at h1
  omega

theorem dims_lt (width height : Nat) (hsz : width * height < U32) (hw : 0 < width)
    (hh : 0 < height) : width < U32 ∧ height < U32 := by
  constructor
  · exact lt_of_le_of_lt (Nat.le_mul_of_pos_right _ hh) hsz
  · exact lt_of_le_of_lt (Nat.le_mul_of_pos_left _ hw) hsz

theorem index_eq (width height x y i j : Nat) (hsz : width * height < U32)
    (hx : x + i < width) (hy : y + j < height) :
    index width x y i j = width * (y + j) + (x + i) := by
  have hlt := pixel_lt width height (x + i) (y + j) hx hy
  obtain ⟨hw, hh⟩ := dims_lt width height hsz (by omega) (by omega)
  have h1 : width * (y + j) < U32 := by omega
  unfold index add32 mul32
  rw [Nat.mod_eq_of_lt (by omega : y + j < U32), Nat.mod_eq_of_lt (by omega : x + i < U32),
    Nat.mod_eq_of_lt h1, Nat.mod_eq_of_lt (by omega)]

/-- Running a checked loop whose body always succeeds on the states met:
it is the plain fold. -/
theorem foldlM_ok {α β : Type} (Inv : α → Prop) (f : α → β → Except Fault α) (g : α → β → α) :
    ∀ (l : List β) (a : α), Inv a →
      (∀ b ∈ l, ∀ a, Inv a → f a b = Except.ok (g a b) ∧ Inv (g a b)) →
      l.foldlM f a = Except.ok (l.foldl g a) ∧ Inv (l.foldl g a) := by
  intro l
  induction l with
  | nil => intro a ha _; exact ⟨rfl, ha⟩
  | cons b l ih =>
    intro a ha h
    obtain ⟨h1, h2⟩ := h b (List.mem_cons_self _ _) a ha
    have := ih (g a b) h2 (fun c hc => h c (List.mem_cons_of_mem _ hc))
    simp only [List.foldlM_cons, List.foldl_cons, h1]
    exact this


theorem Sums.add_chan (acc : Sums) (d k : Nat) (hk : k < 4) :
    (acc.add d).chan k = (acc.chan k + byteOf k d) % U32 := by
  have h : k = 0 ∨ k = 1 ∨ k = 2 ∨ k = 3 := by omega
  rcases h with h | h | h | h <;> subst h <;> rfl

theorem sumStep_ok (width : Nat) (data : List Nat) (x y j : Nat) (acc : Sums) (i : Nat)
    (h : index width x y i j < data.length) :
    sumStep width data x y j acc i =
      Except.ok (acc.add (data.getD (index width x y i j) 0)) := by
  unfold sumStep
  rw [List.getElem?_eq_getElem h]
  simp only [List.getD_eq_getElem?_getD, List.getElem?_eq_getElem h, Option.getD_some]
  rfl

theorem row_chan (F : Nat → Nat) (k : Nat) (hk : k < 4) :
    ∀ (l : List Nat) (acc : Sums),
      (l.foldl (fun a i => a.add (F i)) acc).chan k % U32 =
        (acc.chan k + (l.map (fun i => byteOf k (F i))).sum) % U32 := by
  intro l
  induction l with
  | nil => intro acc; simp
  | cons b l ih =>
    intro acc
    simp only [List.foldl_cons, List.map_cons, List.sum_cons]
    rw [ih (acc.add (F b)), Sums.add_chan acc (F b) k hk]
    unfold U32
    omega

theorem row_lt (F : Nat → Nat) (k : Nat) (hk : k < 4) :
    ∀ (l : List Nat) (acc : Sums), acc.chan k < U32 →
      (l.foldl (fun a i => a.add (F i)) acc).chan k < U32 := by
  intro l
  induction l with
  | nil => intro acc h; exact h
  | cons b l ih =>
    intro acc _
    simp only [List.foldl_cons]
    apply ih
    rw [Sums.add_chan acc (F b) k hk]
    exact Nat.mod_lt _ (by unfold U32; omega)

theorem tile_chan (F : Nat → Nat → Nat) (li : List Nat) (k : Nat) (hk : k < 4) :
    ∀ (lj : List Nat) (acc : Sums),
      (lj.foldl (fun a j => li.foldl (fun a i => a.add (F j i)) a) acc).chan k % U32 =
        (acc.chan k +
          (lj.map (fun j => (li.map (fun i => byteOf k (F j i))).sum)).sum) % U32 := by
  intro lj
  induction lj with
  | nil => intro acc; simp
  | cons b l ih =>
    intro acc
    simp only [List.foldl_cons, List.map_cons, List.sum_cons]
    rw [ih]
    have := row_chan (F b) k hk li acc
    rw [Nat.add_mod, this, ← Nat.add_mod, Nat.add_assoc]

theorem tile_lt (F : Nat → Nat → Nat) (li : List Nat) (k : Nat) (hk : k < 4) :
    ∀ (lj : List Nat) (acc : Sums), acc.chan k < U32 →
      (lj.foldl (fun a j => li.foldl (fun a i => a.add (F j i)) a) acc).chan k < U32 := by
  intro lj
  induction lj with
  | nil => intro acc h; exact h
  | cons b l ih =>
    intro acc h
    simp only [List.foldl_cons]
    exact ih _ (row_lt (F b) k hk li acc h)

theorem tileSum_congr (width : Nat) (data : List Nat) (x y hr wr k : Nat) (F : Nat → Nat → Nat)
    (h : ∀ j, j < hr → ∀ i, i < wr → F j i = data.getD (width * (y + j) + (x + i)) 0) :
    ((List.range hr).map (fun j => ((List.range wr).map (fun i => byteOf k (F j i))).sum)).sum =
      tileSum width data x y hr wr k := by
  unfold tileSum
  congr 1
  apply List.map_congr_left
  intro j hj
  congr 1
  apply List.map_congr_left
  intro i hi
  rw [h j (List.mem_range.mp hj) i (List.mem_range.mp hi)]

/-- The summing loops succeed inside the buffer, and each accumulator holds the sum
of its byte over the tile, reduced modulo `2 ^ 32`. -/
theorem sumTile_spec (width height : Nat) (data : List Nat) (x y hr wr : Nat)
    (hsz : width * height < U32) (hlen : data.length = width * height)
    (hx : x + wr ≤ width) (hy : y + hr ≤ height) :
    ∃ s, sumTile width data x y hr wr = Except.ok s ∧
      ∀ k, k < 4 → s.chan k = tileSum width data x y hr wr k % U32 := by
  have hin : ∀ j, j < hr → ∀ i, i < wr →
      index width x y i j = width * (y + j) + (x + i) ∧ index width x y i j < data.length := by
    intro j hj i hi
    have e := index_eq width height x y i j hsz (by omega) (by omega)
    refine ⟨e, ?_⟩
    rw [e, hlen]
    exact pixel_lt width height (x + i) (y + j) (by omega) (by omega)
  have hrow : ∀ j ∈ List.range hr, ∀ a : Sums, True →
      (List.range wr).foldlM (sumStep width data x y j) a =
        Except.ok ((List.range wr).foldl
          (fun a i => a.add (data.getD (index width x y i j) 0)) a) ∧ True := by
    intro j hj a _
    have := foldlM_ok (fun _ => True) (sumStep width data x y j)
      (fun a i => a.add (data.getD (index width x y i j) 0)) (List.range wr) a trivial
      (fun i hi a _ =>
        ⟨sumStep_ok width data x y j a i
          (hin j (List.mem_range.mp hj) i (List.mem_range.mp hi)).2, trivial⟩)
    exact ⟨this.1, trivial⟩
  have hall := foldlM_ok (fun _ => True)
    (fun acc j => (List.range wr).foldlM (sumStep width data x y j) acc)
    (fun acc j => (List.range wr).foldl
      (fun a i => a.add (data.getD (index width x y i j) 0)) acc)
    (List.range hr) { alpha := 0, red := 0, green := 0, blue := 0 } trivial hrow
  refine ⟨_, hall.1, ?_⟩
  intro k hk
  have h0 : (({ alpha := 0, red := 0, green := 0, blue := 0 } : Sums)).chan k = 0 := by
    have h : k = 0 ∨ k = 1 ∨ k = 2 ∨ k = 3 := by omega
    rcases h with h | h | h | h <;> subst h <;> rfl
  have hc := tile_chan (fun j i => data.getD (index width x y i j) 0) (List.range wr) k hk
    (List.range hr) { alpha := 0, red := 0, green := 0, blue := 0 }
  have hl := tile_lt (fun j i => data.getD (index width x y i j) 0) (List.range wr) k hk
    (List.range hr) { alpha := 0, red := 0, green := 0, blue := 0 }
    (by rw [h0]; unfold U32; omega)
  rw [Nat.mod_eq_of_lt hl, h0, Nat.zero_add] at hc
  have ht := tileSum_congr width data x y hr wr k
    (fun j i => data.getD (index width x y i j) 0)
    (fun j hj i hi => by show data.getD (index width x y i j) 0 = _; rw [(hin j hj i hi).1])
  rw [← ht]
  exact hc


theorem set_getD (l : List Nat) (n p m : Nat) :
    (l.set n p).getD m 0 = if n = m ∧ m < l.length then p else l.getD m 0 := by
  simp only [List.getD_eq_getElem?_getD, List.getElem?_set]
  by_cases h : n = m
  · subst h
    by_cases h2 : n < l.length
    · simp [h2]
    · simp [h2, List.getElem?_eq_none (Nat.le_of_not_lt h2)]
  · simp [h]

theorem rowFill_spec (f : Nat → Nat) (p : Nat) :
    ∀ (li : List Nat) (data : List Nat),
      (li.foldl (fun d i => d.set (f i) p) data).length = data.length ∧
      ∀ m, (li.foldl (fun d i => d.set (f i) p) data).getD m 0 =
        if (∃ i ∈ li, f i = m) ∧ m < data.length then p else data.getD m 0 := by
  intro li
  induction li with
  | nil => intro data; simp
  | cons b l ih =>
    intro data
    obtain ⟨h1, h2⟩ := ih (data.set (f b) p)
    simp only [List.foldl_cons]
    refine ⟨by rw [h1, List.length_set], ?_⟩
    intro m
    rw [h2 m, set_getD, List.length_set]
    by_cases hm : m < data.length
    · by_cases hb : f b = m
      · simp [hb, hm]
      · simp [hb, hm]
    · simp [hm]

theorem tileFill_spec (f : Nat → Nat → Nat) (p : Nat) (li : List Nat) :
    ∀ (lj : List Nat) (data : List Nat),
      (lj.foldl (fun d j => li.foldl (fun d i => d.set (f j i) p) d) data).length =
        data.length ∧
      ∀ m, (lj.foldl (fun d j => li.foldl (fun d i => d.set (f j i) p) d) data).getD m 0 =
        if (∃ j ∈ lj, ∃ i ∈ li, f j i = m) ∧ m < data.length then p else data.getD m 0 := by
  intro lj
  induction lj with
  | nil => intro data; simp
  | cons b l ih =>
    intro data
    obtain ⟨r1, r2⟩ := rowFill_spec (f b) p li data
    obtain ⟨h1, h2⟩ := ih (li.foldl (fun d i => d.set (f b i) p) data)
    simp only [List.foldl_cons]
    refine ⟨by rw [h1, r1], ?_⟩
    intro m
    rw [h2 m, r2 m, r1]
    by_cases hm : m < data.length
    · by_cases hb : ∃ i ∈ li, f b i = m
      · simp [hb, hm]
      · simp [hb, hm]
    · simp [hm]

/-- Two pixels of a row-major buffer with the same index have the same column
and row. -/
theorem pixel_inj (width a b a2 b2 : Nat) (ha : a < width) (ha2 : a2 < width)
    (h : width * b + a = width * b2 + a2) : a = a2 ∧ b = b2 := by
  have h1 : (width * b + a) % width = a := by
    rw [Nat.mul_add_mod]; exact Nat.mod_eq_of_lt ha
  have h2 : (width * b2 + a2) % width = a2 := by
    rw [Nat.mul_add_mod]; exact Nat.mod_eq_of_lt ha2
  have ea : a = a2 := by rw [← h1, ← h2, h]
  subst ea
  have hw : 0 < width := by omega
  have : width * b = width * b2 := by omega
  exact ⟨rfl, Nat.eq_of_mul_eq_mul_left hw this⟩

/-- The filling loops succeed inside the buffer; they keep its length, put `p` in
every pixel of the tile and leave every other pixel as it was. -/
theorem fillTile_spec (width height : Nat) (data : List Nat) (x y hr wr p : Nat)
    (hsz : width * height < U32) (hlen : data.length = width * height)
    (hx : x + wr ≤ width) (hy : y + hr ≤ height) :
    ∃ out, fillTile width data x y hr wr p = Except.ok out ∧ out.length = data.length ∧
      ∀ a b, a < width → b < height →
        out.getD (width * b + a) 0 =
          if (x ≤ a ∧ a < x + wr) ∧ (y ≤ b ∧ b < y + hr) then p
          else data.getD (width * b + a) 0 := by
  have hin : ∀ j, j < hr → ∀ i, i < wr →
      index width x y i j = width * (y + j) + (x + i) ∧ index width x y i j < data.length := by
    intro j hj i hi
    have e := index_eq width height x y i j hsz (by omega) (by omega)
    refine ⟨e, ?_⟩
    rw [e, hlen]
    exact pixel_lt width height (x + i) (y + j) (by omega) (by omega)
  have hrow : ∀ j ∈ List.range hr, ∀ d : List Nat, d.length = data.length →
      (List.range wr).foldlM (fillStep width x y j p) d =
        Except.ok ((List.range wr).foldl (fun d i => d.set (index width x y i j) p) d) ∧
      ((List.range wr).foldl (fun d i => d.set (index width x y i j) p) d).length =
        data.length := by
    intro j hj d hd
    exact foldlM_ok (fun d => d.length = data.length) (fillStep width x y j p)
      (fun d i => d.set (index width x y i j) p) (List.range wr) d hd
      (fun i hi d hd => by
        have hlt := (hin j (List.mem_range.mp hj) i (List.mem_range.mp hi)).2
        refine ⟨?_, by show (d.set _ p).length = data.length; rw [List.length_set]; exact hd⟩
        unfold fillStep
        rw [if_pos (by rw [hd]; exact hlt)])
  have hall := foldlM_ok (fun d => d.length = data.length)
    (fun d j => (List.range wr).foldlM (fillStep width x y j p) d)
    (fun d j => (List.range wr).foldl (fun d i => d.set (index width x y i j) p) d)
    (List.range hr) data rfl hrow
  obtain ⟨t1, t2⟩ := tileFill_spec (fun j i => index width x y i j) p (List.range wr)
    (List.range hr) data
  refine ⟨_, hall.1, hall.2, ?_⟩
  intro a b ha hb
  have hm : width * b + a < data.length := by
    rw [hlen]; exact pixel_lt width height a b ha hb
  have key := t2 (width * b + a)
  simp only [] at key
  rw [key]
  have hiff : ((∃ j ∈ List.range hr, ∃ i ∈ List.range wr,
      index width x y i j = width * b + a) ∧ width * b + a < data.length) ↔
      ((x ≤ a ∧ a < x + wr) ∧ (y ≤ b ∧ b < y + hr)) := by
    constructor
    · rintro ⟨⟨j, hj, i, hi, e⟩, -⟩
      have hj2 := List.mem_range.mp hj
      have hi2 := List.mem_range.mp hi
      rw [(hin j hj2 i hi2).1] at e
      obtain ⟨e1, e2⟩ := pixel_inj width (x + i) (y + j) a b (by omega) ha e
      omega
    · rintro ⟨⟨h1, h2⟩, h3, h4⟩
      refine ⟨⟨b - y, List.mem_range.mpr (by omega), a - x, List.mem_range.mpr (by omega), ?_⟩, hm⟩
      rw [(hin (b - y) (by omega) (a - x) (by omega)).1]
      have e1 : y + (b - y) = b := by omega
      have e2 : x + (a - x) = a := by omega
      rw [e1, e2]
  by_cases hc : (x ≤ a ∧ a < x + wr) ∧ (y ≤ b ∧ b < y + hr)
  · rw [if_pos (hiff.mpr hc), if_pos hc]
  · rw [if_neg (fun h => hc (hiff.mp h)), if_neg hc]


theorem byteOf_lt (k d : Nat) : byteOf k d < 256 := by
  unfold byteOf; exact Nat.mod_lt _ (by decide)

theorem byteOf_data (p : Pixel) (ha : p.a < 256) (hr : p.red < 256) (hg : p.green < 256)
    (hb : p.blue < 256) (k : Nat) (hk : k < 4) :
    byteOf k p.data = (match k with | 0 => p.a | 1 => p.red | 2 => p.green | _ => p.blue) := by
  have h : k = 0 ∨ k = 1 ∨ k = 2 ∨ k = 3 := by omega
  rcases h with h | h | h | h <;> subst h <;> simp only [byteOf, Pixel.data] <;> omega

theorem tileByte_lt (width : Nat) (data : List Nat) (x y hr wr k : Nat) :
    tileByte width data x y hr wr k < 256 := by
  unfold tileByte; exact Nat.mod_lt _ (by decide)

theorem byteOf_tilePixel (width : Nat) (data : List Nat) (x y hr wr k : Nat) (hk : k < 4) :
    byteOf k (tilePixel width data x y hr wr) = tileByte width data x y hr wr k := by
  unfold tilePixel
  rw [byteOf_data _ (tileByte_lt ..) (tileByte_lt ..) (tileByte_lt ..) (tileByte_lt ..) k hk]
  have h : k = 0 ∨ k = 1 ∨ k = 2 ∨ k = 3 := by omega
  rcases h with h | h | h | h <;> subst h <;> rfl

theorem sum_le_of_le (c : Nat) : ∀ (l : List Nat), (∀ v ∈ l, v ≤ c) → l.sum ≤ l.length * c := by
  intro l
  induction l with
  | nil => intro _; simp
  | cons b l ih =>
    intro h
    have h1 := h b (List.mem_cons_self _ _)
    have h2 := ih (fun v hv => h v (List.mem_cons_of_mem _ hv))
    simp only [List.sum_cons, List.length_cons, Nat.succ_mul]
    omega

theorem tileSum_le (width : Nat) (data : List Nat) (x y hr wr k : Nat) :
    tileSum width data x y hr wr k ≤ hr * wr * 255 := by
  unfold tileSum
  have h := sum_le_of_le (wr * 255)
    ((List.range hr).map (fun j =>
      ((List.range wr).map (fun i =>
        byteOf k (data.getD (width * (y + j) + (x + i)) 0))).sum))
    (by
      intro v hv
      obtain ⟨j, -, rfl⟩ := List.mem_map.mp hv
      have := sum_le_of_le 255
        ((List.range wr).map (fun i => byteOf k (data.getD (width * (y + j) + (x + i)) 0)))
        (by
          intro v hv
          obtain ⟨i, -, rfl⟩ := List.mem_map.mp hv
          have := byteOf_lt k (data.getD (width * (y + j) + (x + i)) 0)
          omega)
      simpa using this)
  simp only [List.length_map, List.length_range] at h
  rw [Nat.mul_assoc]
  exact h

/-- Without wrap-around of the accumulator the computed byte is the mean,
rounded down. -/
theorem tileByte_eq_mean (width : Nat) (data : List Nat) (x y hr wr k : Nat)
    (h : tileSum width data x y hr wr k < U32) :
    tileByte width data x y hr wr k = tileSum width data x y hr wr k / (hr * wr) := by
  unfold tileByte
  rw [Nat.mod_eq_of_lt h]
  apply Nat.mod_eq_of_lt
  have hle := tileSum_le width data x y hr wr k
  rcases Nat.eq_zero_or_pos (hr * wr) with h0 | h0
  · rw [h0, Nat.div_zero]; decide
  · have : tileSum width data x y hr wr k / (hr * wr) ≤ 255 := by
      apply Nat.div_le_of_le_mul
      rw [Nat.mul_comm] at hle
      calc tileSum width data x y hr wr k ≤ 255 * (hr * wr) := hle
        _ = hr * wr * 255 := Nat.mul_comm _ _
    omega

/-- What a call of `compute_pixel` inside the image does: it succeeds, keeps the
length of the buffer, writes the tile pixel into the clipped tile and leaves
every other pixel as it was. -/
theorem compute_pixel_spec (width height : Nat) (data : List Nat) (x y ps : Nat)
    (hx : x < width) (hy : y < height) (hps : 1 ≤ ps)
    (hsz : width * height < U32) (hlen : data.length = width * height) :
    ∃ out, compute_pixel width height data x y ps = Except.ok out ∧
      out.length = data.length ∧
      ∀ a b, a < width → b < height →
        out.getD (width * b + a) 0 =
          if (x ≤ a ∧ a < x + min ps (width - x)) ∧ (y ≤ b ∧ b < y + min ps (height - y)) then
            tilePixel width data x y (min ps (height - y)) (min ps (width - x))
          else data.getD (width * b + a) 0 := by
  obtain ⟨hw, hh⟩ := dims_lt width height hsz (by omega) (by omega)
  have e1 : MIN ps (sub32 height y) = min ps (height - y) := by
    rw [MIN_eq_min, sub32_eq height y (by omega) hh]
  have e2 : MIN ps (sub32 width x) = min ps (width - x) := by
    rw [MIN_eq_min, sub32_eq width x (by omega) hw]
  have hwr : x + min ps (width - x) ≤ width := by omega
  have hhr : y + min ps (height - y) ≤ height := by omega
  have harea_le : min ps (height - y) * min ps (width - x) ≤ height * width :=
    Nat.mul_le_mul (by omega) (by omega)
  have harea_pos : 0 < min ps (height - y) * min ps (width - x) :=
    Nat.mul_pos (by omega) (by omega)
  have e3 : mul32 (min ps (height - y)) (min ps (width - x)) =
      min ps (height - y) * min ps (width - x) := by
    unfold mul32
    apply Nat.mod_eq_of_lt
    rw [Nat.mul_comm height width] at harea_le
    omega
  obtain ⟨s, hs, hchan⟩ := sumTile_spec width height data x y (min ps (height - y))
    (min ps (width - x)) hsz hlen hwr hhr
  obtain ⟨out, ho, hol, hog⟩ := fillTile_spec width height data x y (min ps (height - y))
    (min ps (width - x))
    (tilePixel width data x y (min ps (height - y)) (min ps (width - x))) hsz hlen hwr hhr
  refine ⟨out, ?_, hol, hog⟩
  unfold compute_pixel
  simp only [e1, e2, hs, e3]
  rw [if_neg (by omega)]
  have h0 := hchan 0 (by decide)
  have h1 := hchan 1 (by decide)
  have h2 := hchan 2 (by decide)
  have h3 := hchan 3 (by decide)
  simp only [Sums.chan] at h0 h1 h2 h3
  rw [← ho]
  unfold tilePixel tileByte
  rw [h0, h1, h2, h3]


theorem sum_const (c : Nat) : ∀ (l : List Nat), (∀ v ∈ l, v = c) → l.sum = l.length * c := by
  intro l
  induction l with
  | nil => intro _; simp
  | cons b l ih =>
    intro h
    have h1 := h b (List.mem_cons_self _ _)
    have h2 := ih (fun v hv => h v (List.mem_cons_of_mem _ hv))
    simp only [List.sum_cons, List.length_cons, Nat.succ_mul]
    omega

/-- On a tile whose pixels all equal `v` the sum of byte `k` is the area times
byte `k` of `v`. -/
theorem tileSum_uniform (width : Nat) (data : List Nat) (x y hr wr k v : Nat)
    (h : ∀ j, j < hr → ∀ i, i < wr → data.getD (width * (y + j) + (x + i)) 0 = v) :
    tileSum width data x y hr wr k = hr * wr * byteOf k v := by
  unfold tileSum
  have := sum_const (wr * byteOf k v)
    ((List.range hr).map (fun j =>
      ((List.range wr).map (fun i =>
        byteOf k (data.getD (width * (y + j) + (x + i)) 0))).sum))
    (by
      intro u hu
      obtain ⟨j, hj, rfl⟩ := List.mem_map.mp hu
      have := sum_const (byteOf k v)
        ((List.range wr).map (fun i => byteOf k (data.getD (width * (y + j) + (x + i)) 0)))
        (by
          intro u hu
          obtain ⟨i, hi, rfl⟩ := List.mem_map.mp hu
          rw [h j (List.mem_range.mp hj) i (List.mem_range.mp hi)])
      simpa using this)
  simp only [List.length_map, List.length_range] at this
  rw [this, Nat.mul_assoc]

theorem getD_replicate (n v m : Nat) (h : m < n) : (List.replicate n v).getD m 0 = v := by
  rw [List.getD_eq_getElem?_getD, List.getElem?_replicate, if_pos h]
  rfl

theorem tileSum_replicate (width height x y hr wr k v : Nat)
    (hx : x + wr ≤ width) (hy : y + hr ≤ height) :
    tileSum width (List.replicate (width * height) v) x y hr wr k = hr * wr * byteOf k v := by
  apply tileSum_uniform
  intro j hj i hi
  exact getD_replicate _ _ _ (pixel_lt width height (x + i) (y + j) (by omega) (by omega))

theorem data_ofData (v : Nat) (hv : v < U32) :
    Pixel.data { a := byteOf 0 v, red := byteOf 1 v, green := byteOf 2 v, blue := byteOf 3 v } = v := by
  unfold U32 at hv
  simp only [Pixel.data, byteOf]
  norm_num
  omega

/-- A buffer is determined by its length and its pixels. -/
theorem eq_replicate_of_pixels (width height v : Nat) (out : List Nat)
    (hl : out.length = width * height)
    (h : ∀ a b, a < width → b < height → out.getD (width * b + a) 0 = v) :
    out = List.replicate (width * height) v := by
  apply List.ext_getElem
  · rw [hl, List.length_replicate]
  · intro m h1 h2
    rw [List.getElem_replicate]
    have hw : 0 < width := by
      rcases Nat.eq_zero_or_pos width with h0 | h0
      · rw [hl, h0, Nat.zero_mul] at h1; omega
      · exact h0
    have hb : m / width < height := by
      rw [Nat.div_lt_iff_lt_mul hw, Nat.mul_comm]; rw [hl] at h1; exact h1
    have := h (m % width) (m / width) (Nat.mod_lt _ hw) hb
    rw [Nat.div_add_mod, List.getD_eq_getElem?_getD, List.getElem?_eq_getElem h1] at this
    exact this

/-- A tile of a uniform buffer whose accumulators do not wrap is left as it is. -/
theorem compute_pixel_uniform (width height v x y ps : Nat)
    (hx : x < width) (hy : y < height) (hps : 1 ≤ ps)
    (hsz : width * height < U32) (hv : v < U32)
    (hnowrap : ∀ k, k < 4 → byteOf k v * (min ps width * min ps height) < U32) :
    compute_pixel width height (List.replicate (width * height) v) x y ps =
      Except.ok (List.replicate (width * height) v) := by
  obtain ⟨out, ho, hol, hog⟩ := compute_pixel_spec width height
    (List.replicate (width * height) v) x y ps hx hy hps hsz (List.length_replicate _ _)
  rw [ho]
  congr 1
  rw [List.length_replicate] at hol
  apply eq_replicate_of_pixels width height v out hol
  intro a b ha hb
  rw [hog a b ha hb]
  have hbyte : ∀ k, k < 4 →
      tileByte width (List.replicate (width * height) v) x y (min ps (height - y))
        (min ps (width - x)) k = byteOf k v := by
    intro k hk
    have hpos : 0 < min ps (height - y) * min ps (width - x) :=
      Nat.mul_pos (by omega) (by omega)
    have hle : min ps (height - y) * min ps (width - x) ≤ min ps width * min ps height := by
      rw [Nat.mul_comm (min ps width)]
      exact Nat.mul_le_mul (by omega) (by omega)
    have hs := tileSum_replicate width height x y (min ps (height - y)) (min ps (width - x)) k v
      (by omega) (by omega)
    have hlt : tileSum width (List.replicate (width * height) v) x y (min ps (height - y))
        (min ps (width - x)) k < U32 := by
      rw [hs, Nat.mul_comm]
      exact lt_of_le_of_lt (Nat.mul_le_mul_left _ hle) (hnowrap k hk)
    rw [tileByte_eq_mean _ _ _ _ _ _ _ hlt, hs]
    exact Nat.mul_div_cancel_left _ hpos
  have hp : tilePixel width (List.replicate (width * height) v) x y (min ps (height - y))
      (min ps (width - x)) = v := by
    unfold tilePixel
    rw [hbyte 0 (by decide), hbyte 1 (by decide), hbyte 2 (by decide), hbyte 3 (by decide)]
    exact data_ofData v hv
  rw [hp, getD_replicate _ _ _ (pixel_lt width height a b ha hb)]
  split <;> rfl

/-- The inner loop of `main` by a loop invariant `Inv x data`: with enough fuel
it ends with `x = width`. -/
theorem rowLoop_inv (width height ps y : Nat) (hps : 1 ≤ ps) (hw : width < 2 ^ 31)
    (Inv : Nat → List Nat → Prop)
    (hstep : ∀ x data, x < width → Inv x data →
      ∃ data1, compute_pixel width height data x y ps = Except.ok data1 ∧
        Inv (min (x + ps) width) data1) :
    ∀ (fuel x : Nat) (data : List Nat), width - x < fuel → (x + ps < U32 ∨ width ≤ x) →
      x ≤ width → Inv x data →
      ∃ out, rowLoop width height ps y fuel x data = Except.ok out ∧ Inv width out := by
  intro fuel
  induction fuel with
  | zero => intro x data h; omega
  | succ fuel ih =>
    intro x data hf hc hle hinv
    unfold rowLoop
    by_cases hx : x < width
    · rw [if_pos hx]
      obtain ⟨data1, h1, h2⟩ := hstep x data hx hinv
      have hadd : x + ps < U32 := by omega
      have hnext : MIN (add32 x ps) width = min (x + ps) width := by
        rw [MIN_eq_min]; unfold add32; rw [Nat.mod_eq_of_lt hadd]
      simp only [h1, hnext]
      apply ih
      · omega
      · unfold U32; omega
      · omega
      · exact h2
    · rw [if_neg hx]
      have : x = width := by omega
      subst this
      exact ⟨data, rfl, hinv⟩

/-- The outer loop of `main` by a loop invariant `Inv y data`: with enough fuel
it ends with `y = height`. -/
theorem tileLoop_inv (width height ps rowFuel : Nat) (hps : 1 ≤ ps) (hh : height < 2 ^ 31)
    (Inv : Nat → List Nat → Prop)
    (hstep : ∀ y data, y < height → Inv y data →
      ∃ data1, rowLoop width height ps y rowFuel 0 data = Except.ok data1 ∧
        Inv (min (y + ps) height) data1) :
    ∀ (fuel y : Nat) (data : List Nat), height - y < fuel → (y + ps < U32 ∨ height ≤ y) →
      y ≤ height → Inv y data →
      ∃ out, tileLoop width height ps rowFuel fuel y data = Except.ok out ∧ Inv height out := by
  intro fuel
  induction fuel with
  | zero => intro y data h; omega
  | succ fuel ih =>
    intro y data hf hc hle hinv
    unfold tileLoop
    by_cases hy : y < height
    · rw [if_pos hy]
      obtain ⟨data1, h1, h2⟩ := hstep y data hy hinv
      have hadd : y + ps < U32 := by omega
      have hnext : MIN (add32 y ps) height = min (y + ps) height := by
        rw [MIN_eq_min]; unfold add32; rw [Nat.mod_eq_of_lt hadd]
      simp only [h1, hnext]
      apply ih
      · omega
      · unfold U32; omega
      · omega
      · exact h2
    · rw [if_neg hy]
      have : y = height := by omega
      subst this
      exact ⟨data, rfl, hinv⟩

theorem rowLoop_succ (width height ps y fuel x : Nat) (data : List Nat) :
    rowLoop width height ps y (fuel + 1) x data =
      if x < width then
        match compute_pixel width height data x y ps with
        | Except.error e => Except.error e
        | Except.ok data1 => rowLoop width height ps y fuel (MIN (add32 x ps) width) data1
      else Except.ok data := rfl

theorem tileLoop_succ (width height ps rowFuel fuel y : Nat) (data : List Nat) :
    tileLoop width height ps rowFuel (fuel + 1) y data =
      if y < height then
        match rowLoop width height ps y rowFuel 0 data with
        | Except.error e => Except.error e
        | Except.ok data1 =>
          tileLoop width height ps rowFuel fuel (MIN (add32 y ps) height) data1
      else Except.ok data := rfl

theorem pixelate_single_tile (fuel width height ps : Nat) (data out : List Nat)
    (hw : 0 < width) (hh : 0 < height) (hpw : width ≤ ps) (hph : height ≤ ps) (hpsU : ps < U32)
    (ho : compute_pixel width height data 0 0 ps = Except.ok out) :
    pixelate (fuel + 2) width height ps data = Except.ok out := by
  have e0 : add32 0 ps = ps := by unfold add32; rw [Nat.zero_add, Nat.mod_eq_of_lt hpsU]
  have e1 : MIN ps width = width := by rw [MIN_eq_min]; omega
  have e2 : MIN ps height = height := by rw [MIN_eq_min]; omega
  have hr : rowLoop width height ps 0 (fuel + 2) 0 data = Except.ok out := by
    rw [rowLoop_succ, if_pos hw, ho]
    show rowLoop width height ps 0 (fuel + 1) (MIN (add32 0 ps) width) out = Except.ok out
    rw [e0, e1, rowLoop_succ, if_neg (Nat.lt_irrefl _)]
  unfold pixelate
  rw [tileLoop_succ, if_pos hh, hr]
  show tileLoop width height ps (fuel + 2) (fuel + 1) (MIN (add32 0 ps) height) out = Except.ok out
  rw [e0, e2, tileLoop_succ, if_neg (Nat.lt_irrefl _)]

theorem pixelate_short_fuel (fuel width height ps : Nat) (data out : List Nat)
    (hw : 0 < width) (hh : 0 < height) (hf : fuel < 2) :
    pixelate fuel width height ps data ≠ Except.ok out := by
  have h : fuel = 0 ∨ fuel = 1 := by omega
  rcases h with h | h
  · subst h
    intro hc
    exact Except.noConfusion hc
  · subst h
    unfold pixelate
    rw [tileLoop_succ, if_pos hh, rowLoop_succ, if_pos hw]
    cases hcp : compute_pixel width height data 0 0 ps with
    | error e => intro hc; exact Except.noConfusion hc
    | ok d => intro hc; exact Except.noConfusion hc

/-- A tile of a uniform buffer, wrap-around included: each byte written is the
area times the byte of the input pixel, reduced modulo `2 ^ 32`, divided by the
area and cut to 8 bits. -/
theorem compute_pixel_replicate (width height v x y ps : Nat)
    (hx : x < width) (hy : y < height) (hps : 1 ≤ ps) (hsz : width * height < U32) :
    ∃ out, compute_pixel width height (List.replicate (width * height) v) x y ps =
        Except.ok out ∧
      ∀ a b k, a < width → b < height → k < 4 →
        ((x ≤ a ∧ a < x + min ps (width - x)) ∧ (y ≤ b ∧ b < y + min ps (height - y))) →
        byteOf k (out.getD (width * b + a) 0) =
          (min ps (height - y) * min ps (width - x) * byteOf k v) % U32 /
            (min ps (height - y) * min ps (width - x)) % 256 := by
  obtain ⟨out, ho, -, hog⟩ := compute_pixel_spec width height
    (List.replicate (width * height) v) x y ps hx hy hps hsz (List.length_replicate _ _)
  refine ⟨out, ho, ?_⟩
  intro a b k ha hb hk hin
  rw [hog a b ha hb, if_pos hin, byteOf_tilePixel _ _ _ _ _ _ k hk]
  unfold tileByte
  rw [tileSum_replicate width height x y _ _ k v (by omega) (by omega)]

/-- A whole 4105 by 4105 buffer of white pixels as one tile: the accumulator of
byte 0 wraps around and the byte written is 0. -/
theorem wrap_example :
    ∃ out, compute_pixel 4105 4105 (List.replicate (4105 * 4105) 4294967295) 0 0 4105 =
        Except.ok out ∧
      byteOf 0 (out.getD (4105 * 0 + 0) 0) = 0 := by
  obtain ⟨out, ho, hb⟩ := compute_pixel_replicate 4105 4105 4294967295 0 0 4105
    (by decide) (by decide) (by decide) (by decide)
  have e : (min 4105 (4105 - 0) * min 4105 (4105 - 0) * byteOf 0 4294967295) % U32 /
      (min 4105 (4105 - 0) * min 4105 (4105 - 0)) % 256 = 0 := by decide
  exact ⟨out, ho, (hb 0 0 0 (by decide) (by decide) (by decide) (by decide)).trans e⟩

/-! ## The properties of the specification, claim by claim -/

/-- Once `running` is 0 the loop reads no event. -/
theorem readpw_stopped (fc rr : Bool) (crypt : List Nat → List Nat → Option (List Nat))
    (hash locks : List Nat) (s : State) (evs : List XEvent) (h : s.running = false) :
    readpw fc rr crypt hash locks s evs = (s, []) := by
  cases evs with
  | nil => rfl
  | cons ev evs => simp [readpw, h]

/-- Claim C1: Submit (Return) in `readpw`.  For every stored hash, every buffer
state with a length of 0..255 and every behaviour of `crypt`: the string handed
to `crypt` is the C string in the buffer (the first `len` bytes when none of
them is NUL); if `crypt` returns a string equal to the hash, `running` becomes 0
and the loop reads no further event; if it returns a different string,
`running` stays 1, the failure flag is set and the buffer is cleared (256 zero
bytes, length 0). -/
theorem readpw_submit_verdict (failonclear rrActive : Bool)
    (crypt : List Nat → List Nat → Option (List Nat)) (hash r locks : List Nat)
    (s : State) (k : XKeyEvent)
    (hk : k.ksym = XK_Return) (hlen : s.len ≤ 255) (hsize : s.passwd.length = 256)
    (hrun : s.running = true) (hh : NulFree hash) (hr : NulFree r)
    (hc : crypt (cstr (s.passwd.set s.len 0)) hash = some r) :
    (NulFree (s.passwd.take s.len) → cstr (s.passwd.set s.len 0) = s.passwd.take s.len) ∧
    (r = hash →
      (keyPress failonclear crypt hash locks.length s k).1.running = false ∧
      ∀ evs, readpw failonclear rrActive crypt hash locks s (XEvent.KeyPress k :: evs) =
        keyPress failonclear crypt hash locks.length s k) ∧
    (r ≠ hash →
      (keyPress failonclear crypt hash locks.length s k).1.running = true ∧
      (keyPress failonclear crypt hash locks.length s k).1.failure = true ∧
      (keyPress failonclear crypt hash locks.length s k).1.passwd = List.replicate 256 0 ∧
      (keyPress failonclear crypt hash locks.length s k).1.len = 0) := by
  refine ⟨fun hnf => cstr_set_take _ _ (by omega) hnf, ?_, ?_⟩
  · intro hrh
    have hstop : (keyPress failonclear crypt hash locks.length s k).1.running = false := by
      rw [keyPress_Return _ _ _ _ _ _ hk]
      simp only [recolor_running, submit_running_some crypt hash r s hc, hrh, strcmp_self]
      decide
    refine ⟨hstop, fun evs => ?_⟩
    simp only [readpw, hrun, if_true, handleEvent]
    rw [readpw_stopped _ _ _ _ _ _ _ hstop, List.append_nil]
  · intro hrh
    have hne : strcmp r hash ≠ 0 := fun h0 => hrh (strcmp_eq_zero r hash hr hh h0)
    have hrun2 : (submit crypt hash s).1.running = true := by
      rw [submit_running_some crypt hash r s hc]; exact decide_eq_true hne
    rw [keyPress_Return _ _ _ _ _ _ hk]
    simp only [recolor_running, recolor_failure, recolor_passwd, recolor_len]
    exact ⟨hrun2, submit_failure crypt hash s hrun2, submit_passwd crypt hash s,
      submit_len crypt hash s⟩

/-- Claim C1 at a concrete input: the buffer holds "a", `crypt` returns its key
unchanged; against the stored hash "a" the session unlocks, against "b" it stays
locked with the failure flag set. -/
theorem readpw_submit_verdict_witness :
    (keyPress false (fun key _ => some key) [97] [1].length
      { passwd := 97 :: List.replicate 255 0, len := 1, running := true, failure := false,
        oldc := Color.INPUT } (charKey XK_Return)).1.running = false ∧
    (keyPress false (fun key _ => some key) [98] [1].length
      { passwd := 97 :: List.replicate 255 0, len := 1, running := true, failure := false,
        oldc := Color.INPUT } (charKey XK_Return)).1.failure = true :=
  ⟨((readpw_submit_verdict false false (fun key _ => some key) [97] [97] [1]
      { passwd := 97 :: List.replicate 255 0, len := 1, running := true, failure := false,
        oldc := Color.INPUT } (charKey XK_Return) rfl (by show (1 : Nat) ≤ 255; decide)
      (by rw [List.length_cons, List.length_replicate]) rfl (by decide) (by decide)
      rfl).2.1 rfl).1,
    ((readpw_submit_verdict false false (fun key _ => some key) [98] [97] [1]
      { passwd := 97 :: List.replicate 255 0, len := 1, running := true, failure := false,
        oldc := Color.INPUT } (charKey XK_Return) rfl (by show (1 : Nat) ≤ 255; decide)
      (by rw [List.length_cons, List.length_replicate]) rfl (by decide) (by decide)
      rfl).2.2 (by decide)).2.1⟩

/-- Claim C2: all-or-nothing lock in `main`.  If `lockscreen` succeeds on the
surfaces `0..k-1` and returns NULL on surface `k < N`, then `lockscreen` is never
called on a surface after `k`, `main` returns 1 and `readpw` is never entered
(when the lock array was allocated the calls made are exactly those on
`0..k`); and whatever `lockscreen` answers, `readpw` is entered only when it
succeeded on all `N` surfaces. -/
theorem main_all_or_nothing (callocOk : Bool) (N k : Nat) (locks : Nat → Bool)
    (readpwReturns : Bool) (hk : k < N) (hok : ∀ i, i < k → locks i = true)
    (hfail : locks k = false) :
    (∀ j, k < j → MainEffect.lockscreen j ∉ (mainLock callocOk N locks readpwReturns).1) ∧
    (mainLock callocOk N locks readpwReturns).2 = some 1 ∧
    MainEffect.readpw ∉ (mainLock callocOk N locks readpwReturns).1 ∧
    (callocOk = true → (mainLock callocOk N locks readpwReturns).1 =
      [MainEffect.calloc] ++ (List.range (k + 1)).map MainEffect.lockscreen ++
        [MainEffect.XSync]) ∧
    (∀ (locks2 : Nat → Bool),
      MainEffect.readpw ∈ (mainLock callocOk N locks2 readpwReturns).1 →
        ∀ i, i < N → locks2 i = true) := by
  have hloop := lockLoop_fail locks k N 0 0 (Nat.zero_le _) (by omega)
    (fun i _ hi => hok i hi) hfail
  rw [← List.range_eq_range'] at hloop
  simp only [Nat.sub_zero, Nat.zero_add] at hloop
  rw [← List.range_eq_range'] at hloop
  have hne : k ≠ N := by omega
  refine ⟨?_, ?_, ?_, ?_, ?_⟩
  · intro j hj
    cases callocOk
    · simp [mainLock]
    · simp only [mainLock, hloop, Bool.not_true, Bool.false_eq_true, if_false, ne_eq, hne,
        not_false_eq_true, if_true]
      simp only [List.mem_append, List.mem_singleton, reduceCtorEq, List.mem_map,
        List.mem_range, MainEffect.lockscreen.injEq, exists_eq_right, false_or, or_false]
      omega
  · cases callocOk
    · simp [mainLock]
    · simp [mainLock, hloop, hne]
  · cases callocOk
    · simp [mainLock]
    · simp [mainLock, hloop, hne]
  · intro hc
    subst hc
    simp [mainLock, hloop, hne]
  · intro locks2 hmem i hi
    obtain ⟨h1, h2, h3⟩ := lockLoop_count locks2 (List.range N) 0
    cases callocOk
    · simp [mainLock] at hmem
    · by_cases hN : (lockLoop locks2 (List.range N) 0).1 = N
      · exact h2 (by simpa using hN) i (List.mem_range.mpr hi)
      · simp only [mainLock, Bool.not_true, Bool.false_eq_true, if_false, ne_eq, hN,
          not_false_eq_true, if_true, List.mem_append, List.mem_singleton, reduceCtorEq,
          or_false, false_or] at hmem
        exact absurd hmem h3

/-- Claim C2 at a concrete input: three surfaces, the second one fails. -/
theorem main_all_or_nothing_witness :
    (mainLock true 3 (fun s => decide (s ≠ 1)) true).2 = some 1 ∧
    (mainLock true 3 (fun s => decide (s ≠ 1)) true).1 =
      [MainEffect.calloc, MainEffect.lockscreen 0, MainEffect.lockscreen 1, MainEffect.XSync] :=
  ⟨(main_all_or_nothing true 3 1 (fun s => decide (s ≠ 1)) true (by decide)
      (by intro i hi; interval_cases i; decide) (by decide)).2.1,
    (main_all_or_nothing true 3 1 (fun s => decide (s ≠ 1)) true (by decide)
      (by intro i hi; interval_cases i; decide) (by decide)).2.2.2.1 rfl⟩

/-- Claim C3 fails as stated: with an empty buffer the code shows Failed as soon
as one of the failure flag and `failonclear` is set, where the claimed phase
function (Failed only if both are set) gives Initial.  The first part runs the
key handler: a failure on record, `failonclear` off, Escape pressed. -/
theorem readpw_phase_not_conjunction :
    (keyPress false (fun _ _ => none) [36] 1
      { passwd := List.replicate 256 0, len := 0, running := true, failure := true,
        oldc := Color.INIT } (charKey XK_Escape)).1.oldc = Color.FAILED ∧
    color 0 true false = Color.FAILED ∧ specPhase 0 true false = Color.INIT ∧
    color 0 false true = Color.FAILED ∧ specPhase 0 false true = Color.INIT := by
  refine ⟨rfl, rfl, rfl, rfl, rfl⟩

/-- Claim C3, as the code has it: the phase computed after a key press is Typing
(`INPUT`) if the length is positive, otherwise Failed if the failure flag or
`failonclear` is set, otherwise Initial (`INIT`); it is a function of these three
values only, and it is the colour recorded in `oldc` after every key press that
is not discarded and leaves the session locked. -/
theorem readpw_phase_function (L : Nat) (F P : Bool)
    (crypt : List Nat → List Nat → Option (List Nat)) (hash : List Nat) (nscreens : Nat)
    (s : State) (k : XKeyEvent)
    (hf : isFiltered (remapKeypad k.ksym) = false)
    (hrun : (keyPress P crypt hash nscreens s k).1.running = true) :
    color L F P =
      (if 0 < L then Color.INPUT
        else if F = true ∨ P = true then Color.FAILED else Color.INIT) ∧
    (keyPress P crypt hash nscreens s k).1.oldc =
      (if 0 < (keyPress P crypt hash nscreens s k).1.len then Color.INPUT
        else if (keyPress P crypt hash nscreens s k).1.failure = true ∨ P = true
          then Color.FAILED else Color.INIT) := by
  refine ⟨color_eq L F P, ?_⟩
  rw [keyPress_oldc P crypt hash nscreens s k hf hrun]
  exact color_eq _ _ _

/-- Claim C3 at a concrete input: the first character typed turns the phase to
Typing. -/
theorem readpw_phase_function_witness :
    color 0 true false = Color.FAILED ∧
    (keyPress false (fun _ _ => none) [36] 1 (State.init (List.replicate 256 0))
      (charKey 97)).1.oldc = Color.INPUT := by
  have h := readpw_phase_function 0 true false (fun _ _ => none) [36] 1
    (State.init (List.replicate 256 0)) (charKey 97) (by decide) rfl
  exact ⟨h.1, h.2⟩

/-- Claim C4: the password buffer bound.  In every state reached from the initial
state by any sequence of events the length is at most 255 and the buffer has 256
bytes, so the terminator written at index `len` lies inside it.  A keystroke
that reaches the default case with `num` bytes (at most 32, the size of `buf`)
is appended exactly when `num > 0`, its first byte is not a control character
and `len + num < 256`; otherwise it is dropped and leaves the length and the
buffer as they were. -/
theorem readpw_buffer_bound (failonclear rrActive : Bool)
    (crypt : List Nat → List Nat → Option (List Nat)) (hash locks garbage : List Nat)
    (evs : List XEvent) (s : State) (k : XKeyEvent)
    (hg : garbage.length = 256)
    (hlen : s.len ≤ 255) (hnum : k.num ≤ 32)
    (hf : isFiltered (remapKeypad k.ksym) = false)
    (hm : isMediaKey (remapKeypad k.ksym) = false)
    (hr : remapKeypad k.ksym ≠ XK_Return) (he : remapKeypad k.ksym ≠ XK_Escape)
    (hb : remapKeypad k.ksym ≠ XK_BackSpace) :
    ((readpw failonclear rrActive crypt hash locks (State.init garbage) evs).1.len ≤ 255 ∧
      (readpw failonclear rrActive crypt hash locks (State.init garbage) evs).1.passwd.length = 256) ∧
    ((0 < k.num ∧ iscntrl (k.buf.getD 0 0) = false ∧ s.len + k.num < 256) →
      (keyPress failonclear crypt hash locks.length s k).1.len = s.len + k.num ∧
      (keyPress failonclear crypt hash locks.length s k).1.passwd =
        memcpy s.passwd s.len k.buf k.num) ∧
    (¬ (0 < k.num ∧ iscntrl (k.buf.getD 0 0) = false ∧ s.len + k.num < 256) →
      (keyPress failonclear crypt hash locks.length s k).1.len = s.len ∧
      (keyPress failonclear crypt hash locks.length s k).1.passwd = s.passwd) := by
  refine ⟨readpw_bufOk failonclear rrActive crypt hash locks evs _ ⟨Nat.zero_le _, hg⟩, ?_, ?_⟩
  · intro hc
    have hacc := (accepts_iff s k hlen hnum).mpr hc
    have hadd : add32 s.len k.num = s.len + k.num := by
      unfold add32 U32; omega
    rw [keyPress_default failonclear crypt hash _ s k hf hm hr he hb]
    simp only [recolor_len, recolor_passwd]
    exact ⟨hadd ▸ (printable_accepted s k hacc).1, (printable_accepted s k hacc).2.1⟩
  · intro hc
    have hacc : accepts s k = false := by
      rw [← Bool.not_eq_true]; exact fun h => hc ((accepts_iff s k hlen hnum).mp h)
    rw [keyPress_default failonclear crypt hash _ s k hf hm hr he hb]
    simp only [recolor_len, recolor_passwd, printable_dropped s k hacc, and_self]

/-- Claim C4 at a concrete input: the letter "b" typed into the initial state. -/
theorem readpw_buffer_bound_witness :
    ((readpw true true (fun _ _ => none) [36] [1] (State.init (List.replicate 256 7))
        [XEvent.KeyPress (charKey 97), XEvent.Other]).1.len ≤ 255 ∧
      (readpw true true (fun _ _ => none) [36] [1] (State.init (List.replicate 256 7))
        [XEvent.KeyPress (charKey 97), XEvent.Other]).1.passwd.length = 256) ∧
    ((0 < (charKey 98).num ∧ iscntrl ((charKey 98).buf.getD 0 0) = false ∧
        (State.init (List.replicate 256 7)).len + (charKey 98).num < 256) →
      (keyPress true (fun _ _ => none) [36] [1].length (State.init (List.replicate 256 7))
        (charKey 98)).1.len = (State.init (List.replicate 256 7)).len + (charKey 98).num ∧
      (keyPress true (fun _ _ => none) [36] [1].length (State.init (List.replicate 256 7))
        (charKey 98)).1.passwd =
        memcpy (State.init (List.replicate 256 7)).passwd (State.init (List.replicate 256 7)).len
          (charKey 98).buf (charKey 98).num) ∧
    (¬ (0 < (charKey 98).num ∧ iscntrl ((charKey 98).buf.getD 0 0) = false ∧
        (State.init (List.replicate 256 7)).len + (charKey 98).num < 256) →
      (keyPress true (fun _ _ => none) [36] [1].length (State.init (List.replicate 256 7))
        (charKey 98)).1.len = (State.init (List.replicate 256 7)).len ∧
      (keyPress true (fun _ _ => none) [36] [1].length (State.init (List.replicate 256 7))
        (charKey 98)).1.passwd = (State.init (List.replicate 256 7)).passwd) :=
  readpw_buffer_bound true true (fun _ _ => none) [36] [1] (List.replicate 256 7)
    [XEvent.KeyPress (charKey 97), XEvent.Other] (State.init (List.replicate 256 7)) (charKey 98)
    (List.length_replicate _ _) (by decide) (by decide) (by decide) (by decide) (by decide)
    (by decide) (by decide)

/-- Claim C5 fails as stated: on a 4105 by 4105 buffer of pixels 0xFFFFFFFF taken
as one tile (`ps = 4105`) the 32-bit accumulator wraps around; byte 0 of the
pixel written at the origin is 0, while the mean of byte 0 over the tile
is 255. -/
theorem compute_pixel_mean_wraps :
    ∃ out, compute_pixel 4105 4105 (List.replicate (4105 * 4105) 4294967295) 0 0 4105 =
        Except.ok out ∧
      byteOf 0 (out.getD (4105 * 0 + 0) 0) = 0 ∧
      tileSum 4105 (List.replicate (4105 * 4105) 4294967295) 0 0 4105 4105 0 / (4105 * 4105) =
        255 := by
  obtain ⟨out, ho, h0⟩ := wrap_example
  have hs := tileSum_replicate 4105 4105 0 0 4105 4105 0 4294967295 (by decide) (by decide)
  have e : 4105 * 4105 * byteOf 0 4294967295 / (4105 * 4105) = 255 := by decide
  exact ⟨out, ho, h0, (congrArg (fun t => t / (4105 * 4105)) hs).trans e⟩

/-- Claim C5, as the code has it: for a buffer of `width * height < 2 ^ 32`
pixels, a tile size `ps >= 1` and an origin inside the image, provided no
channel sum over the clipped tile reaches `2 ^ 32`, `compute_pixel` succeeds,
keeps the buffer length, and every pixel of the clipped tile has in each of its
four bytes the sum of that byte over the clipped tile of the input divided
(rounding down) by the number of pixels the clipped tile covers,
`min ps (height - y) * min ps (width - x)`, not by `ps * ps`. -/
theorem compute_pixel_tile_mean (width height : Nat) (data : List Nat) (x y ps : Nat)
    (hx : x < width) (hy : y < height) (hps : 1 ≤ ps)
    (hsz : width * height < U32) (hlen : data.length = width * height)
    (hnowrap : ∀ k, k < 4 →
      tileSum width data x y (min ps (height - y)) (min ps (width - x)) k < U32) :
    ∃ out, compute_pixel width height data x y ps = Except.ok out ∧
      out.length = data.length ∧
      ∀ i j k, i < min ps (width - x) → j < min ps (height - y) → k < 4 →
        byteOf k (out.getD (width * (y + j) + (x + i)) 0) =
          tileSum width data x y (min ps (height - y)) (min ps (width - x)) k /
            (min ps (height - y) * min ps (width - x)) := by
  obtain ⟨out, ho, hol, hog⟩ := compute_pixel_spec width height data x y ps hx hy hps hsz hlen
  refine ⟨out, ho, hol, ?_⟩
  intro i j k hi hj hk
  rw [hog (x + i) (y + j) (by omega) (by omega), if_pos (by omega),
    byteOf_tilePixel _ _ _ _ _ _ k hk, tileByte_eq_mean _ _ _ _ _ _ _ (hnowrap k hk)]

/-- Claim C5 at a concrete input: a 2 by 2 image taken as one tile of size 2. -/
theorem compute_pixel_tile_mean_witness :
    ∃ out, compute_pixel 2 2 [0x01020304, 0x03040506, 0x05060708, 0x0708090a] 0 0 2 =
        Except.ok out ∧
      out.length = [0x01020304, 0x03040506, 0x05060708, 0x0708090a].length ∧
      ∀ i j k, i < min 2 (2 - 0) → j < min 2 (2 - 0) → k < 4 →
        byteOf k (out.getD (2 * (0 + j) + (0 + i)) 0) =
          tileSum 2 [0x01020304, 0x03040506, 0x05060708, 0x0708090a] 0 0
            (min 2 (2 - 0)) (min 2 (2 - 0)) k / (min 2 (2 - 0) * min 2 (2 - 0)) :=
  compute_pixel_tile_mean 2 2 [0x01020304, 0x03040506, 0x05060708, 0x0708090a] 0 0 2
    (by decide) (by decide) (by decide) (by decide) rfl
    (by intro k hk; interval_cases k <;> decide)

/-- Claim C6 fails as stated, in two ways: with tile size 0 the first call of
`compute_pixel` divides by zero, and on a 4105 by 4105 buffer of pixels
0xFFFFFFFF with tile size 4105 the accumulators wrap around and the pixels
change.  In both cases no iteration budget makes the result equal to the
input. -/
theorem pixelate_uniform_not_fixed :
    (∀ fuel, pixelate fuel 1 1 0 [5] ≠ Except.ok [5]) ∧
    (∀ fuel, pixelate fuel 4105 4105 4105 (List.replicate (4105 * 4105) 4294967295) ≠
      Except.ok (List.replicate (4105 * 4105) 4294967295)) := by
  constructor
  · intro fuel
    cases fuel with
    | zero => intro hc; exact Except.noConfusion hc
    | succ n =>
      have hc : compute_pixel 1 1 [5] 0 0 0 = Except.error Fault.divByZero := rfl
      unfold pixelate
      rw [tileLoop_succ, if_pos (by decide), rowLoop_succ, if_pos (by decide), hc]
      intro hc; exact Except.noConfusion hc
  · intro fuel
    obtain ⟨out, ho, h0⟩ := wrap_example
    by_cases hf : fuel < 2
    · exact pixelate_short_fuel fuel 4105 4105 4105 _ _ (by decide) (by decide) hf
    · obtain ⟨n, rfl⟩ : ∃ n, fuel = n + 2 := ⟨fuel - 2, by omega⟩
      have hp := pixelate_single_tile n 4105 4105 4105 _ out (by decide) (by decide)
        (Nat.le_refl _) (Nat.le_refl _) (by decide) ho
      intro he
      have he2 : out = List.replicate (4105 * 4105) 4294967295 :=
        Except.ok.inj (hp.symm.trans he)
      have h2 := getD_replicate (4105 * 4105) 4294967295 (4105 * 0 + 0) (by decide)
      have h3 : byteOf 0 4294967295 = 0 :=
        (congrArg (byteOf 0) h2).symm.trans (he2 ▸ h0)
      exact absurd h3 (by decide)

/-- Claim C6, as the code has it: for a tile size `1 <= ps < 2 ^ 32`, screen
dimensions that fit an `int`, a buffer of `width * height < 2 ^ 32` pixels all
equal to a 32-bit value `v`, and provided no byte of `v` times the area of the
largest tile, `min ps width * min ps height`, reaches `2 ^ 32`, the tile loop of
`main` terminates and yields the buffer it was given. -/
theorem pixelate_uniform_fixed (fuel width height ps v : Nat)
    (hps : 1 ≤ ps) (hw : width < 2 ^ 31) (hh : height < 2 ^ 31)
    (hpsU : ps < U32) (hsz : width * height < U32) (hv : v < U32)
    (hnowrap : ∀ k, k < 4 → byteOf k v * (min ps width * min ps height) < U32)
    (hfuel : max width height < fuel) :
    pixelate fuel width height ps (List.replicate (width * height) v) =
      Except.ok (List.replicate (width * height) v) := by
  have hrow : ∀ y data, y < height → data = List.replicate (width * height) v →
      ∃ data1, rowLoop width height ps y fuel 0 data = Except.ok data1 ∧
        data1 = List.replicate (width * height) v := by
    intro y data hy hd
    exact rowLoop_inv width height ps y hps hw (fun _ d => d = List.replicate (width * height) v)
      (fun x d hx hd => by
        refine ⟨List.replicate (width * height) v, ?_, rfl⟩
        rw [hd]
        exact compute_pixel_uniform width height v x y ps hx hy hps hsz hv hnowrap)
      fuel 0 data (by omega) (Or.inl (by omega)) (Nat.zero_le _) hd
  obtain ⟨out, h1, h2⟩ := tileLoop_inv width height ps fuel hps hh
    (fun _ d => d = List.replicate (width * height) v) hrow
    fuel 0 (List.replicate (width * height) v) (by omega) (Or.inl (by omega)) (Nat.zero_le _) rfl
  unfold pixelate
  rw [h1, h2]

/-- Claim C6 at a concrete input: a 3 by 2 buffer of pixels 0x11223344 with tile
size 2. -/
theorem pixelate_uniform_fixed_witness :
    pixelate 4 3 2 2 (List.replicate (3 * 2) 0x11223344) =
      Except.ok (List.replicate (3 * 2) 0x11223344) :=
  pixelate_uniform_fixed 4 3 2 2 0x11223344 (by decide) (by decide) (by decide) (by decide)
    (by decide) (by decide) (by intro k hk; interval_cases k <;> decide) (by decide)

/-- Claim C7 fails as stated: with `failonclear` set, typing "abc" and then Escape
from the initial state, with no failure on record, leaves the phase Failed, not
Initial. -/
theorem readpw_escape_phase_failed :
    (readpw true false (fun _ _ => none) [36] [1] (State.init (List.replicate 256 0))
      [XEvent.KeyPress (charKey 97), XEvent.KeyPress (charKey 98), XEvent.KeyPress (charKey 99),
        XEvent.KeyPress (charKey XK_Escape)]).1.oldc = Color.FAILED ∧
    (readpw true false (fun _ _ => none) [36] [1] (State.init (List.replicate 256 0))
      [XEvent.KeyPress (charKey 97), XEvent.KeyPress (charKey 98), XEvent.KeyPress (charKey 99),
        XEvent.KeyPress (charKey XK_Escape)]).1.failure = false ∧
    color 0 false true ≠ Color.INIT := by
  refine ⟨rfl, rfl, by decide⟩

/-- Claim C7, as the code has it: from the initial state, typing "abc" and then
Escape yields length 0 and no failure on record, and the phase is Initial when
`failonclear` is off and Failed when it is on; and in every state Escape empties
the buffer, leaves the failure flag and the running flag as they were and does
not call `crypt`. -/
theorem readpw_escape_clears (failonclear rrActive : Bool)
    (crypt : List Nat → List Nat → Option (List Nat)) (hash locks garbage : List Nat)
    (s : State) (esc : XKeyEvent) (hesc : esc.ksym = XK_Escape) :
    ((readpw failonclear rrActive crypt hash locks (State.init garbage)
        [XEvent.KeyPress (charKey 97), XEvent.KeyPress (charKey 98),
          XEvent.KeyPress (charKey 99), XEvent.KeyPress esc]).1.len = 0 ∧
      (readpw failonclear rrActive crypt hash locks (State.init garbage)
        [XEvent.KeyPress (charKey 97), XEvent.KeyPress (charKey 98),
          XEvent.KeyPress (charKey 99), XEvent.KeyPress esc]).1.oldc =
        (if failonclear then Color.FAILED else Color.INIT) ∧
      (readpw failonclear rrActive crypt hash locks (State.init garbage)
        [XEvent.KeyPress (charKey 97), XEvent.KeyPress (charKey 98),
          XEvent.KeyPress (charKey 99), XEvent.KeyPress esc]).1.failure = false) ∧
    ((keyPress failonclear crypt hash locks.length s esc).1.len = 0 ∧
      (keyPress failonclear crypt hash locks.length s esc).1.failure = s.failure ∧
      (keyPress failonclear crypt hash locks.length s esc).1.running = s.running ∧
      ∀ key salt, Effect.crypt key salt ∉ (keyPress failonclear crypt hash locks.length s esc).2) := by
  constructor
  · have k1 := keyPress_charKey failonclear crypt hash locks.length (State.init garbage) 97
      (by decide) (by decide) (by show (0 : Nat) < 255; decide)
    have k2 := keyPress_charKey failonclear crypt hash locks.length
      (keyPress failonclear crypt hash locks.length (State.init garbage) (charKey 97)).1 98
      (by decide) (by decide) (by rw [k1.1]; show (0 : Nat) + 1 < 255; decide)
    have k3 := keyPress_charKey failonclear crypt hash locks.length
      (keyPress failonclear crypt hash locks.length
        (keyPress failonclear crypt hash locks.length (State.init garbage) (charKey 97)).1
        (charKey 98)).1 99
      (by decide) (by decide) (by rw [k2.1, k1.1]; show (0 : Nat) + 1 + 1 < 255; decide)
    have r0 : (State.init garbage).running = true := rfl
    have r1 := k1.2.1.trans r0
    have r2 := k2.2.1.trans r1
    have r3 := k3.2.1.trans r2
    have f0 : (State.init garbage).failure = false := rfl
    have f3 := k3.2.2.trans (k2.2.2.trans (k1.2.2.trans f0))
    rw [readpw_cons _ _ _ _ _ _ _ _ r0]
    simp only [handleEvent]
    rw [readpw_cons _ _ _ _ _ _ _ _ r1]
    simp only [handleEvent]
    rw [readpw_cons _ _ _ _ _ _ _ _ r2]
    simp only [handleEvent]
    rw [readpw_cons _ _ _ _ _ _ _ _ r3]
    simp only [handleEvent, readpw]
    obtain ⟨e1, -, e3, e4⟩ := keyPress_Escape_fields failonclear crypt hash locks.length
      (keyPress failonclear crypt hash locks.length
        (keyPress failonclear crypt hash locks.length
          (keyPress failonclear crypt hash locks.length (State.init garbage) (charKey 97)).1
          (charKey 98)).1 (charKey 99)).1 esc hesc
    refine ⟨e1, ?_, e3.trans f3⟩
    rw [keyPress_oldc failonclear crypt hash locks.length _ esc
      (by rw [hesc]; decide) (e4.trans r3), e1, e3, f3]
    cases failonclear <;> rfl
  · obtain ⟨e1, -, e3, e4⟩ := keyPress_Escape_fields failonclear crypt hash locks.length s esc hesc
    refine ⟨e1, e3, e4, ?_⟩
    intro key salt
    rw [keyPress_Escape failonclear crypt hash locks.length s esc hesc]
    simp only [escape, List.nil_append]
    rcases recolor_redraw failonclear locks.length
      { passwd := List.replicate 256 0, len := 0, running := s.running, failure := s.failure,
        oldc := s.oldc } with h | h
    · rw [h]; simp
    · rw [h]; exact crypt_not_mem_redrawAll _ _ _

/-- Claim C7 at a concrete input: `failonclear` off, one screen. -/
theorem readpw_escape_clears_witness :
    (readpw false false (fun _ _ => none) [36] [1] (State.init (List.replicate 256 0))
      [XEvent.KeyPress (charKey 97), XEvent.KeyPress (charKey 98),
        XEvent.KeyPress (charKey 99), XEvent.KeyPress (charKey XK_Escape)]).1.len = 0 ∧
    (readpw false false (fun _ _ => none) [36] [1] (State.init (List.replicate 256 0))
      [XEvent.KeyPress (charKey 97), XEvent.KeyPress (charKey 98),
        XEvent.KeyPress (charKey 99), XEvent.KeyPress (charKey XK_Escape)]).1.oldc =
      Color.INIT :=
  ⟨(readpw_escape_clears false false (fun _ _ => none) [36] [1] (List.replicate 256 0)
      (State.init (List.replicate 256 0)) (charKey XK_Escape) rfl).1.1,
    (readpw_escape_clears false false (fun _ _ => none) [36] [1] (List.replicate 256 0)
      (State.init (List.replicate 256 0)) (charKey XK_Escape) rfl).1.2.1⟩

/-- Claim C8: fail-closed on a hash error.  If `crypt` returns NULL on Submit, the
outcome is that of a mismatch: `running` stays 1, so the loop does not exit, the
failure flag is set and the buffer is cleared to 256 zero bytes and length 0. -/
theorem readpw_crypt_error_stays_locked (failonclear : Bool)
    (crypt : List Nat → List Nat → Option (List Nat)) (hash : List Nat) (nscreens : Nat)
    (s : State) (k : XKeyEvent)
    (hk : k.ksym = XK_Return) (hrun : s.running = true)
    (hc : crypt (cstr (s.passwd.set s.len 0)) hash = none) :
    (keyPress failonclear crypt hash nscreens s k).1.running = true ∧
    (keyPress failonclear crypt hash nscreens s k).1.failure = true ∧
    (keyPress failonclear crypt hash nscreens s k).1.passwd = List.replicate 256 0 ∧
    (keyPress failonclear crypt hash nscreens s k).1.len = 0 := by
  have hrun2 : (submit crypt hash s).1.running = true := by
    rw [submit_running_none crypt hash s hc]; exact hrun
  rw [keyPress_Return _ _ _ _ _ _ hk]
  simp only [recolor_running, recolor_failure, recolor_passwd, recolor_len]
  exact ⟨hrun2, submit_failure crypt hash s hrun2, submit_passwd crypt hash s,
    submit_len crypt hash s⟩

/-- Claim C8 at a concrete input: "a" in the buffer and a `crypt` that always
fails. -/
theorem readpw_crypt_error_stays_locked_witness :
    (keyPress false (fun _ _ => none) [97] 1
      { passwd := 97 :: List.replicate 255 0, len := 1, running := true, failure := false,
        oldc := Color.INPUT } (charKey XK_Return)).1.running = true ∧
    (keyPress false (fun _ _ => none) [97] 1
      { passwd := 97 :: List.replicate 255 0, len := 1, running := true, failure := false,
        oldc := Color.INPUT } (charKey XK_Return)).1.failure = true :=
  ⟨(readpw_crypt_error_stays_locked false (fun _ _ => none) [97] 1
      { passwd := 97 :: List.replicate 255 0, len := 1, running := true, failure := false,
        oldc := Color.INPUT } (charKey XK_Return) rfl rfl rfl).1,
    (readpw_crypt_error_stays_locked false (fun _ _ => none) [97] 1
      { passwd := 97 :: List.replicate 255 0, len := 1, running := true, failure := false,
        oldc := Color.INPUT } (charKey XK_Return) rfl rfl rfl).2.1⟩

/-- Claim C9: bounded grab retry in `lockscreen`.  Whatever the grab requests
answer, `lockscreen` makes at most 6 attempts, hence at most 6 pointer-grab
requests, at most 6 keyboard-grab requests and at most 6 delays, each of
100000 microseconds.  The values of `ptgrab` and `kbgrab` at attempt `t` are the
ones the answers `pt` and `kb` determine, and the requests issued are answered
by `pt 0, pt 1, ...` and `kb 0, kb 1, ...` in this order.  A lock is returned if
and only if at some attempt made both `ptgrab` and `kbgrab` hold `GrabSuccess`,
which is the case if and only if a pointer-grab request and a keyboard-grab
request were answered `GrabSuccess`; in terms of the answers alone: if and only
if the guard of line 212 passes and for some `t < 6` both sequences have
answered `GrabSuccess` among their first `t + 1` answers, while in each earlier
attempt each grab was held or answered `AlreadyGrabbed`.  Otherwise it returns
NULL. -/
theorem lockscreen_bounded_retry (dpyNull : Bool) (screen : Int) (mallocOk rrActive : Bool)
    (pt kb : Nat → Int) :
    (lockscreen dpyNull screen mallocOk rrActive pt kb).log.length ≤ 6 ∧
    (lockscreen dpyNull screen mallocOk rrActive pt kb).trace.countP
      GrabEffect.isPointerGrab ≤ 6 ∧
    (lockscreen dpyNull screen mallocOk rrActive pt kb).trace.countP
      GrabEffect.isKeyboardGrab ≤ 6 ∧
    (lockscreen dpyNull screen mallocOk rrActive pt kb).trace.countP GrabEffect.isSleep ≤ 6 ∧
    (∀ u, GrabEffect.usleep u ∈ (lockscreen dpyNull screen mallocOk rrActive pt kb).trace →
      u = 100000) ∧
    ((lockscreen dpyNull screen mallocOk rrActive pt kb).locked = true ↔
      ∃ a ∈ (lockscreen dpyNull screen mallocOk rrActive pt kb).log,
        a.1 = GrabSuccess ∧ a.2 = GrabSuccess) ∧
    ((lockscreen dpyNull screen mallocOk rrActive pt kb).locked = true ↔
      (GrabEffect.XGrabPointer GrabSuccess ∈
          (lockscreen dpyNull screen mallocOk rrActive pt kb).trace ∧
        GrabEffect.XGrabKeyboard GrabSuccess ∈
          (lockscreen dpyNull screen mallocOk rrActive pt kb).trace)) ∧
    (∀ t a, (lockscreen dpyNull screen mallocOk rrActive pt kb).log[t]? = some a →
      a = attemptPair pt kb t) ∧
    (lockscreen dpyNull screen mallocOk rrActive pt kb).trace.filter GrabEffect.isPointerGrab =
      (List.range ((lockscreen dpyNull screen mallocOk rrActive pt kb).trace.countP
        GrabEffect.isPointerGrab)).map (fun j => GrabEffect.XGrabPointer (pt j)) ∧
    (lockscreen dpyNull screen mallocOk rrActive pt kb).trace.filter GrabEffect.isKeyboardGrab =
      (List.range ((lockscreen dpyNull screen mallocOk rrActive pt kb).trace.countP
        GrabEffect.isKeyboardGrab)).map (fun j => GrabEffect.XGrabKeyboard (kb j)) ∧
    ((lockscreen dpyNull screen mallocOk rrActive pt kb).locked = true ↔
      (dpyNull = false ∧ 0 ≤ screen ∧ mallocOk = true) ∧
      ∃ t, t < 6 ∧
        (∃ i, i ≤ t ∧ pt i = GrabSuccess) ∧ (∃ j, j ≤ t ∧ kb j = GrabSuccess) ∧
        ∀ s, s < t →
          ((∃ i, i ≤ s ∧ pt i = GrabSuccess) ∨ pt s = AlreadyGrabbed) ∧
          ((∃ j, j ≤ s ∧ kb j = GrabSuccess) ∨ kb s = AlreadyGrabbed)) := by
  rcases lockscreen_guard dpyNull screen mallocOk rrActive pt kb with ⟨hg, h⟩ | ⟨hg, h⟩
  · rw [h]
    have hl := grabLoop_log_length rrActive pt kb 6 { ptgrab := -1, kbgrab := -1, npt := 0, nkb := 0 }
    obtain ⟨c1, c2, c3, c4⟩ :=
      grabLoop_counts rrActive pt kb 6 { ptgrab := -1, kbgrab := -1, npt := 0, nkb := 0 }
    have hinv := grabInv_init pt kb
    refine ⟨hl, le_trans c1 hl, le_trans c2 hl, le_trans c3 hl, c4,
      grabLoop_locked_iff_log rrActive pt kb 6 _, ?_, ?_, ?_, ?_, ?_⟩
    · rw [grabLoop_locked_iff_trace rrActive pt kb 6 _]
      have e1 : ¬ ((-1 : Int) = GrabSuccess) := by decide
      simp only [e1, false_or, Nat.lt_add_one, and_true, Nat.ofNat_pos]
    · intro t a ha
      have := grabLoop_log_eq rrActive pt kb 6 _ 0 hinv t a ha
      rw [Nat.zero_add] at this
      exact this
    · rw [grabLoop_pointer_requests rrActive pt kb 6 _, List.range_eq_range']
    · rw [grabLoop_keyboard_requests rrActive pt kb 6 _, List.range_eq_range']
    · rw [grabLoop_locked_iff_answers rrActive pt kb 6 _ 0 hinv]
      simp only [Nat.zero_add, attemptPair_held_iff, attemptPair_retry_iff, hg, true_and,
        and_self, and_assoc]
  · rw [h]
    simp [hg]

/-- Claim C9 at a concrete input: the pointer grab is answered `AlreadyGrabbed`
five times and `GrabSuccess` at the sixth request, the keyboard grab is answered
`GrabSuccess` at once; the sixth attempt returns the lock. -/
theorem lockscreen_bounded_retry_witness :
    (lockscreen false 0 true false (fun n => if n < 5 then 1 else 0) (fun _ => 0)).locked = true ∧
    (lockscreen false 0 true false (fun n => if n < 5 then 1 else 0) (fun _ => 0)).log.length = 6 :=
  ⟨(lockscreen_bounded_retry false 0 true false (fun n => if n < 5 then 1 else 0)
      (fun _ => 0)).2.2.2.2.2.2.2.2.2.2.mpr
      ⟨⟨rfl, by decide, rfl⟩, 5, by decide, ⟨5, le_refl 5, by decide⟩, ⟨0, by decide, by decide⟩,
        by decide⟩,
    by decide⟩

/-- Claim C10 fails as stated: when the first pointer grab is answered
`GrabNotViewable` (3), a failure other than `AlreadyGrabbed`, the keyboard grab
of the same attempt is still requested (lines 281-284 come before the test of
line 298); only then does `lockscreen` give up. -/
theorem lockscreen_keyboard_after_pointer_failure :
    (lockscreen false 0 true true (fun _ => 3) (fun _ => 0)).trace =
      [GrabEffect.XGrabPointer 3, GrabEffect.XGrabKeyboard 0, GrabEffect.stderrPointer] ∧
    (lockscreen false 0 true true (fun _ => 3) (fun _ => 0)).locked = false := by
  decide

/-- Claim C10, as the code has it: the retry policy of `lockscreen`.  Let `a` be
the pair `(ptgrab, kbgrab)` at attempt `i` of a call; it is the pair the answers
determine.  Another attempt follows only if not both grabs are held and each
grab is either held or was answered `AlreadyGrabbed`; and when this is so and
fewer than 6 attempts were made, another attempt does follow.  If one of the two
is a failure other than `AlreadyGrabbed`, then attempt `i` is completed and is
the last one: `lockscreen` returns NULL, and its actions are exactly the
requests of the attempts 0 to `i - 1`, each followed by a delay, the requests of
attempt `i` (the pointer unless held, then the keyboard unless held, whatever
the pointer request answered), and the messages on stderr: no request and no
delay comes after attempt `i`.  Hence the number of delays is `i` and no more
than `i + 1` requests of either kind were issued. -/
theorem lockscreen_retry_policy (dpyNull : Bool) (screen : Int) (mallocOk rrActive : Bool)
    (pt kb : Nat → Int) (i : Nat) (a : Int × Int)
    (ha : (lockscreen dpyNull screen mallocOk rrActive pt kb).log[i]? = some a) :
    a = attemptPair pt kb i ∧
    (i + 1 < (lockscreen dpyNull screen mallocOk rrActive pt kb).log.length →
      (a.1 = GrabSuccess ∨ a.1 = AlreadyGrabbed) ∧ (a.2 = GrabSuccess ∨ a.2 = AlreadyGrabbed) ∧
      ¬ (a.1 = GrabSuccess ∧ a.2 = GrabSuccess)) ∧
    ((a.1 = GrabSuccess ∨ a.1 = AlreadyGrabbed) ∧ (a.2 = GrabSuccess ∨ a.2 = AlreadyGrabbed) ∧
      ¬ (a.1 = GrabSuccess ∧ a.2 = GrabSuccess) ∧ i + 1 < 6 →
      i + 1 < (lockscreen dpyNull screen mallocOk rrActive pt kb).log.length) ∧
    (((a.1 ≠ GrabSuccess ∧ a.1 ≠ AlreadyGrabbed) ∨ (a.2 ≠ GrabSuccess ∧ a.2 ≠ AlreadyGrabbed)) →
      i + 1 = (lockscreen dpyNull screen mallocOk rrActive pt kb).log.length ∧
      (lockscreen dpyNull screen mallocOk rrActive pt kb).locked = false ∧
      (lockscreen dpyNull screen mallocOk rrActive pt kb).trace =
        (List.range i).flatMap
            (fun s => attemptRequests pt kb s ++ [GrabEffect.usleep 100000]) ++
          attemptRequests pt kb i ++
          ((if a.1 ≠ GrabSuccess then [GrabEffect.stderrPointer] else []) ++
            (if a.2 ≠ GrabSuccess then [GrabEffect.stderrKeyboard] else [])) ∧
      (lockscreen dpyNull screen mallocOk rrActive pt kb).trace.countP GrabEffect.isSleep = i ∧
      (lockscreen dpyNull screen mallocOk rrActive pt kb).trace.countP
        GrabEffect.isPointerGrab ≤ i + 1 ∧
      (lockscreen dpyNull screen mallocOk rrActive pt kb).trace.countP
        GrabEffect.isKeyboardGrab ≤ i + 1) := by
  rcases lockscreen_cases dpyNull screen mallocOk rrActive pt kb with h | h
  · rw [h] at ha; simp at ha
  · rw [h] at ha ⊢
    have hinv := grabInv_init pt kb
    obtain ⟨h1, h2⟩ := grabLoop_policy rrActive pt kb 6 _ i a ha
    obtain ⟨c1, c2, -, -⟩ :=
      grabLoop_counts rrActive pt kb 6 { ptgrab := -1, kbgrab := -1, npt := 0, nkb := 0 }
    have hpair := grabLoop_log_eq rrActive pt kb 6 _ 0 hinv i a ha
    rw [Nat.zero_add] at hpair
    refine ⟨hpair, h1, ?_, fun hor => ?_⟩
    · rintro ⟨p1, p2, p3, p4⟩
      have hf : otherFailure a.1 a.2 = false := by
        rw [← Bool.not_eq_true, otherFailure_iff]
        rintro (hx | hx)
        · rcases p1 with p1 | p1
          · exact hx.1 p1
          · exact hx.2 p1
        · rcases p2 with p2 | p2
          · exact hx.1 p2
          · exact hx.2 p2
      exact grabLoop_continues rrActive pt kb 6 _ i a ha p3 hf p4
    · obtain ⟨e1, e2, e3⟩ := h2 hor
      have ht := grabLoop_abort_trace rrActive pt kb 6 _ 0 hinv i a ha
        ((otherFailure_iff a.1 a.2).mpr hor)
      simp only [Nat.zero_add] at ht
      exact ⟨e1, e2, ht, e3, e1 ▸ c1, e1 ▸ c2⟩

/-- Claim C10 at a concrete input: the pointer grab is answered `AlreadyGrabbed`,
then `GrabNotViewable` (3); the keyboard grab is answered `AlreadyGrabbed`, then
`GrabSuccess`.  The second attempt still requests the keyboard and is the
last. -/
theorem lockscreen_retry_policy_witness :
    (lockscreen false 0 true true (fun n => if n < 1 then 1 else 3)
      (fun n => if n < 1 then 1 else 0)).log[1]? = some (3, 0) ∧
    (lockscreen false 0 true true (fun n => if n < 1 then 1 else 3)
      (fun n => if n < 1 then 1 else 0)).locked = false ∧
    (lockscreen false 0 true true (fun n => if n < 1 then 1 else 3)
      (fun n => if n < 1 then 1 else 0)).trace =
      [GrabEffect.XGrabPointer 1, GrabEffect.XGrabKeyboard 1, GrabEffect.usleep 100000,
        GrabEffect.XGrabPointer 3, GrabEffect.XGrabKeyboard 0, GrabEffect.stderrPointer] :=
  ⟨by decide,
    ((lockscreen_retry_policy false 0 true true (fun n => if n < 1 then 1 else 3)
      (fun n => if n < 1 then 1 else 0) 1 (3, 0) (by decide)).2.2.2
        (Or.inl ⟨by decide, by decide⟩)).2.1,
    ((lockscreen_retry_policy false 0 true true (fun n => if n < 1 then 1 else 3)
      (fun n => if n < 1 then 1 else 0) 1 (3, 0) (by decide)).2.2.2
        (Or.inl ⟨by decide, by decide⟩)).2.2.1⟩

/-! ## Further lemmas on `readpw` -/

theorem remapKeypad_BackSpace : remapKeypad XK_BackSpace = XK_BackSpace := by decide

theorem keyPress_BackSpace (fc : Bool) (crypt : List Nat → List Nat → Option (List Nat))
    (hash : List Nat) (n : Nat) (s : State) (k : XKeyEvent) (hk : k.ksym = XK_BackSpace) :
    keyPress fc crypt hash n s k =
      ((recolor fc n (backspace s).1).1, (backspace s).2 ++ (recolor fc n (backspace s).1).2) := by
  have h1 : isFiltered XK_BackSpace = false := by decide
  have h2 : isMediaKey XK_BackSpace = false := by decide
  have h3 : XK_BackSpace ≠ XK_Return := by decide
  have h4 : XK_BackSpace ≠ XK_Escape := by decide
  simp [keyPress, hk, remapKeypad_BackSpace, h1, dispatch, h2, h3, h4]

theorem backspace_fields (s : State) :
    (backspace s).1.len = s.len - 1 ∧
    (backspace s).1.passwd = (if s.len ≠ 0 then s.passwd.set (s.len - 1) 0 else s.passwd) ∧
    (backspace s).1.failure = s.failure ∧ (backspace s).1.running = s.running := by
  unfold backspace
  by_cases h : s.len = 0
  · simp [h]
  · simp [h]

theorem take_set_of_le (a : Nat) (n m : Nat) (l : List Nat) (h : m ≤ n) :
    (l.set n a).take m = l.take m := by
  apply List.ext_getElem?
  intro i
  rw [List.getElem?_take, List.getElem?_take]
  split
  · rw [List.getElem?_set_ne (by omega)]
  · rfl

theorem memcpy_take (dst : List Nat) (off : Nat) (src : List Nat) (n : Nat) :
    (memcpy dst off src n).take off = dst.take off := by
  unfold memcpy
  induction n with
  | zero => simp
  | succ m ih =>
    rw [List.range_succ, List.foldl_append]
    simp only [List.foldl_cons, List.foldl_nil]
    rw [take_set_of_le _ _ _ _ (by omega)]
    exact ih

theorem remapKeypad_digit (d : Nat) (hd : d ≤ 9) : remapKeypad (XK_KP_0 + d) = XK_0 + d := by
  have h1 : IsKeypadKey (XK_KP_0 + d) = true := by
    simp only [IsKeypadKey, XK_KP_Space, XK_KP_Equal, XK_KP_0, Bool.and_eq_true,
      decide_eq_true_eq]
    omega
  have h2 : XK_KP_0 + d ≠ XK_KP_Enter := by unfold XK_KP_0 XK_KP_Enter; omega
  have h3 : XK_KP_0 ≤ XK_KP_0 + d ∧ XK_KP_0 + d ≤ XK_KP_9 := by
    unfold XK_KP_0 XK_KP_9; omega
  unfold remapKeypad
  rw [if_pos h1, if_neg h2, if_pos h3]
  omega

theorem digit_default (d : Nat) (hd : d ≤ 9) :
    isFiltered (XK_0 + d) = false ∧ isMediaKey (XK_0 + d) = false ∧
    XK_0 + d ≠ XK_Return ∧ XK_0 + d ≠ XK_Escape ∧ XK_0 + d ≠ XK_BackSpace := by
  refine ⟨?_, ?_, ?_, ?_, ?_⟩
  · simp only [isFiltered, IsFunctionKey, IsKeypadKey, IsMiscFunctionKey, IsPFKey,
      IsPrivateKeypadKey, XK_F1, XK_F35, XK_KP_Space, XK_KP_Equal, XK_Select, XK_Break,
      XK_KP_F1, XK_KP_F4, XK_0, Bool.or_eq_false_iff, Bool.and_eq_false_imp, decide_eq_true_eq,
      decide_eq_false_iff_not]
    omega
  · simp only [isMediaKey, XF86XK_AudioPlay, XF86XK_AudioStop, XF86XK_AudioPrev,
      XF86XK_AudioNext, XF86XK_AudioRaiseVolume, XF86XK_AudioLowerVolume, XF86XK_AudioMute,
      XF86XK_AudioMicMute, XF86XK_MonBrightnessDown, XF86XK_MonBrightnessUp, XK_0,
      Bool.or_eq_false_iff, decide_eq_false_iff_not]
    omega
  · unfold XK_Return XK_0; omega
  · unfold XK_Escape XK_0; omega
  · unfold XK_BackSpace XK_0; omega

theorem keyPress_phaseOk (fc : Bool) (crypt : List Nat → List Nat → Option (List Nat))
    (hash : List Nat) (n : Nat) (s : State) (k : XKeyEvent) (h : PhaseOk fc s) :
    PhaseOk fc (keyPress fc crypt hash n s k).1 := by
  cases hf : isFiltered (remapKeypad k.ksym)
  · intro hrun
    exact keyPress_oldc fc crypt hash n s k hf hrun
  · have : keyPress fc crypt hash n s k = (s, []) := by simp [keyPress, hf]
    rw [this]; exact h

theorem handleEvent_phaseOk (fc rr : Bool) (crypt : List Nat → List Nat → Option (List Nat))
    (hash locks : List Nat) (s : State) (ev : XEvent) (h : PhaseOk fc s) :
    PhaseOk fc (handleEvent fc rr crypt hash locks s ev).1 := by
  cases ev with
  | KeyPress k => exact keyPress_phaseOk fc crypt hash _ s k h
  | ScreenChange w r wd ht =>
    unfold handleEvent; dsimp only; split <;> exact h
  | Other => exact h

theorem readpw_phaseOk (fc rr : Bool) (crypt : List Nat → List Nat → Option (List Nat))
    (hash locks : List Nat) (evs : List XEvent) :
    ∀ s, PhaseOk fc s → PhaseOk fc (readpw fc rr crypt hash locks s evs).1 := by
  induction evs with
  | nil => intro s h; exact h
  | cons ev evs ih =>
    intro s h
    unfold readpw
    split
    · exact ih _ (handleEvent_phaseOk fc rr crypt hash locks s ev h)
    · exact h

theorem redrawAll_filter (n : Nat) :
    (redrawAll n).filter Effect.touchesSurface = redrawAll n := by
  apply List.filter_eq_self.mpr
  intro e he
  unfold redrawAll at he
  simp only [List.mem_flatMap, List.mem_range, List.mem_cons, List.mem_singleton,
    List.not_mem_nil, or_false] at he
  obtain ⟨a, -, h | h⟩ := he <;> rw [h] <;> rfl

theorem redrawAll_mem (n screen : Nat) (h : screen < n) :
    Effect.XSetWindowBackgroundPixmap screen ∈ redrawAll n ∧
    Effect.XClearWindow screen ∈ redrawAll n := by
  unfold redrawAll
  simp only [List.mem_flatMap, List.mem_range, List.mem_cons, List.mem_singleton,
    List.not_mem_nil, or_false]
  exact ⟨⟨screen, h, Or.inl rfl⟩, ⟨screen, h, Or.inr rfl⟩⟩

theorem dispatch_quiet (crypt : List Nat → List Nat → Option (List Nat))
    (hash : List Nat) (s : State) (ksym : Nat) (k : XKeyEvent) :
    (dispatch crypt hash s ksym k).2.filter Effect.touchesSurface = [] ∧
    (dispatch crypt hash s ksym k).1.oldc = s.oldc := by
  unfold dispatch
  split
  · exact ⟨rfl, rfl⟩
  · split
    · refine ⟨?_, rfl⟩
      unfold submit
      dsimp only
      generalize crypt (cstr (s.passwd.set s.len 0)) hash = r
      cases r with
      | none => by_cases h : s.running = true <;> simp [h, Effect.touchesSurface]
      | some v => by_cases h : strcmp v hash = 0 <;> simp [h, Effect.touchesSurface]
    · split
      · exact ⟨rfl, rfl⟩
      · split
        · unfold backspace; split <;> exact ⟨rfl, rfl⟩
        · unfold printable; split <;> exact ⟨rfl, rfl⟩

theorem recolor_surface (fc : Bool) (n : Nat) (s : State) :
    (recolor fc n s).2 = if (recolor fc n s).1.oldc ≠ s.oldc then redrawAll n else [] := by
  unfold recolor
  dsimp only
  by_cases h : (s.running && decide (s.oldc ≠ color s.len s.failure fc)) = true
  · rw [if_pos h]
    simp only [Bool.and_eq_true, decide_eq_true_eq] at h
    rw [if_pos (fun hc => h.2 hc.symm)]
  · rw [if_neg h]; simp

theorem keyPress_surface (fc : Bool) (crypt : List Nat → List Nat → Option (List Nat))
    (hash : List Nat) (n : Nat) (s : State) (k : XKeyEvent) :
    (keyPress fc crypt hash n s k).2.filter Effect.touchesSurface =
      if (keyPress fc crypt hash n s k).1.oldc ≠ s.oldc then redrawAll n else [] := by
  cases hf : isFiltered (remapKeypad k.ksym)
  · obtain ⟨q1, q2⟩ := dispatch_quiet crypt hash s (remapKeypad k.ksym) k
    rw [keyPress_unfiltered fc crypt hash n s k hf]
    simp only [List.filter_append, q1, List.nil_append]
    rw [recolor_surface, ← q2]
    split
    · exact redrawAll_filter n
    · rfl
  · have : keyPress fc crypt hash n s k = (s, []) := by simp [keyPress, hf]
    rw [this]; simp

/-! ## Further lemmas on `compute_pixel` -/

theorem compute_pixel_zero (width height : Nat) (data : List Nat) (x y : Nat) :
    compute_pixel width height data x y 0 = Except.error Fault.divByZero := by
  have h0 : ∀ b, MIN 0 b = 0 := by
    intro b; unfold MIN; split <;> omega
  have hs : ∀ wr, sumTile width data x y 0 wr =
      Except.ok { alpha := 0, red := 0, green := 0, blue := 0 } := by
    intro wr; rfl
  have hm : ∀ wr, mul32 0 wr = 0 := by
    intro wr; unfold mul32; rw [Nat.zero_mul]; rfl
  unfold compute_pixel
  simp only [h0, hs, hm, if_true]

/-! ## The properties of the specification, continued -/

/-- Claim C11: the order of the privilege drop in `main`.  In every run that
reaches lines 453-475 (the lock array, the surfaces, the event loop) the drop
user and group were resolved, `gethash` returned a hash, the display was
opened, `setgroups`, `setgid` and `setuid` succeeded, and the trace is exactly
the start-up sequence, with `gethash`, `XOpenDisplay`, `setgroups(0)`,
`setgid(dgid)`, `setuid(duid)` in this order, followed by the actions of lines
453-475, among which `readpw`.  If `setgroups`, `setgid` or `setuid` is called
and fails, it is followed by `die` alone and the exit status is 1. -/
theorem main_privilege_order (env : MainEnv) :
    ((∃ e, MainStep.tail e ∈ (main env).1) →
      ∃ duid dgid hash, env.pwd = some duid ∧ env.grp = some dgid ∧
        gethash env.haveShadow env.pw env.sp = some hash ∧
        env.display = true ∧ env.setgroupsOk = true ∧ env.setgidOk = true ∧
        env.setuidOk = true ∧
        (main env).1 =
          [MainStep.getpwnam, MainStep.getgrnam, MainStep.dontkillme, MainStep.gethash,
            MainStep.crypt, MainStep.XOpenDisplay, MainStep.setgroups 0,
            MainStep.setgid dgid, MainStep.setuid duid, MainStep.screenshot,
            MainStep.pixelation, MainStep.XRRQueryExtension] ++
            (mainLock env.callocOk env.nscreens env.locks env.readpwReturns).1.map
              MainStep.tail) ∧
    (∀ n, MainStep.setgroups n ∈ (main env).1 → env.setgroupsOk = false →
      (main env).2 = some 1 ∧
      ∃ pre, (main env).1 = pre ++ [MainStep.setgroups 0, MainStep.die]) ∧
    (∀ g, MainStep.setgid g ∈ (main env).1 → env.setgidOk = false →
      (main env).2 = some 1 ∧
      ∃ pre, (main env).1 = pre ++ [MainStep.setgid g, MainStep.die]) ∧
    (∀ u, MainStep.setuid u ∈ (main env).1 → env.setuidOk = false →
      (main env).2 = some 1 ∧
      ∃ pre, (main env).1 = pre ++ [MainStep.setuid u, MainStep.die]) := by
  generalize hm : main env = r
  unfold main at hm
  split at hm
  · subst hm; simp
  · subst hm; simp
  · split at hm
    · subst hm; simp
    · split at hm
      · subst hm; simp
      · split at hm
        · subst hm; simp
        · split at hm
          · subst hm; simp
          · split at hm
            · subst hm; simp
            · split at hm
              · subst hm; simp
              · split at hm
                · subst hm; simp_all
                  exact ⟨[_, _, _, _, _, _], rfl⟩
                · split at hm
                  · subst hm; simp_all
                    exact ⟨[_, _, _, _, _, _, _], rfl⟩
                  · split at hm
                    · subst hm; simp_all
                      exact ⟨[_, _, _, _, _, _, _, _], rfl⟩
                    · split at hm
                      · subst hm; simp_all
                      · split at hm
                        · subst hm; simp_all
                        · subst hm; simp_all

/-- Claim C11 at a concrete input: `setgid` fails. -/
theorem main_privilege_order_witness :
    (main { args := ArgOutcome.proceed, pwd := some 65534, grp := some 65533,
            oom := OomOutcome.written, haveShadow := true, pw := some [120], sp := some [36],
            crypt := fun _ _ => some [], display := true, setgroupsOk := true,
            setgidOk := false, setuidOk := true, image := true, fuel := 5, width := 2,
            height := 2, pixel_size := 2, data := [1, 2, 3, 4], callocOk := true,
            nscreens := 1, locks := fun _ => true, readpwReturns := true }).2 = some 1 :=
  ((main_privilege_order
      { args := ArgOutcome.proceed, pwd := some 65534, grp := some 65533,
        oom := OomOutcome.written, haveShadow := true, pw := some [120], sp := some [36],
        crypt := fun _ _ => some [], display := true, setgroupsOk := true,
        setgidOk := false, setuidOk := true, image := true, fuel := 5, width := 2,
        height := 2, pixel_size := 2, data := [1, 2, 3, 4], callocOk := true,
        nscreens := 1, locks := fun _ => true, readpwReturns := true }).2.2.1
    65533 (by decide) rfl).1

/-- Claim C12 fails as stated: a keystroke carrying two bytes is accepted in the
initial state (length 0), and after Backspace the length is 1, not 0. -/
theorem readpw_backspace_two_bytes :
    accepts (State.init (List.replicate 256 0))
      { ksym := 0xe9, buf := 0xc3 :: 0xa9 :: List.replicate 30 0, num := 2 } = true ∧
    (State.init (List.replicate 256 0)).len = 0 ∧
    (keyPress false (fun _ _ => none) [36] 1
      (keyPress false (fun _ _ => none) [36] 1 (State.init (List.replicate 256 0))
        { ksym := 0xe9, buf := 0xc3 :: 0xa9 :: List.replicate 30 0, num := 2 }).1
      (charKey XK_BackSpace)).1.len = 1 := by
  refine ⟨rfl, rfl, rfl⟩

/-- Claim C12, as the code has it: Backspace removes the last byte.  After an
accepted printable keystroke of `num` bytes and then Backspace the length is
`len + num - 1` and the first `len` bytes of the buffer are those that held
before the keystroke; for a keystroke of one byte the length is restored
too. -/
theorem readpw_backspace_after_key (failonclear : Bool)
    (crypt : List Nat → List Nat → Option (List Nat)) (hash : List Nat) (nscreens : Nat)
    (s : State) (k bs : XKeyEvent) (hbs : bs.ksym = XK_BackSpace)
    (hlen : s.len ≤ 255) (hnum : k.num ≤ 32)
    (hf : isFiltered (remapKeypad k.ksym) = false)
    (hm : isMediaKey (remapKeypad k.ksym) = false)
    (hr : remapKeypad k.ksym ≠ XK_Return) (he : remapKeypad k.ksym ≠ XK_Escape)
    (hb : remapKeypad k.ksym ≠ XK_BackSpace)
    (hacc : 0 < k.num ∧ iscntrl (k.buf.getD 0 0) = false ∧ s.len + k.num < 256) :
    (keyPress failonclear crypt hash nscreens
      (keyPress failonclear crypt hash nscreens s k).1 bs).1.len = s.len + k.num - 1 ∧
    (keyPress failonclear crypt hash nscreens
      (keyPress failonclear crypt hash nscreens s k).1 bs).1.passwd.take s.len =
        s.passwd.take s.len ∧
    (k.num = 1 →
      (keyPress failonclear crypt hash nscreens
        (keyPress failonclear crypt hash nscreens s k).1 bs).1.len = s.len) := by
  have hacc2 := (accepts_iff s k hlen hnum).mpr hacc
  have hadd : add32 s.len k.num = s.len + k.num := by
    unfold add32 U32; omega
  obtain ⟨p1, p2, -, -⟩ := printable_accepted s k hacc2
  have k1 : (keyPress failonclear crypt hash nscreens s k).1.len = s.len + k.num := by
    rw [keyPress_default failonclear crypt hash nscreens s k hf hm hr he hb, recolor_len, p1, hadd]
  have k2 : (keyPress failonclear crypt hash nscreens s k).1.passwd =
      memcpy s.passwd s.len k.buf k.num := by
    rw [keyPress_default failonclear crypt hash nscreens s k hf hm hr he hb, recolor_passwd, p2]
  obtain ⟨b1, b2, -, -⟩ := backspace_fields (keyPress failonclear crypt hash nscreens s k).1
  have e1 : (keyPress failonclear crypt hash nscreens
      (keyPress failonclear crypt hash nscreens s k).1 bs).1.len = s.len + k.num - 1 := by
    rw [keyPress_BackSpace failonclear crypt hash nscreens _ bs hbs, recolor_len, b1, k1]
  refine ⟨e1, ?_, fun h1 => by rw [e1, h1]; omega⟩
  rw [keyPress_BackSpace failonclear crypt hash nscreens _ bs hbs, recolor_passwd, b2,
    if_pos (by rw [k1]; omega), k1, k2, take_set_of_le _ _ _ _ (by omega), memcpy_take]

/-- Claim C12 at a concrete input: "a" typed into the initial state, then
Backspace. -/
theorem readpw_backspace_after_key_witness :
    (keyPress false (fun _ _ => none) [36] 1
      (keyPress false (fun _ _ => none) [36] 1 (State.init (List.replicate 256 7))
        (charKey 97)).1 (charKey XK_BackSpace)).1.len = 0 :=
  (readpw_backspace_after_key false (fun _ _ => none) [36] 1 (State.init (List.replicate 256 7))
    (charKey 97) (charKey XK_BackSpace) rfl (by show (0 : Nat) ≤ 255; decide) (by decide)
    (by decide) (by decide) (by decide) (by decide) (by decide)
    ⟨by decide, by decide, by show (0 : Nat) + 1 < 256; decide⟩).2.2 rfl

/-- Claim C13: Backspace on an empty buffer.  In every state with length 0,
Backspace leaves the length at 0 and the buffer, the failure flag and the
running flag as they were. -/
theorem readpw_backspace_empty (failonclear : Bool)
    (crypt : List Nat → List Nat → Option (List Nat)) (hash : List Nat) (nscreens : Nat)
    (s : State) (k : XKeyEvent) (hk : k.ksym = XK_BackSpace) (hlen : s.len = 0) :
    (keyPress failonclear crypt hash nscreens s k).1.len = 0 ∧
    (keyPress failonclear crypt hash nscreens s k).1.passwd = s.passwd ∧
    (keyPress failonclear crypt hash nscreens s k).1.failure = s.failure ∧
    (keyPress failonclear crypt hash nscreens s k).1.running = s.running := by
  obtain ⟨b1, b2, b3, b4⟩ := backspace_fields s
  rw [keyPress_BackSpace failonclear crypt hash nscreens s k hk]
  simp only [recolor_len, recolor_passwd, recolor_failure, recolor_running]
  refine ⟨by rw [b1, hlen], ?_, b3, b4⟩
  rw [b2, if_neg (by rw [hlen]; exact fun h => h rfl)]

/-- Claim C13 at a concrete input: Backspace in the initial state. -/
theorem readpw_backspace_empty_witness :
    (keyPress true (fun _ _ => none) [36] 1 (State.init (List.replicate 256 7))
      (charKey XK_BackSpace)).1.len = 0 ∧
    (keyPress true (fun _ _ => none) [36] 1 (State.init (List.replicate 256 7))
      (charKey XK_BackSpace)).1.passwd = List.replicate 256 7 :=
  ⟨(readpw_backspace_empty true (fun _ _ => none) [36] 1 (State.init (List.replicate 256 7))
      (charKey XK_BackSpace) rfl rfl).1,
    (readpw_backspace_empty true (fun _ _ => none) [36] 1 (State.init (List.replicate 256 7))
      (charKey XK_BackSpace) rfl rfl).2.1⟩

/-- Claim C15 fails as stated: with `failonclear` set, in the initial state, where
the loop waits for its first event, `oldc` is `INIT` while the colour computed
from the state is `FAILED`. -/
theorem readpw_initial_phase_stale :
    (readpw true false (fun _ _ => none) [36] [1] (State.init (List.replicate 256 0)) []).1.running
      = true ∧
    (readpw true false (fun _ _ => none) [36] [1] (State.init (List.replicate 256 0)) []).1.oldc
      = Color.INIT ∧
    color (readpw true false (fun _ _ => none) [36] [1] (State.init (List.replicate 256 0)) []).1.len
      (readpw true false (fun _ _ => none) [36] [1] (State.init (List.replicate 256 0)) []).1.failure
      true = Color.FAILED :=
  ⟨rfl, rfl, rfl⟩

/-- Claim C15, as the code has it.  Whenever the loop waits for an event while
locked, `oldc` is the colour computed from the length, the failure flag and
`failonclear`: from the initial state on when `failonclear` is off, and in any
case from the first key press that is not discarded on.  A key press that
changes `oldc` re-applies the background and clears the window on every one of
the `nscreens` lock windows, and these are its only actions on lock windows; a
key press that leaves `oldc` as it was touches no lock window. -/
theorem readpw_phase_broadcast (failonclear rrActive : Bool)
    (crypt : List Nat → List Nat → Option (List Nat)) (hash locks garbage : List Nat)
    (evs : List XEvent) (s : State) (k k2 : XKeyEvent) (screen : Nat)
    (hk : isFiltered (remapKeypad k.ksym) = false) (hscreen : screen < locks.length) :
    ((readpw false rrActive crypt hash locks (State.init garbage) evs).1.running = true →
      (readpw false rrActive crypt hash locks (State.init garbage) evs).1.oldc =
        color (readpw false rrActive crypt hash locks (State.init garbage) evs).1.len
          (readpw false rrActive crypt hash locks (State.init garbage) evs).1.failure false) ∧
    ((readpw failonclear rrActive crypt hash locks
        (keyPress failonclear crypt hash locks.length s k).1 evs).1.running = true →
      (readpw failonclear rrActive crypt hash locks
        (keyPress failonclear crypt hash locks.length s k).1 evs).1.oldc =
        color
          (readpw failonclear rrActive crypt hash locks
            (keyPress failonclear crypt hash locks.length s k).1 evs).1.len
          (readpw failonclear rrActive crypt hash locks
            (keyPress failonclear crypt hash locks.length s k).1 evs).1.failure failonclear) ∧
    ((keyPress failonclear crypt hash locks.length s k2).1.oldc ≠ s.oldc →
      (keyPress failonclear crypt hash locks.length s k2).2.filter Effect.touchesSurface =
        redrawAll locks.length ∧
      Effect.XSetWindowBackgroundPixmap screen ∈
        (keyPress failonclear crypt hash locks.length s k2).2 ∧
      Effect.XClearWindow screen ∈ (keyPress failonclear crypt hash locks.length s k2).2) ∧
    ((keyPress failonclear crypt hash locks.length s k2).1.oldc = s.oldc →
      (keyPress failonclear crypt hash locks.length s k2).2.filter Effect.touchesSurface = []) := by
  refine ⟨?_, ?_, ?_, ?_⟩
  · exact readpw_phaseOk false rrActive crypt hash locks evs (State.init garbage)
      (fun _ => rfl)
  · exact readpw_phaseOk failonclear rrActive crypt hash locks evs _
      (fun hrun => keyPress_oldc failonclear crypt hash locks.length s k hk hrun)
  · intro hne
    have hs := keyPress_surface failonclear crypt hash locks.length s k2
    rw [if_pos hne] at hs
    have hm := redrawAll_mem locks.length screen hscreen
    rw [← hs] at hm
    exact ⟨hs, (List.mem_filter.mp hm.1).1, (List.mem_filter.mp hm.2).1⟩
  · intro he
    have hs := keyPress_surface failonclear crypt hash locks.length s k2
    rw [if_neg (fun h => h he)] at hs
    exact hs

/-- Claim C15 at a concrete input: the first character typed on a display with
two screens redraws screen 1. -/
theorem readpw_phase_broadcast_witness :
    Effect.XClearWindow 1 ∈
      (keyPress false (fun _ _ => none) [36] [1, 2].length (State.init (List.replicate 256 0))
        (charKey 97)).2 :=
  ((readpw_phase_broadcast false false (fun _ _ => none) [36] [1, 2] (List.replicate 256 0) []
    (State.init (List.replicate 256 0)) (charKey 97) (charKey 97) 1 (by decide)
    (by decide)).2.2.1 (by decide)).2.2

/-- Claim C16: keypad remapping.  A key press with symbol `XK_KP_Enter` has the
same outcome (state and actions) as the same press with symbol `XK_Return`; a
keypad digit `XK_KP_0 + d` is remapped to `XK_0 + d`, passes the filter of lines
130-131 and is handled by the default case; every other keypad symbol is
discarded: the state is unchanged and nothing is done. -/
theorem readpw_keypad (failonclear : Bool)
    (crypt : List Nat → List Nat → Option (List Nat)) (hash : List Nat) (nscreens : Nat)
    (s : State) (k : XKeyEvent) (d o : Nat) (hd : d ≤ 9)
    (ho : IsKeypadKey o = true) (ho1 : o ≠ XK_KP_Enter)
    (ho2 : ¬ (XK_KP_0 ≤ o ∧ o ≤ XK_KP_9)) :
    keyPress failonclear crypt hash nscreens s { k with ksym := XK_KP_Enter } =
      keyPress failonclear crypt hash nscreens s { k with ksym := XK_Return } ∧
    (remapKeypad (XK_KP_0 + d) = XK_0 + d ∧ isFiltered (XK_0 + d) = false ∧
      keyPress failonclear crypt hash nscreens s { k with ksym := XK_KP_0 + d } =
        ((recolor failonclear nscreens (printable s k).1).1,
          (printable s k).2 ++ (recolor failonclear nscreens (printable s k).1).2)) ∧
    keyPress failonclear crypt hash nscreens s { k with ksym := o } = (s, []) := by
  refine ⟨?_, ⟨remapKeypad_digit d hd, (digit_default d hd).1, ?_⟩, ?_⟩
  · have h : remapKeypad XK_KP_Enter = remapKeypad XK_Return := by decide
    simp only [keyPress, h]
    have hd1 : ∀ ks, dispatch crypt hash s XK_Return { k with ksym := ks } = submit crypt hash s := by
      intro ks
      have h2 : isMediaKey XK_Return = false := by decide
      simp [dispatch, h2]
    rw [remapKeypad_Return, hd1, hd1]
  · obtain ⟨d1, d2, d3, d4, d5⟩ := digit_default d hd
    have hp : printable s { k with ksym := XK_KP_0 + d } = printable s k := rfl
    rw [← hp]
    exact keyPress_default failonclear crypt hash nscreens s { k with ksym := XK_KP_0 + d }
      (by show isFiltered (remapKeypad (XK_KP_0 + d)) = false; rw [remapKeypad_digit d hd]; exact d1)
      (by show isMediaKey (remapKeypad (XK_KP_0 + d)) = false; rw [remapKeypad_digit d hd]; exact d2)
      (by show remapKeypad (XK_KP_0 + d) ≠ _; rw [remapKeypad_digit d hd]; exact d3)
      (by show remapKeypad (XK_KP_0 + d) ≠ _; rw [remapKeypad_digit d hd]; exact d4)
      (by show remapKeypad (XK_KP_0 + d) ≠ _; rw [remapKeypad_digit d hd]; exact d5)
  · have hr : remapKeypad o = o := by
      unfold remapKeypad
      rw [if_pos ho, if_neg ho1, if_neg ho2]
    have hfil : isFiltered o = true := by
      simp [isFiltered, ho]
    simp [keyPress, hr, hfil]

/-- Claim C16 at a concrete input: keypad `+` (`XK_KP_Add`) is discarded. -/
theorem readpw_keypad_witness :
    keyPress false (fun _ _ => none) [36] 1 (State.init (List.replicate 256 7))
      { charKey 0x2b with ksym := 0xffab } = (State.init (List.replicate 256 7), []) :=
  (readpw_keypad false (fun _ _ => none) [36] 1 (State.init (List.replicate 256 7))
    (charKey 0x2b) 5 0xffab (by decide) (by decide) (by decide) (by decide)).2.2

/-- Claim C17: arithmetic and index safety of `compute_pixel`.  For a buffer of
`width * height < 2 ^ 32` pixels, `ps >= 1` and an origin inside the image, the
clipped tile has the dimensions `min ps (height - y)` by `min ps (width - x)`,
its area is computed without wrap-around and is not zero, every index
`width * (y + j) + (x + i)` of the two loops is computed without wrap-around and
is below `width * height`, and the call succeeds; with `ps = 0` the area is 0
and the call divides by zero. -/
theorem compute_pixel_safe (width height : Nat) (data : List Nat) (x y ps i j : Nat)
    (hsz : width * height < U32) (hlen : data.length = width * height)
    (hx : x < width) (hy : y < height) (hps : 1 ≤ ps)
    (hi : i < MIN ps (sub32 width x)) (hj : j < MIN ps (sub32 height y)) :
    (MIN ps (sub32 height y) = min ps (height - y) ∧
      MIN ps (sub32 width x) = min ps (width - x)) ∧
    (mul32 (MIN ps (sub32 height y)) (MIN ps (sub32 width x)) =
        min ps (height - y) * min ps (width - x) ∧
      min ps (height - y) * min ps (width - x) ≠ 0) ∧
    (index width x y i j = width * (y + j) + (x + i) ∧
      index width x y i j < width * height) ∧
    (∃ out, compute_pixel width height data x y ps = Except.ok out) ∧
    compute_pixel width height data x y 0 = Except.error Fault.divByZero ∧
    mul32 (MIN 0 (sub32 height y)) (MIN 0 (sub32 width x)) = 0 := by
  obtain ⟨hw, hh⟩ := dims_lt width height hsz (by omega) (by omega)
  have e1 : MIN ps (sub32 height y) = min ps (height - y) := by
    rw [MIN_eq_min, sub32_eq height y (by omega) hh]
  have e2 : MIN ps (sub32 width x) = min ps (width - x) := by
    rw [MIN_eq_min, sub32_eq width x (by omega) hw]
  rw [e1] at hj
  rw [e2] at hi
  have harea_le : min ps (height - y) * min ps (width - x) ≤ height * width :=
    Nat.mul_le_mul (by omega) (by omega)
  have harea_pos : 0 < min ps (height - y) * min ps (width - x) :=
    Nat.mul_pos (by omega) (by omega)
  have e3 : mul32 (min ps (height - y)) (min ps (width - x)) =
      min ps (height - y) * min ps (width - x) := by
    unfold mul32
    apply Nat.mod_eq_of_lt
    rw [Nat.mul_comm height width] at harea_le
    omega
  have hidx := index_eq width height x y i j hsz (by omega) (by omega)
  obtain ⟨out, ho, -, -⟩ := compute_pixel_spec width height data x y ps hx hy hps hsz hlen
  refine ⟨⟨e1, e2⟩, ⟨by rw [e1, e2, e3], by omega⟩, ⟨hidx, ?_⟩, ⟨out, ho⟩,
    compute_pixel_zero width height data x y, ?_⟩
  · rw [hidx]
    exact pixel_lt width height (x + i) (y + j) (by omega) (by omega)
  · have h0 : ∀ b, MIN 0 b = 0 := by
      intro b; unfold MIN; split <;> omega
    rw [h0, h0]; rfl

/-- Claim C17 at a concrete input: the tile at (1, 1) of a 3 by 2 image. -/
theorem compute_pixel_safe_witness :
    index 3 1 1 0 0 = 3 * (1 + 0) + (1 + 0) ∧ index 3 1 1 0 0 < 3 * 2 ∧
    ∃ out, compute_pixel 3 2 [1, 2, 3, 4, 5, 6] 1 1 2 = Except.ok out :=
  ⟨(compute_pixel_safe 3 2 [1, 2, 3, 4, 5, 6] 1 1 2 0 0 (by decide) rfl (by decide) (by decide)
      (by decide) (by decide) (by decide)).2.2.1.1,
    (compute_pixel_safe 3 2 [1, 2, 3, 4, 5, 6] 1 1 2 0 0 (by decide) rfl (by decide) (by decide)
      (by decide) (by decide) (by decide)).2.2.1.2,
    (compute_pixel_safe 3 2 [1, 2, 3, 4, 5, 6] 1 1 2 0 0 (by decide) rfl (by decide) (by decide)
      (by decide) (by decide) (by decide)).2.2.2.1⟩

/-- Claim C18: the frame of `compute_pixel`.  For a buffer of
`width * height < 2 ^ 32` pixels, `ps >= 1` and an origin inside the image, the
call keeps the length of the buffer and every pixel whose column is outside
`[x, x + min ps (width - x))` or whose row is outside
`[y, y + min ps (height - y))`; the second form speaks of the pixel at index `m`,
of column `m % width` and row `m / width`. -/
theorem compute_pixel_frame (width height : Nat) (data : List Nat) (x y ps : Nat)
    (hx : x < width) (hy : y < height) (hps : 1 ≤ ps)
    (hsz : width * height < U32) (hlen : data.length = width * height) :
    ∃ out, compute_pixel width height data x y ps = Except.ok out ∧
      out.length = data.length ∧
      (∀ a b, a < width → b < height →
        ¬ ((x ≤ a ∧ a < x + min ps (width - x)) ∧ (y ≤ b ∧ b < y + min ps (height - y))) →
        out.getD (width * b + a) 0 = data.getD (width * b + a) 0) ∧
      (∀ m, m < width * height →
        ¬ ((x ≤ m % width ∧ m % width < x + min ps (width - x)) ∧
          (y ≤ m / width ∧ m / width < y + min ps (height - y))) →
        out.getD m 0 = data.getD m 0) := by
  obtain ⟨out, ho, hol, hog⟩ := compute_pixel_spec width height data x y ps hx hy hps hsz hlen
  have hframe : ∀ a b, a < width → b < height →
      ¬ ((x ≤ a ∧ a < x + min ps (width - x)) ∧ (y ≤ b ∧ b < y + min ps (height - y))) →
      out.getD (width * b + a) 0 = data.getD (width * b + a) 0 := by
    intro a b ha hb hout
    rw [hog a b ha hb, if_neg hout]
  refine ⟨out, ho, hol, hframe, ?_⟩
  intro m hm hout
  have hw : 0 < width := by omega
  have hb : m / width < height := by
    rw [Nat.div_lt_iff_lt_mul hw, Nat.mul_comm]; exact hm
  have := hframe (m % width) (m / width) (Nat.mod_lt _ hw) hb hout
  rw [Nat.div_add_mod] at this
  exact this

/-- Claim C18 at a concrete input: the tile at (1, 1) of a 3 by 2 image. -/
theorem compute_pixel_frame_witness :
    ∃ out, compute_pixel 3 2 [1, 2, 3, 4, 5, 6] 1 1 2 = Except.ok out ∧
      out.length = [1, 2, 3, 4, 5, 6].length ∧
      (∀ a b, a < 3 → b < 2 →
        ¬ ((1 ≤ a ∧ a < 1 + min 2 (3 - 1)) ∧ (1 ≤ b ∧ b < 1 + min 2 (2 - 1))) →
        out.getD (3 * b + a) 0 = [1, 2, 3, 4, 5, 6].getD (3 * b + a) 0) ∧
      (∀ m, m < 3 * 2 →
        ¬ ((1 ≤ m % 3 ∧ m % 3 < 1 + min 2 (3 - 1)) ∧
          (1 ≤ m / 3 ∧ m / 3 < 1 + min 2 (2 - 1))) →
        out.getD m 0 = [1, 2, 3, 4, 5, 6].getD m 0) :=
  compute_pixel_frame 3 2 [1, 2, 3, 4, 5, 6] 1 1 2 (by decide) (by decide) (by decide)
    (by decide) rfl

/-! ## Lemmas on the pixelation of the whole image -/

theorem rowLoopT_fst (width height ps y : Nat) :
    ∀ (fuel x : Nat) (data : List Nat),
      rowLoop width height ps y fuel x data =
        (rowLoopT width height ps y fuel x data).map Prod.fst := by
  intro fuel
  induction fuel with
  | zero => intro x data; rfl
  | succ fuel ih =>
    intro x data
    unfold rowLoop rowLoopT
    by_cases hx : x < width
    · rw [if_pos hx, if_pos hx]
      cases compute_pixel width height data x y ps with
      | error e => rfl
      | ok d1 =>
        simp only []
        rw [ih]
        cases rowLoopT width height ps y fuel (MIN (add32 x ps) width) d1 with
        | error e => rfl
        | ok r => rfl
    · rw [if_neg hx, if_neg hx]; rfl

theorem tileLoopT_fst (width height ps rowFuel : Nat) :
    ∀ (fuel y : Nat) (data : List Nat),
      tileLoop width height ps rowFuel fuel y data =
        (tileLoopT width height ps rowFuel fuel y data).map Prod.fst := by
  intro fuel
  induction fuel with
  | zero => intro y data; rfl
  | succ fuel ih =>
    intro y data
    unfold tileLoop tileLoopT
    by_cases hy : y < height
    · rw [if_pos hy, if_pos hy, rowLoopT_fst]
      cases rowLoopT width height ps y rowFuel 0 data with
      | error e => rfl
      | ok r1 =>
        simp only [Except.map]
        rw [ih]
        cases tileLoopT width height ps rowFuel fuel (MIN (add32 y ps) height) r1.1 with
        | error e => rfl
        | ok r => rfl
    · rw [if_neg hy, if_neg hy]; rfl

theorem pixelateT_fst (fuel width height ps : Nat) (data : List Nat) :
    pixelate fuel width height ps data =
      (pixelateT fuel width height ps data).map Prod.fst :=
  tileLoopT_fst width height ps fuel fuel 0 data

/-- The calls made by the inner loop started at `x`: each once, all in row `y`,
at the columns `x, x + ps, x + 2 ps, ...` below `width`. -/
theorem rowLoopT_spec (width height ps y : Nat) (hps : 1 ≤ ps) (hw : width < 2 ^ 31)
    (Inv : Nat → List Nat → Prop)
    (hstep : ∀ x data, x < width → Inv x data →
      ∃ data1, compute_pixel width height data x y ps = Except.ok data1 ∧
        Inv (min (x + ps) width) data1) :
    ∀ (fuel x : Nat) (data : List Nat), width - x < fuel → (x + ps < U32 ∨ width ≤ x) →
      x ≤ width → Inv x data →
      ∃ out calls, rowLoopT width height ps y fuel x data = Except.ok (out, calls) ∧
        Inv width out ∧ calls.Nodup ∧
        (∀ c ∈ calls, c.2 = y ∧ x ≤ c.1 ∧ c.1 < width ∧ ∃ n, c.1 = x + n * ps) ∧
        (∀ n, x + n * ps < width → (x + n * ps, y) ∈ calls) := by
  intro fuel
  induction fuel with
  | zero => intro x data h; omega
  | succ fuel ih =>
    intro x data hf hc hle hinv
    unfold rowLoopT
    by_cases hx : x < width
    · rw [if_pos hx]
      obtain ⟨data1, h1, h2⟩ := hstep x data hx hinv
      have hadd : x + ps < U32 := by omega
      have hnext : MIN (add32 x ps) width = min (x + ps) width := by
        rw [MIN_eq_min]; unfold add32; rw [Nat.mod_eq_of_lt hadd]
      obtain ⟨out, calls, r1, r2, r3, r4, r5⟩ := ih (min (x + ps) width) data1 (by omega)
        (by unfold U32; omega) (by omega) h2
      simp only [h1, hnext, r1]
      refine ⟨out, (x, y) :: calls, rfl, r2, ?_, ?_, ?_⟩
      · rw [List.nodup_cons]
        refine ⟨fun hmem => ?_, r3⟩
        have := (r4 (x, y) hmem).2.1
        simp only at this
        omega
      · intro c hc
        rcases List.mem_cons.mp hc with rfl | hc
        · exact ⟨rfl, Nat.le_refl _, hx, 0, by simp⟩
        · obtain ⟨c1, c2, c3, n, c4⟩ := r4 c hc
          have hxp : min (x + ps) width = x + ps := by omega
          refine ⟨c1, by omega, c3, n + 1, ?_⟩
          rw [c4, hxp, Nat.succ_mul]; omega
      · intro n hn
        cases n with
        | zero =>
          simp only [Nat.zero_mul, Nat.add_zero]
          exact List.mem_cons_self _ _
        | succ m =>
          have hle2 : x + ps ≤ x + (m + 1) * ps := by
            rw [Nat.succ_mul]; omega
          have hxp : min (x + ps) width = x + ps := by omega
          have := r5 m (by rw [hxp]; rw [Nat.succ_mul] at hn; omega)
          rw [hxp] at this
          have e : x + (m + 1) * ps = x + ps + m * ps := by rw [Nat.succ_mul]; omega
          rw [e]
          exact List.mem_cons_of_mem _ this
    · rw [if_neg hx]
      have : x = width := by omega
      subst this
      refine ⟨data, [], rfl, hinv, List.nodup_nil, ?_, ?_⟩
      · intro c hc; simp at hc
      · intro n hn
        have : 0 ≤ n * ps := Nat.zero_le _
        omega

/-- The calls made by the outer loop started at `y`: each once, at the rows
`y, y + ps, ...` below `height` and, in each row, at the columns `0, ps, ...`
below `width`. -/
theorem tileLoopT_spec (width height ps rowFuel : Nat) (hps : 1 ≤ ps) (hh : height < 2 ^ 31)
    (Inv : Nat → List Nat → Prop)
    (hstep : ∀ y data, y < height → Inv y data →
      ∃ data1 rc, rowLoopT width height ps y rowFuel 0 data = Except.ok (data1, rc) ∧
        Inv (min (y + ps) height) data1 ∧ rc.Nodup ∧
        (∀ c ∈ rc, c.2 = y ∧ c.1 < width ∧ ∃ n, c.1 = n * ps) ∧
        (∀ n, n * ps < width → (n * ps, y) ∈ rc)) :
    ∀ (fuel y : Nat) (data : List Nat), height - y < fuel → (y + ps < U32 ∨ height ≤ y) →
      y ≤ height → Inv y data →
      ∃ out calls, tileLoopT width height ps rowFuel fuel y data = Except.ok (out, calls) ∧
        Inv height out ∧ calls.Nodup ∧
        (∀ c ∈ calls, y ≤ c.2 ∧ c.2 < height ∧ (∃ m, c.2 = y + m * ps) ∧ c.1 < width ∧
          ∃ n, c.1 = n * ps) ∧
        (∀ m n, y + m * ps < height → n * ps < width → (n * ps, y + m * ps) ∈ calls) := by
  intro fuel
  induction fuel with
  | zero => intro y data h; omega
  | succ fuel ih =>
    intro y data hf hc hle hinv
    unfold tileLoopT
    by_cases hy : y < height
    · rw [if_pos hy]
      obtain ⟨data1, rc, h1, h2, h3, h4, h5⟩ := hstep y data hy hinv
      have hadd : y + ps < U32 := by omega
      have hnext : MIN (add32 y ps) height = min (y + ps) height := by
        rw [MIN_eq_min]; unfold add32; rw [Nat.mod_eq_of_lt hadd]
      obtain ⟨out, calls, r1, r2, r3, r4, r5⟩ := ih (min (y + ps) height) data1 (by omega)
        (by unfold U32; omega) (by omega) h2
      simp only [h1, hnext, r1]
      refine ⟨out, rc ++ calls, rfl, r2, ?_, ?_, ?_⟩
      · rw [List.nodup_append]
        refine ⟨h3, r3, ?_⟩
        intro c hc1 hc2
        have a1 := (h4 c hc1).1
        have a2 := (r4 c hc2).1
        omega
      · intro c hc
        rcases List.mem_append.mp hc with hc | hc
        · obtain ⟨c1, c2, c3⟩ := h4 c hc
          exact ⟨by omega, by omega, ⟨0, by omega⟩, c2, c3⟩
        · obtain ⟨c1, c2, ⟨m, c3⟩, c4, c5⟩ := r4 c hc
          have hyp : min (y + ps) height = y + ps := by omega
          refine ⟨by omega, c2, ⟨m + 1, ?_⟩, c4, c5⟩
          rw [c3, hyp, Nat.succ_mul]; omega
      · intro m n hm hn
        cases m with
        | zero =>
          simp only [Nat.zero_mul, Nat.add_zero]
          exact List.mem_append_left _ (h5 n hn)
        | succ k =>
          have hle2 : y + ps ≤ y + (k + 1) * ps := by
            rw [Nat.succ_mul]; omega
          have hyp : min (y + ps) height = y + ps := by omega
          have := r5 k n (by rw [hyp]; rw [Nat.succ_mul] at hm; omega) hn
          rw [hyp] at this
          have e : y + (k + 1) * ps = y + ps + k * ps := by rw [Nat.succ_mul]; omega
          rw [e]
          exact List.mem_append_right _ this
    · rw [if_neg hy]
      have : y = height := by omega
      subst this
      refine ⟨data, [], rfl, hinv, List.nodup_nil, ?_, ?_⟩
      · intro c hc; simp at hc
      · intro m n hm _
        have : 0 ≤ m * ps := Nat.zero_le _
        omega

theorem tileSum_agree (width : Nat) (d1 d2 : List Nat) (x y hr wr k : Nat)
    (h : ∀ j, j < hr → ∀ i, i < wr →
      d1.getD (width * (y + j) + (x + i)) 0 = d2.getD (width * (y + j) + (x + i)) 0) :
    tileSum width d1 x y hr wr k = tileSum width d2 x y hr wr k := by
  have e1 := tileSum_congr width d1 x y hr wr k
    (fun j i => d1.getD (width * (y + j) + (x + i)) 0) (fun _ _ _ _ => rfl)
  have e2 := tileSum_congr width d2 x y hr wr k
    (fun j i => d1.getD (width * (y + j) + (x + i)) 0) h
  rw [← e1, e2]

theorem tilePixel_agree (width : Nat) (d1 d2 : List Nat) (x y hr wr : Nat)
    (h : ∀ j, j < hr → ∀ i, i < wr →
      d1.getD (width * (y + j) + (x + i)) 0 = d2.getD (width * (y + j) + (x + i)) 0) :
    tilePixel width d1 x y hr wr = tilePixel width d2 x y hr wr := by
  unfold tilePixel tileByte
  rw [tileSum_agree width d1 d2 x y hr wr 0 h, tileSum_agree width d1 d2 x y hr wr 1 h,
    tileSum_agree width d1 d2 x y hr wr 2 h, tileSum_agree width d1 d2 x y hr wr 3 h]

/-- A pixel of the tile with origin `x`, a multiple of `ps`, has the tile origin
`ps * (a / ps) = x`. -/
theorem origin_of_mem (ps x a : Nat) (hx : ps ∣ x) (h1 : x ≤ a)
    (h2 : a < x + ps) : ps * (a / ps) = x := by
  obtain ⟨q, rfl⟩ := hx
  have : a / ps = q := by
    apply Nat.div_eq_of_lt_le
    · rw [Nat.mul_comm]; exact h1
    · rw [Nat.succ_mul, Nat.mul_comm]; exact h2
  rw [this]

theorem origin_le (ps a : Nat) : ps * (a / ps) ≤ a := Nat.mul_div_le a ps

theorem lt_origin_add (ps a : Nat) (hps : 1 ≤ ps) : a < ps * (a / ps) + ps := by
  have := Nat.lt_mul_div_succ a (by omega : 0 < ps)
  rw [Nat.mul_succ] at this
  exact this

/-- One call of `compute_pixel` in the inner loop: the tiles of row `y` left of
`x` hold their tile pixel, computed from the buffer `D0` the row started with;
afterwards this holds left of `min (x + ps) width`. -/
theorem row_step (width height ps y : Nat) (D0 d : List Nat) (x : Nat)
    (hps : 1 ≤ ps) (hsz : width * height < U32) (hy : y < height) (hx : x < width)
    (hdx : ps ∣ x) (hlen : d.length = width * height)
    (hinv : ∀ a b, a < width → b < height →
      d.getD (width * b + a) 0 =
        if (y ≤ b ∧ b < y + min ps (height - y)) ∧ a < x then
          tilePixel width D0 (ps * (a / ps)) y (min ps (height - y))
            (min ps (width - ps * (a / ps)))
        else D0.getD (width * b + a) 0) :
    ∃ d1, compute_pixel width height d x y ps = Except.ok d1 ∧
      d1.length = width * height ∧
      ∀ a b, a < width → b < height →
        d1.getD (width * b + a) 0 =
          if (y ≤ b ∧ b < y + min ps (height - y)) ∧ a < min (x + ps) width then
            tilePixel width D0 (ps * (a / ps)) y (min ps (height - y))
              (min ps (width - ps * (a / ps)))
          else D0.getD (width * b + a) 0 := by
  obtain ⟨d1, ho, hol, hog⟩ := compute_pixel_spec width height d x y ps hx hy hps hsz hlen
  have hagree : tilePixel width d x y (min ps (height - y)) (min ps (width - x)) =
      tilePixel width D0 x y (min ps (height - y)) (min ps (width - x)) := by
    apply tilePixel_agree
    intro j hj i hi
    rw [hinv (x + i) (y + j) (by omega) (by omega), if_neg (by omega)]
  refine ⟨d1, ho, by rw [hol, hlen], ?_⟩
  intro a b ha hb
  rw [hog a b ha hb]
  by_cases hin : (x ≤ a ∧ a < x + min ps (width - x)) ∧ (y ≤ b ∧ b < y + min ps (height - y))
  · have ho := origin_of_mem ps x a hdx hin.1.1 (by omega)
    rw [if_pos hin, if_pos ⟨hin.2, by omega⟩, hagree, ho]
  · rw [if_neg hin, hinv a b ha hb]
    have hiff : ((y ≤ b ∧ b < y + min ps (height - y)) ∧ a < x) ↔
        ((y ≤ b ∧ b < y + min ps (height - y)) ∧ a < min (x + ps) width) := by
      constructor
      · intro h; exact ⟨h.1, by omega⟩
      · intro h
        refine ⟨h.1, ?_⟩
        by_contra hc
        exact hin ⟨⟨by omega, by omega⟩, h.1⟩
    rw [if_congr hiff rfl rfl]

/-- One run of the inner loop in the outer loop: the rows above `y` hold their
mosaic pixels, computed from the original buffer `D`; afterwards this holds
above `min (y + ps) height`. -/
theorem tile_step (width height ps : Nat) (D d : List Nat) (y fuel : Nat)
    (hps : 1 ≤ ps) (hpsU : ps < U32) (hw : width < 2 ^ 31)
    (hsz : width * height < U32) (hy : y < height) (hdy : ps ∣ y) (hfuel : width < fuel)
    (hlen : d.length = width * height)
    (hinv : ∀ a b, a < width → b < height →
      d.getD (width * b + a) 0 =
        if b < y then mosaicPixel width height ps D a b else D.getD (width * b + a) 0) :
    ∃ d1 rc, rowLoopT width height ps y fuel 0 d = Except.ok (d1, rc) ∧
      d1.length = width * height ∧
      (∀ a b, a < width → b < height →
        d1.getD (width * b + a) 0 =
          if b < min (y + ps) height then mosaicPixel width height ps D a b
          else D.getD (width * b + a) 0) ∧
      rc.Nodup ∧
      (∀ c ∈ rc, c.2 = y ∧ c.1 < width ∧ ∃ n, c.1 = n * ps) ∧
      (∀ n, n * ps < width → (n * ps, y) ∈ rc) := by
  obtain ⟨out, calls, r1, ⟨-, r2, r3⟩, r4, r5, r6⟩ :=
    rowLoopT_spec width height ps y hps hw
      (fun x d' => (ps ∣ x ∨ x = width) ∧ d'.length = width * height ∧
        ∀ a b, a < width → b < height →
          d'.getD (width * b + a) 0 =
            if (y ≤ b ∧ b < y + min ps (height - y)) ∧ a < x then
              tilePixel width d (ps * (a / ps)) y (min ps (height - y))
                (min ps (width - ps * (a / ps)))
            else d.getD (width * b + a) 0)
      (fun x d' hx hI => by
        obtain ⟨i1, i2, i3⟩ := hI
        have hdx : ps ∣ x := by
          rcases i1 with h | h
          · exact h
          · omega
        obtain ⟨d1, s1, s2, s3⟩ := row_step width height ps y d d' x hps hsz hy hx hdx i2 i3
        refine ⟨d1, s1, ?_, s2, s3⟩
        by_cases hle : x + ps ≤ width
        · left
          rw [Nat.min_eq_left hle]
          exact Nat.dvd_add hdx (Nat.dvd_refl ps)
        · right
          omega)
      fuel 0 d (by omega) (Or.inl (by omega)) (Nat.zero_le _)
      ⟨Or.inl (Nat.dvd_zero ps), hlen, fun a b _ _ => by rw [if_neg (by omega)]⟩
  refine ⟨out, calls, r1, r2, ?_, r4, ?_, ?_⟩
  · intro a b ha hb
    rw [r3 a b ha hb]
    by_cases hrows : y ≤ b ∧ b < y + min ps (height - y)
    · have hX : ps * (a / ps) ≤ a := origin_le ps a
      have hY : ps * (b / ps) = y := origin_of_mem ps y b hdy hrows.1 (by omega)
      rw [if_pos ⟨hrows, ha⟩, if_pos (by omega)]
      unfold mosaicPixel
      rw [hY]
      apply tilePixel_agree
      intro j hj i hi
      rw [hinv (ps * (a / ps) + i) (y + j) (by omega) (by omega), if_neg (by omega)]
    · rw [if_neg (fun h => hrows h.1), hinv a b ha hb]
      have hiff : b < y ↔ b < min (y + ps) height := by omega
      rw [if_congr hiff rfl rfl]
  · intro c hc
    obtain ⟨c1, -, c3, n, c4⟩ := r5 c hc
    exact ⟨c1, c3, n, by omega⟩
  · intro n hn
    have := r6 n (by omega)
    rw [Nat.zero_add] at this
    exact this

/-- The pixelation of the whole image: with enough fuel the loops end, every
pixel holds the mosaic pixel of its tile, computed from the input, and
`compute_pixel` was called once at every origin `(x, y)` inside the image with
`x` and `y` multiples of `ps`, and nowhere else. -/
theorem pixelateT_spec (fuel width height ps : Nat) (data : List Nat)
    (hps : 1 ≤ ps) (hpsU : ps < U32) (hw : width < 2 ^ 31) (hh : height < 2 ^ 31)
    (hsz : width * height < U32) (hlen : data.length = width * height)
    (hfuel : max width height < fuel) :
    ∃ out calls, pixelateT fuel width height ps data = Except.ok (out, calls) ∧
      out.length = width * height ∧
      (∀ a b, a < width → b < height →
        out.getD (width * b + a) 0 = mosaicPixel width height ps data a b) ∧
      calls.Nodup ∧
      (∀ c ∈ calls, c.1 < width ∧ c.2 < height ∧ ps ∣ c.1 ∧ ps ∣ c.2) ∧
      (∀ x y, x < width → y < height → ps ∣ x → ps ∣ y → (x, y) ∈ calls) := by
  obtain ⟨out, calls, r1, ⟨-, r2, r3⟩, r4, r5, r6⟩ :=
    tileLoopT_spec width height ps fuel hps hh
      (fun y d => (ps ∣ y ∨ y = height) ∧ d.length = width * height ∧
        ∀ a b, a < width → b < height →
          d.getD (width * b + a) 0 =
            if b < y then mosaicPixel width height ps data a b
            else data.getD (width * b + a) 0)
      (fun y d hy hI => by
        obtain ⟨i1, i2, i3⟩ := hI
        have hdy : ps ∣ y := by
          rcases i1 with h | h
          · exact h
          · omega
        obtain ⟨d1, rc, s1, s2, s3, s4, s5, s6⟩ :=
          tile_step width height ps data d y fuel hps hpsU hw hsz hy hdy (by omega) i2 i3
        refine ⟨d1, rc, s1, ⟨?_, s2, s3⟩, s4, s5, s6⟩
        by_cases hle : y + ps ≤ height
        · left
          rw [Nat.min_eq_left hle]
          exact Nat.dvd_add hdy (Nat.dvd_refl ps)
        · right
          omega)
      fuel 0 data (by omega) (Or.inl (by omega)) (Nat.zero_le _)
      ⟨Or.inl (Nat.dvd_zero ps), hlen, fun a b _ _ => by rw [if_neg (by omega)]⟩
  refine ⟨out, calls, r1, r2, ?_, r4, ?_, ?_⟩
  · intro a b ha hb
    rw [r3 a b ha hb, if_pos hb]
  · intro c hc
    obtain ⟨-, c2, ⟨m, c3⟩, c4, n, c5⟩ := r5 c hc
    refine ⟨c4, c2, ⟨n, by rw [c5, Nat.mul_comm]⟩, ⟨m, by rw [c3, Nat.zero_add, Nat.mul_comm]⟩⟩
  · intro x y hx hy hdx hdy
    obtain ⟨n, rfl⟩ := hdx
    obtain ⟨m, rfl⟩ := hdy
    have := r6 m n (by rw [Nat.zero_add, Nat.mul_comm]; exact hy)
      (by rw [Nat.mul_comm]; exact hx)
    rw [Nat.zero_add, Nat.mul_comm n, Nat.mul_comm m] at this
    exact this

/-- Two buffers of the same image size with the same pixels are equal. -/
theorem eq_of_pixels (width height : Nat) (l1 l2 : List Nat)
    (h1 : l1.length = width * height) (h2 : l2.length = width * height)
    (h : ∀ a b, a < width → b < height →
      l1.getD (width * b + a) 0 = l2.getD (width * b + a) 0) : l1 = l2 := by
  apply List.ext_getElem
  · rw [h1, h2]
  · intro m hm1 hm2
    have hw : 0 < width := by
      rcases Nat.eq_zero_or_pos width with h0 | h0
      · rw [h1, h0, Nat.zero_mul] at hm1; omega
      · exact h0
    have hb : m / width < height := by
      rw [Nat.div_lt_iff_lt_mul hw, Nat.mul_comm]; rw [h1] at hm1; exact hm1
    have := h (m % width) (m / width) (Nat.mod_lt _ hw) hb
    rw [Nat.div_add_mod, List.getD_eq_getElem?_getD, List.getD_eq_getElem?_getD,
      List.getElem?_eq_getElem hm1, List.getElem?_eq_getElem hm2] at this
    exact this

theorem tilePixel_lt (width : Nat) (data : List Nat) (x y hr wr : Nat) :
    tilePixel width data x y hr wr < U32 := by
  have h0 := tileByte_lt width data x y hr wr 0
  have h1 := tileByte_lt width data x y hr wr 1
  have h2 := tileByte_lt width data x y hr wr 2
  have h3 := tileByte_lt width data x y hr wr 3
  unfold tilePixel Pixel.data U32
  simp only
  omega

/-- A tile whose pixels all hold the same 32-bit value, with no wrap-around of
the accumulators, is left as it is. -/
theorem compute_pixel_fixed (width height : Nat) (data : List Nat) (x y ps v : Nat)
    (hx : x < width) (hy : y < height) (hps : 1 ≤ ps)
    (hsz : width * height < U32) (hlen : data.length = width * height) (hv : v < U32)
    (hun : ∀ a b, a < width → b < height →
      ((x ≤ a ∧ a < x + min ps (width - x)) ∧ (y ≤ b ∧ b < y + min ps (height - y))) →
      data.getD (width * b + a) 0 = v)
    (hnowrap : ∀ k, k < 4 → byteOf k v * (min ps (height - y) * min ps (width - x)) < U32) :
    compute_pixel width height data x y ps = Except.ok data := by
  obtain ⟨out, ho, hol, hog⟩ := compute_pixel_spec width height data x y ps hx hy hps hsz hlen
  rw [ho]
  congr 1
  apply eq_of_pixels width height out data (by rw [hol, hlen]) hlen
  intro a b ha hb
  rw [hog a b ha hb]
  by_cases hin : (x ≤ a ∧ a < x + min ps (width - x)) ∧ (y ≤ b ∧ b < y + min ps (height - y))
  · rw [if_pos hin, hun a b ha hb hin]
    have hbyte : ∀ k, k < 4 →
        tileByte width data x y (min ps (height - y)) (min ps (width - x)) k = byteOf k v := by
      intro k hk
      have hpos : 0 < min ps (height - y) * min ps (width - x) :=
        Nat.mul_pos (by omega) (by omega)
      have hs := tileSum_uniform width data x y (min ps (height - y)) (min ps (width - x)) k v
        (fun j hj i hi => hun (x + i) (y + j) (by omega) (by omega) (by omega))
      have hlt : tileSum width data x y (min ps (height - y)) (min ps (width - x)) k < U32 := by
        rw [hs, Nat.mul_comm]; exact hnowrap k hk
      rw [tileByte_eq_mean _ _ _ _ _ _ _ hlt, hs]
      exact Nat.mul_div_cancel_left _ hpos
    unfold tilePixel
    rw [hbyte 0 (by decide), hbyte 1 (by decide), hbyte 2 (by decide), hbyte 3 (by decide)]
    exact data_ofData v hv
  · rw [if_neg hin]

/-! ## The properties of the specification, concluded -/

/-- Claim C14 fails as stated: on a 4105 by 4105 buffer of pixels 0xFFFFFFFF with
tile size 4105 the loops end, and byte 0 of the output pixel (0, 0) is 0, while
the mean of byte 0 of the input over its tile, the whole image, is 255: the
32-bit accumulator wrapped around. -/
theorem pixelate_mean_wraps :
    ∃ out, pixelate 2 4105 4105 4105 (List.replicate (4105 * 4105) 4294967295) =
        Except.ok out ∧
      byteOf 0 (out.getD (4105 * 0 + 0) 0) = 0 ∧
      tileSum 4105 (List.replicate (4105 * 4105) 4294967295) 0 0 4105 4105 0 / (4105 * 4105) =
        255 := by
  obtain ⟨out, ho, h0⟩ := wrap_example
  have hs := tileSum_replicate 4105 4105 0 0 4105 4105 0 4294967295 (by decide) (by decide)
  have e : 4105 * 4105 * byteOf 0 4294967295 / (4105 * 4105) = 255 := by decide
  exact ⟨out, pixelate_single_tile 0 4105 4105 4105 _ out (by decide) (by decide)
    (Nat.le_refl _) (Nat.le_refl _) (by decide) ho, h0,
    (congrArg (fun t => t / (4105 * 4105)) hs).trans e⟩

/-- Claim C14, as the code has it: for screen dimensions that fit an `int`, a
buffer of `width * height < 2 ^ 32` pixels and a tile size `1 <= ps < 2 ^ 32`,
provided no channel sum over a clipped tile reaches `2 ^ 32`, the tile loop of
`main` terminates; `compute_pixel` is called exactly at the origins
`(i * ps, j * ps)` with `i * ps < width` and `j * ps < height`, once each; every
pixel `(px, py)` lies in the clipped tile of exactly one of these origins, the
origin `(ps * (px / ps), ps * (py / ps))`; and each byte of the output pixel
`(px, py)` is the sum of that byte of the input over this clipped tile divided,
rounding down, by the number of pixels of the clipped tile. -/
theorem pixelate_mosaic (fuel width height ps : Nat) (data : List Nat)
    (hps : 1 ≤ ps) (hpsU : ps < U32) (hw : width < 2 ^ 31) (hh : height < 2 ^ 31)
    (hsz : width * height < U32) (hlen : data.length = width * height)
    (hfuel : max width height < fuel)
    (hnowrap : ∀ px py k, px < width → py < height → k < 4 →
      tileSum width data (ps * (px / ps)) (ps * (py / ps))
        (min ps (height - ps * (py / ps))) (min ps (width - ps * (px / ps))) k < U32) :
    ∃ out calls, pixelateT fuel width height ps data = Except.ok (out, calls) ∧
      pixelate fuel width height ps data = Except.ok out ∧
      out.length = data.length ∧ calls.Nodup ∧
      (∀ x y, (x, y) ∈ calls ↔
        ∃ i j, x = i * ps ∧ y = j * ps ∧ i * ps < width ∧ j * ps < height) ∧
      ∀ px py, px < width → py < height →
        (ps * (px / ps), ps * (py / ps)) ∈ calls ∧
        (∀ x y, (x, y) ∈ calls →
          (((x ≤ px ∧ px < x + min ps (width - x)) ∧ (y ≤ py ∧ py < y + min ps (height - y))) ↔
            (x = ps * (px / ps) ∧ y = ps * (py / ps)))) ∧
        ∀ k, k < 4 →
          byteOf k (out.getD (width * py + px) 0) =
            tileSum width data (ps * (px / ps)) (ps * (py / ps))
              (min ps (height - ps * (py / ps))) (min ps (width - ps * (px / ps))) k /
            (min ps (height - ps * (py / ps)) * min ps (width - ps * (px / ps))) := by
  obtain ⟨out, calls, r1, r2, r3, r4, r5, r6⟩ :=
    pixelateT_spec fuel width height ps data hps hpsU hw hh hsz hlen hfuel
  refine ⟨out, calls, r1, ?_, by rw [r2, hlen], r4, ?_, ?_⟩
  · rw [pixelateT_fst, r1]; rfl
  · intro x y
    constructor
    · intro hc
      obtain ⟨c1, c2, ⟨n, c3⟩, ⟨m, c4⟩⟩ := r5 (x, y) hc
      simp only at c1 c2 c3 c4
      exact ⟨n, m, by rw [c3, Nat.mul_comm], by rw [c4, Nat.mul_comm],
        by rw [Nat.mul_comm, ← c3]; exact c1, by rw [Nat.mul_comm, ← c4]; exact c2⟩
    · rintro ⟨i, j, rfl, rfl, hi, hj⟩
      exact r6 _ _ hi hj ⟨i, Nat.mul_comm _ _⟩ ⟨j, Nat.mul_comm _ _⟩
  · intro px py hpx hpy
    have hX := origin_le ps px
    have hY := origin_le ps py
    have hX2 := lt_origin_add ps px hps
    have hY2 := lt_origin_add ps py hps
    refine ⟨r6 _ _ (by omega) (by omega) ⟨_, rfl⟩ ⟨_, rfl⟩, ?_, ?_⟩
    · intro x y hc
      obtain ⟨c1, c2, c3, c4⟩ := r5 (x, y) hc
      simp only at c1 c2 c3 c4
      constructor
      · rintro ⟨⟨a1, a2⟩, b1, b2⟩
        exact ⟨(origin_of_mem ps x px c3 a1 (by omega)).symm,
          (origin_of_mem ps y py c4 b1 (by omega)).symm⟩
      · rintro ⟨rfl, rfl⟩
        omega
    · intro k hk
      rw [r3 px py hpx hpy]
      unfold mosaicPixel
      rw [byteOf_tilePixel _ _ _ _ _ _ k hk,
        tileByte_eq_mean _ _ _ _ _ _ _ (hnowrap px py k hpx hpy hk)]

/-- Claim C14 at a concrete input: a 3 by 2 image with tile size 2. -/
theorem pixelate_mosaic_witness :
    ∃ out calls, pixelateT 4 3 2 2 [1, 3, 5, 7, 9, 11] = Except.ok (out, calls) ∧
      pixelate 4 3 2 2 [1, 3, 5, 7, 9, 11] = Except.ok out ∧ calls.Nodup :=
  (pixelate_mosaic 4 3 2 2 [1, 3, 5, 7, 9, 11] (by decide) (by decide) (by decide) (by decide)
    (by decide) rfl (by decide)
    (fun px py k _ _ _ =>
      lt_of_le_of_lt (tileSum_le _ _ _ _ _ _ _)
        (lt_of_le_of_lt (Nat.mul_le_mul_right 255
          (Nat.mul_le_mul (Nat.min_le_left 2 _) (Nat.min_le_left 2 _))) (by decide)))).imp
    (fun _ h => h.imp (fun _ h2 => ⟨h2.1, h2.2.1, h2.2.2.2.1⟩))

/-- Claim C19: idempotence of the pixelation.  For screen dimensions that fit an
`int`, a buffer of `width * height < 2 ^ 32` pixels and a tile size `ps >= 1`
with `ps * ps * 255 < 2 ^ 32`, the tile loop of `main` terminates, and run again
on its own result with the same tile size it returns that result unchanged. -/
theorem pixelate_idempotent (fuel width height ps : Nat) (data : List Nat)
    (hps : 1 ≤ ps) (hno : ps * ps * 255 < U32) (hw : width < 2 ^ 31) (hh : height < 2 ^ 31)
    (hsz : width * height < U32) (hlen : data.length = width * height)
    (hfuel : max width height < fuel) :
    ∃ out, pixelate fuel width height ps data = Except.ok out ∧
      pixelate fuel width height ps out = Except.ok out := by
  have hpsU : ps < U32 := by
    have h1 : ps ≤ ps * ps := Nat.le_mul_self ps
    have h2 : ps * ps ≤ ps * ps * 255 := Nat.le_mul_of_pos_right _ (by decide)
    omega
  obtain ⟨out, calls, r1, r2, r3, -, -, -⟩ :=
    pixelateT_spec fuel width height ps data hps hpsU hw hh hsz hlen hfuel
  have hfirst : pixelate fuel width height ps data = Except.ok out := by
    rw [pixelateT_fst, r1]; rfl
  have hcall : ∀ x y, x < width → y < height → ps ∣ x → ps ∣ y →
      compute_pixel width height out x y ps = Except.ok out := by
    intro x y hx hy hdx hdy
    apply compute_pixel_fixed width height out x y ps
      (tilePixel width data x y (min ps (height - y)) (min ps (width - x))) hx hy hps hsz r2
      (tilePixel_lt _ _ _ _ _ _)
    · intro a b ha hb hin
      rw [r3 a b ha hb]
      unfold mosaicPixel
      rw [origin_of_mem ps x a hdx hin.1.1 (by omega),
        origin_of_mem ps y b hdy hin.2.1 (by omega)]
    · intro k hk
      rw [byteOf_tilePixel _ _ _ _ _ _ k hk]
      have hb := tileByte_lt width data x y (min ps (height - y)) (min ps (width - x)) k
      have ha : min ps (height - y) * min ps (width - x) ≤ ps * ps :=
        Nat.mul_le_mul (Nat.min_le_left _ _) (Nat.min_le_left _ _)
      have hm : tileByte width data x y (min ps (height - y)) (min ps (width - x)) k *
          (min ps (height - y) * min ps (width - x)) ≤ 255 * (ps * ps) :=
        Nat.mul_le_mul (by omega) ha
      omega
  have hrow : ∀ y d, y < height → ((ps ∣ y ∨ y = height) ∧ d = out) →
      ∃ d1, rowLoop width height ps y fuel 0 d = Except.ok d1 ∧
        ((ps ∣ min (y + ps) height ∨ min (y + ps) height = height) ∧ d1 = out) := by
    intro y d hy hI
    obtain ⟨i1, rfl⟩ := hI
    have hdy : ps ∣ y := by
      rcases i1 with h | h
      · exact h
      · omega
    obtain ⟨d1, s1, -, s2⟩ := rowLoop_inv width height ps y hps hw
      (fun x d' => (ps ∣ x ∨ x = width) ∧ d' = d)
      (fun x d' hx hI => by
        obtain ⟨j1, rfl⟩ := hI
        have hdx : ps ∣ x := by
          rcases j1 with h | h
          · exact h
          · omega
        refine ⟨d', hcall x y hx hy hdx hdy, ?_, rfl⟩
        by_cases hle : x + ps ≤ width
        · left
          rw [Nat.min_eq_left hle]
          exact Nat.dvd_add hdx (Nat.dvd_refl ps)
        · right
          omega)
      fuel 0 d (by omega) (Or.inl (by omega)) (Nat.zero_le _) ⟨Or.inl (Nat.dvd_zero ps), rfl⟩
    refine ⟨d1, s1, ?_, s2⟩
    by_cases hle : y + ps ≤ height
    · left
      rw [Nat.min_eq_left hle]
      exact Nat.dvd_add hdy (Nat.dvd_refl ps)
    · right
      omega
  obtain ⟨out2, t1, -, t2⟩ := tileLoop_inv width height ps fuel hps hh
    (fun y d => (ps ∣ y ∨ y = height) ∧ d = out) hrow
    fuel 0 out (by omega) (Or.inl (by omega)) (Nat.zero_le _) ⟨Or.inl (Nat.dvd_zero ps), rfl⟩
  refine ⟨out, hfirst, ?_⟩
  unfold pixelate
  rw [t1, t2]

/-- Claim C19 at a concrete input: a 3 by 2 image with tile size 2. -/
theorem pixelate_idempotent_witness :
    ∃ out, pixelate 4 3 2 2 [1, 3, 5, 7, 9, 11] = Except.ok out ∧
      pixelate 4 3 2 2 out = Except.ok out :=
  pixelate_idempotent 4 3 2 2 [1, 3, 5, 7, 9, 11] (by decide) (by decide) (by decide)
    (by decide) (by decide) rfl (by decide)

end Slock
